import Mathlib

/-!
# rabbitmq_exporter: coercion, CPU exporter, upstream client, filter configuration

A shallow embedding of the Go sources `promethues.go`, `exporter_cpu.go` and
`config.go`.  Go code that may panic returns a `GoResult`; Go's `(value, error)`
pairs are pairs whose second component is an `Option GoError` (`none` is a nil
error).  Calls that leave the process (the HTTP call of resty, the environment,
files, the decoding of the configuration file by gonfig) are inputs of the
model.  The library functions the sources call are modelled next to their call
sites, from their Go sources and documentation:

* `float64` is IEEE 754 binary64 with exact integer arithmetic (`Float64`);
  integer conversion and `strconv.ParseFloat` round to nearest, ties to even;
* `strconv.ParseFloat` follows the scanner of Go 1.13 and later (underscores,
  hexadecimal literals, `Inf`, `Infinity`, `NaN`);
* the rounding and the scanner are checked against statements that do not
  mention them: `Float64.RoundsTo` (IEEE 754 round-to-nearest-even, with the
  overflow threshold) and the grammar `FloatText` of markers and literals;
* `regexp` covers the fragment of RE2 syntax of the patterns in `config.go`;
  a pattern outside the fragment is reported as a compile error;
* `reflect` is followed for the dynamic types of `GoValue`.

Strings are Lean strings, sequences of Unicode characters.
-/

set_option maxRecDepth 8000
set_option exponentiation.threshold 2000

namespace RabbitmqExporter

/-! ## Go runtime -/

/-- Outcome of running a piece of Go code: it returns, or the goroutine panics. -/
inductive GoResult (α : Type) where
  | ret (v : α)
  | panic (msg : String)
deriving DecidableEq, Repr

namespace GoResult

/-- Sequencing: a panic aborts everything that follows. -/
def bind {α β : Type} (x : GoResult α) (f : α → GoResult β) : GoResult β :=
  match x with
  | ret v => f v
  | panic m => panic m

instance : Monad GoResult where
  pure := ret
  bind := bind

end GoResult

/-- Go `error` values, by the place that creates them. -/
inductive GoError where
  /-- `*strconv.NumError` wrapping `strconv.ErrSyntax`. -/
  | syntaxError (fn str : String)
  /-- `*strconv.NumError` wrapping `strconv.ErrRange`. -/
  | rangeError (fn str : String)
  /-- `errors.New` and `fmt.Errorf` in the repository. -/
  | errorString (msg : String)
  /-- An error handed back by a third-party library (resty, gonfig, the OS). -/
  | library (origin msg : String)
deriving DecidableEq, Repr

/-! ## IEEE 754 binary64 -/

/-- A `float64`: NaN, an infinity, or the finite value `(-1)^neg * m * 2^e`
in IEEE form (`2^52 ≤ m < 2^53` and `-1074 ≤ e ≤ 971` for a normal number,
`m < 2^52` and `e = -1074` for a subnormal one or zero). -/
inductive Float64 where
  | nan
  | inf (neg : Bool)
  | fin (neg : Bool) (m : Nat) (e : Int)
deriving DecidableEq, Repr

namespace Float64

/-- Positive zero, the value of `float64(0)` and of the literal `0`. -/
def zero : Float64 := fin false 0 (-1074)

/-- The rational number a finite float stands for. -/
def toRat : Float64 → Option ℚ
  | nan => none
  | inf _ => none
  | fin neg m e => some ((if neg then -1 else 1) * (m : ℚ) * (2 : ℚ) ^ e)

/-- Bit length with explicit fuel. -/
def bitLenAux : Nat → Nat → Nat
  | 0, _ => 0
  | f + 1, n => if n = 0 then 0 else bitLenAux f (n / 2) + 1

/-- Number of binary digits of `n` (`0` for `0`). -/
def bitLen (n : Nat) : Nat := bitLenAux n n

/-- The integer part of the binary logarithm of `n / d`, for `n, d > 0`. -/
def ilog2 (n d : Nat) : Int :=
  let k : Int := (bitLen n : Int) - (bitLen d : Int)
  if d * 2 ^ k.toNat ≤ n * 2 ^ (-k).toNat then k else k - 1

/-- The integer nearest to `n / d`, ties going to the even one. -/
def roundHalfEven (n d : Nat) : Nat :=
  let q := n / d
  let r := n % d
  if 2 * r < d then q
  else if d < 2 * r then q + 1
  else if q % 2 = 0 then q else q + 1

/-- Round-to-nearest-even of `(-1)^neg * n / d` to binary64; the flag tells
that the magnitude overflowed to an infinity. -/
def round (neg : Bool) (n d : Nat) : Float64 × Bool :=
  if n = 0 then (fin neg 0 (-1074), false)
  else
    let e : Int := max (ilog2 n d - 52) (-1074)
    let m := roundHalfEven (n * 2 ^ (-e).toNat) (d * 2 ^ e.toNat)
    let m1 := if m = 2 ^ 53 then 2 ^ 52 else m
    let e1 := if m = 2 ^ 53 then e + 1 else e
    if 971 < e1 then (inf neg, true) else (fin neg m1 e1, false)

/-- The Go conversion `float64(i)` of an integer (any width up to 64 bits). -/
def ofInt (i : Int) : Float64 := (round (decide (i < 0)) i.natAbs 1).1

/-- The magnitudes of the finite `float64` numbers. -/
def IsMagnitude (q : ℚ) : Prop :=
  ∃ (m : Nat) (e : Int), m < 2 ^ 53 ∧ -1074 ≤ e ∧ e ≤ 971 ∧ q = (m : ℚ) * (2 : ℚ) ^ e

/-- The least magnitude that rounds to an infinity, `2^1024 - 2^970`: half a
unit in the last place above the largest finite number `2^1024 - 2^971`. -/
def overflowThreshold : ℚ := 2 ^ 1024 - 2 ^ 970

/-- IEEE 754 rounding to nearest, ties to even, stated without reference to
an algorithm: `r` is the `float64` for the magnitude `x ≥ 0` with sign `neg`,
and the overflow flag.  At or above the threshold the result is the infinity
with the flag set; below it the result is a finite number in IEEE form, no
finite `float64` magnitude is nearer to `x`, and if another one is as near
then the significand of the result is even. -/
def RoundsTo (neg : Bool) (x : ℚ) (r : Float64 × Bool) : Prop :=
  (overflowThreshold ≤ x → r = (inf neg, true)) ∧
  (x < overflowThreshold →
    ∃ (m : Nat) (e : Int), r = (fin neg m e, false) ∧ m < 2 ^ 53 ∧ -1074 ≤ e ∧ e ≤ 971
      ∧ (2 ^ 52 ≤ m ∨ e = -1074)
      ∧ (∀ q, IsMagnitude q → |(m : ℚ) * (2 : ℚ) ^ e - x| ≤ |q - x|)
      ∧ (∀ q, IsMagnitude q → q ≠ (m : ℚ) * (2 : ℚ) ^ e →
            |q - x| = |(m : ℚ) * (2 : ℚ) ^ e - x| → m % 2 = 0))

end Float64

/-! ## `strconv.ParseFloat(s, 64)` -/

namespace strconv

/-- Go's `lower(c)`: the byte with bit `0x20` set. -/
def lower (c : Char) : Nat := c.toNat ||| 0x20

/-- The test `'0' <= c && c <= '9'`. -/
def isDigit (c : Char) : Bool := decide (48 ≤ c.toNat) && decide (c.toNat ≤ 57)

/-- The test `'a' <= lower(c) && lower(c) <= 'f'`. -/
def isHexLetter (c : Char) : Bool := decide (97 ≤ lower c) && decide (lower c ≤ 102)

/-- The number written by a list of decimal digits. -/
def digitsVal (ds : List Char) : Nat := ds.foldl (fun a c => a * 10 + (c.toNat - 48)) 0

/-- The folding `if 'A' <= c && c <= 'Z' { c += 'a' - 'A' }` of
`commonPrefixLenIgnoreCase`. -/
def foldCase (c : Char) : Char :=
  if 65 ≤ c.toNat ∧ c.toNat ≤ 90 then Char.ofNat (c.toNat + 32) else c

/-- `commonPrefixLenIgnoreCase(s, prefix)`: how many leading characters of `s`
agree with the lower-case `pre`, upper-case ASCII letters of `s` folded. -/
def commonPrefixLenIgnoreCase : List Char → List Char → Nat
  | c :: cs, p :: ps =>
    if foldCase c = p then commonPrefixLenIgnoreCase cs ps + 1 else 0
  | _, _ => 0

/-- The `'i', 'I'` case of `special`, reached directly or by falling through
from a sign: `nsign` characters are already consumed. -/
def specialInf (neg : Bool) (s : List Char) : Option (Float64 × List Char) :=
  let n := commonPrefixLenIgnoreCase s "infinity".toList
  let n1 := if 3 < n ∧ n < 8 then 3 else n
  if n1 = 3 ∨ n1 = 8 then some (Float64.inf neg, s.drop n1) else none

/-- `special(s)`: recognises a possibly signed `inf`/`infinity` and `nan`,
ignoring case; gives the value and the unread rest of the input. -/
def special : List Char → Option (Float64 × List Char)
  | [] => none
  | c :: cs =>
    if c = '+' ∨ c = '-' then specialInf (decide (c = '-')) cs
    else if c = 'i' ∨ c = 'I' then specialInf false (c :: cs)
    else if c = 'n' ∨ c = 'N' then
      if commonPrefixLenIgnoreCase (c :: cs) "nan".toList = 3 then
        some (Float64.nan, (c :: cs).drop 3)
      else none
    else none

/-- The local variables of `readFloat`'s digit loop.  `mantissa` keeps every
digit read (Go keeps 19 and a `trunc` flag, and recovers the rest on its slow
path). -/
structure Scan where
  mantissa : Nat
  nd : Nat
  dp : Int
  sawdot : Bool
  sawdigits : Bool
  underscores : Bool
deriving DecidableEq, Repr

/-- The digit loop of `readFloat`: returns the state and the input left at
the first character that ends the loop. -/
def digitLoop (hex : Bool) (st : Scan) : List Char → Scan × List Char
  | [] => (st, [])
  | c :: cs =>
    if c = '_' then digitLoop hex { st with underscores := true } cs
    else if c = '.' then
      if st.sawdot then (st, c :: cs)
      else digitLoop hex { st with sawdot := true, dp := st.nd } cs
    else if isDigit c then
      if c = '0' ∧ st.nd = 0 then
        digitLoop hex { st with sawdigits := true, dp := st.dp - 1 } cs
      else
        digitLoop hex { st with sawdigits := true, nd := st.nd + 1,
                                mantissa := st.mantissa * (if hex then 16 else 10) + (c.toNat - 48) } cs
    else if hex ∧ isHexLetter c then
      digitLoop hex { st with sawdigits := true, nd := st.nd + 1,
                              mantissa := st.mantissa * 16 + (lower c - 97 + 10) } cs
    else (st, c :: cs)

/-- The exponent loop of `readFloat`: digits and underscores; the exponent
stops growing once it has reached 10000. -/
def expLoop (e : Nat) (underscores : Bool) : List Char → Nat × Bool × List Char
  | [] => (e, underscores, [])
  | c :: cs =>
    if c = '_' then expLoop e true cs
    else if isDigit c then expLoop (if e < 10000 then e * 10 + (c.toNat - 48) else e) underscores cs
    else (e, underscores, c :: cs)

/-- The main loop of `underscoreOK`; `saw` is the last kind of character
seen (`'0'` a digit, `'_'` an underscore, `'!'` anything else, `'^'` the start). -/
def underscoreLoop (hex : Bool) (saw : Char) : List Char → Bool
  | [] => saw != '_'
  | c :: cs =>
    if isDigit c || (hex && isHexLetter c) then underscoreLoop hex '0' cs
    else if c = '_' then
      if saw != '0' then false else underscoreLoop hex '_' cs
    else if saw = '_' then false
    else underscoreLoop hex '!' cs

/-- `underscoreOK(s)`: underscores stand only between digits, or between a
base prefix and a digit. -/
def underscoreOK (s : List Char) : Bool :=
  let s1 := match s with
    | c :: cs => if c = '-' ∨ c = '+' then cs else s
    | [] => s
  match s1 with
  | c0 :: c1 :: cs =>
    if c0 = '0' ∧ (lower c1 = 98 ∨ lower c1 = 111 ∨ lower c1 = 120) then
      underscoreLoop (lower c1 = 120) '0' cs
    else underscoreLoop false '^' s1
  | _ => underscoreLoop false '^' s1

/-- What `readFloat` hands to the conversion: the sign, the base, and the
exact value `mantissa * 10^exp` (`mantissa * 2^exp` for a hexadecimal literal). -/
structure FloatLit where
  neg : Bool
  hex : Bool
  mantissa : Nat
  exp : Int
deriving DecidableEq, Repr

/-- The part of `readFloat` after the digits: the optional exponent, and the
check of the underscores over the consumed text `s[:i]`.  `s` is the whole
input, `rest` what the digit loop left. -/
def readExponent (s : List Char) (neg hex : Bool) (st : Scan) (rest : List Char) :
    Option (FloatLit × List Char) :=
  let dp0 : Int := if st.sawdot then st.dp else st.nd
  let dp1 : Int := if hex then dp0 * 4 else dp0
  let ndMant : Int := if hex then (st.nd : Int) * 4 else st.nd
  let finish (dp : Int) (underscores : Bool) (rest1 : List Char) : Option (FloatLit × List Char) :=
    if underscores && !underscoreOK (s.take (s.length - rest1.length)) then none
    else some ({ neg := neg, hex := hex, mantissa := st.mantissa,
                 exp := if st.mantissa = 0 then 0 else dp - ndMant }, rest1)
  match rest with
  | c :: cs =>
    if lower c = (if hex then 112 else 101) then
      match cs with
      | [] => none
      | c1 :: cs1 =>
        let esign : Int := if c1 = '-' then -1 else 1
        let ds := if c1 = '+' ∨ c1 = '-' then cs1 else c1 :: cs1
        match ds with
        | [] => none
        | d :: _ =>
          if !isDigit d then none
          else
            let r := expLoop 0 st.underscores ds
            finish (dp1 + (r.1 : Int) * esign) r.2.1 r.2.2
    else if hex then none
    else finish dp1 st.underscores rest
  | [] => if hex then none else finish dp1 st.underscores rest

/-- The test `i+2 < len(s) && s[i] == '0' && lower(s[i+1]) == 'x'` of
`readFloat`, on the input after the sign. -/
def hexMark : List Char → Bool
  | c0 :: c1 :: _ :: _ => decide (c0 = '0') && decide (lower c1 = 120)
  | _ => false

/-- `readFloat(s)`: `none` when Go's `ok` is false, otherwise the literal
read and the input left after it. -/
def readFloat (s : List Char) : Option (FloatLit × List Char) :=
  match s with
  | [] => none
  | c :: cs =>
    let neg := decide (c = '-')
    let s1 := if c = '+' ∨ c = '-' then cs else s
    let hex := hexMark s1
    let s2 := if hex then s1.drop 2 else s1
    let r := digitLoop hex { mantissa := 0, nd := 0, dp := 0, sawdot := false,
                             sawdigits := false, underscores := false } s2
    if !r.1.sawdigits then none
    else readExponent s neg hex r.1 r.2

/-- The nearest `float64` to the value of a literal, and whether it
overflowed (Go's `ovf`). -/
def FloatLit.toFloat (l : FloatLit) : Float64 × Bool :=
  let b : Nat := if l.hex then 2 else 10
  if 0 ≤ l.exp then Float64.round l.neg (l.mantissa * b ^ l.exp.toNat) 1
  else Float64.round l.neg l.mantissa (b ^ (-l.exp).toNat)

/-- `strconv.ParseFloat(s, 64)`.  A string that is not wholly consumed, or
not well formed, gives `0` and a syntax error; a well-formed literal beyond
the `float64` range gives an infinity and a range error. -/
def ParseFloat (s : String) : Float64 × Option GoError :=
  match special s.toList with
  | some (f, rest) =>
    if rest = [] then (f, none) else (Float64.zero, some (.syntaxError "ParseFloat" s))
  | none =>
    match readFloat s.toList with
    | none => (Float64.zero, some (.syntaxError "ParseFloat" s))
    | some (lit, rest) =>
      if rest = [] then
        let r := lit.toFloat
        (r.1, if r.2 then some (.rangeError "ParseFloat" s) else none)
      else (Float64.zero, some (.syntaxError "ParseFloat" s))

end strconv

/-! ## The texts of floating-point numbers (specification side)

The grammar of the texts that stand for a number, written without reference
to the scanner of `strconv`: a literal is given by its parts, and its value is
computed from the parts. -/

namespace FloatText

/-- The decimal digits. -/
def decDigits : List Char := ['0', '1', '2', '3', '4', '5', '6', '7', '8', '9']

/-- The letters that are hexadecimal digits. -/
def hexLetters : List Char := ['a', 'b', 'c', 'd', 'e', 'f', 'A', 'B', 'C', 'D', 'E', 'F']

/-- A digit of the base: hexadecimal when `hex`, decimal otherwise. -/
def isDig (hex : Bool) (c : Char) : Bool :=
  decide (c ∈ decDigits) || (hex && decide (c ∈ hexLetters))

/-- The value of a digit: `0..9`, `a..f` and `A..F` for `10..15`. -/
def digVal (c : Char) : Nat :=
  if c ∈ decDigits then c.toNat - '0'.toNat
  else if c ∈ ['a', 'b', 'c', 'd', 'e', 'f'] then c.toNat - 'a'.toNat + 10
  else c.toNat - 'A'.toNat + 10

/-- The number written in base `b` by the digits among `cs`, the most
significant first; characters that are not digits (underscores) are skipped. -/
def numVal (hex : Bool) (cs : List Char) : Nat :=
  (cs.filter (isDig hex)).foldl (fun a c => a * (if hex then 16 else 10) + digVal c) 0

/-- How many digits there are among `cs`. -/
def numDigits (hex : Bool) (cs : List Char) : Nat := (cs.filter (isDig hex)).length

/-- A sign is nothing, `+` or `-`. -/
def IsSign (sg : List Char) : Prop := sg = [] ∨ sg = ['+'] ∨ sg = ['-']

instance (sg : List Char) : Decidable (IsSign sg) :=
  inferInstanceAs (Decidable (sg = [] ∨ sg = ['+'] ∨ sg = ['-']))

/-- Two neighbours agree with the rule on underscores: next to an underscore
stands a digit. -/
def adjacentOK (hex : Bool) (a b : Char) : Prop :=
  (a = '_' → isDig hex b = true) ∧ (b = '_' → isDig hex a = true)

instance (hex : Bool) (a b : Char) : Decidable (adjacentOK hex a b) :=
  inferInstanceAs (Decidable ((a = '_' → isDig hex b = true) ∧ (b = '_' → isDig hex a = true)))

/-- The rule on underscores is decidable along a text. -/
def decideAdjacent (hex : Bool) :
    (a : Char) → (l : List Char) → Decidable (List.Chain (adjacentOK hex) a l)
  | _, [] => isTrue List.Chain.nil
  | a, b :: l =>
    match (inferInstance : Decidable (adjacentOK hex a b)), decideAdjacent hex b l with
    | isTrue h1, isTrue h2 => isTrue (List.Chain.cons h1 h2)
    | isFalse h1, _ => isFalse (fun h => h1 (List.chain_cons.mp h).1)
    | _, isFalse h2 => isFalse (fun h => h2 (List.chain_cons.mp h).2)

instance (hex : Bool) (a : Char) (l : List Char) :
    Decidable (List.Chain (adjacentOK hex) a l) := decideAdjacent hex a l

/-- The parts of a floating-point literal: sign, base (with the letter of the
prefix `0x`), the digits before the point, whether there is a point, the
digits after it, and the exponent: its letter, its sign and its digits. -/
structure Literal where
  sign : List Char
  hex : Bool
  mark : Char
  ip : List Char
  dot : Bool
  fp : List Char
  exp : Option (Char × List Char × List Char)
deriving DecidableEq, Repr

namespace Literal

/-- The text of the exponent. -/
def expText (l : Literal) : List Char :=
  match l.exp with
  | none => []
  | some (ec, es, ed) => ec :: (es ++ ed)

/-- The text after the sign and the base prefix. -/
def body (l : Literal) : List Char :=
  l.ip ++ (if l.dot then '.' :: l.fp else []) ++ l.expText

/-- The text of the literal. -/
def render (l : Literal) : List Char :=
  l.sign ++ ((if l.hex then ['0', l.mark] else []) ++ l.body)

/-- The exponent part is well formed: the letter of the base (`e` for a
decimal literal, `p` for a hexadecimal one, which must have an exponent), a
sign, a decimal digit, then decimal digits and underscores. -/
def ExpOK (l : Literal) : Prop :=
  match l.exp with
  | none => l.hex = false
  | some (ec, es, ed) =>
    (if l.hex then ec = 'p' ∨ ec = 'P' else ec = 'e' ∨ ec = 'E')
      ∧ IsSign es
      ∧ ed.head?.map (isDig false) = some true
      ∧ ∀ c ∈ ed, isDig false c = true ∨ c = '_'

/-- The literal is well formed: digits of the base and underscores around an
optional point, at least one digit, a well-formed exponent, and every
underscore between two digits (the base prefix counting as a digit): in the
text after the prefix, put between blanks (or after a `0` for the prefix),
all neighbours agree with the rule on underscores
(`chain_iff_between_digits` below spells this out). -/
def WellFormed (l : Literal) : Prop :=
  IsSign l.sign
    ∧ (l.hex = true → l.mark = 'x' ∨ l.mark = 'X')
    ∧ (∀ c ∈ l.ip ++ l.fp, isDig l.hex c = true ∨ c = '_')
    ∧ (∃ c ∈ l.ip ++ l.fp, isDig l.hex c = true)
    ∧ (l.dot = false → l.fp = [])
    ∧ l.ExpOK
    ∧ List.Chain (adjacentOK l.hex) (if l.hex then '0' else ' ') (l.body ++ [' '])

instance (l : Literal) : Decidable l.ExpOK :=
  match l with
  | ⟨_, hex, _, _, _, _, none⟩ => inferInstanceAs (Decidable (hex = false))
  | ⟨_, hex, _, _, _, _, some (ec, es, ed)⟩ =>
    inferInstanceAs (Decidable
      ((if hex then ec = 'p' ∨ ec = 'P' else ec = 'e' ∨ ec = 'E')
        ∧ IsSign es
        ∧ ed.head?.map (isDig false) = some true
        ∧ ∀ c ∈ ed, isDig false c = true ∨ c = '_'))

instance (l : Literal) : Decidable l.WellFormed :=
  inferInstanceAs (Decidable
    (IsSign l.sign
      ∧ (l.hex = true → l.mark = 'x' ∨ l.mark = 'X')
      ∧ (∀ c ∈ l.ip ++ l.fp, isDig l.hex c = true ∨ c = '_')
      ∧ (∃ c ∈ l.ip ++ l.fp, isDig l.hex c = true)
      ∧ (l.dot = false → l.fp = [])
      ∧ l.ExpOK
      ∧ List.Chain (adjacentOK l.hex) (if l.hex then '0' else ' ') (l.body ++ [' '])))

/-- The sign of the number written. -/
def neg (l : Literal) : Bool := decide (l.sign = ['-'])

/-- The number written by the digits of the mantissa, the point ignored. -/
def mantissa (l : Literal) : Nat := numVal l.hex (l.ip ++ l.fp)

/-- The number written by the digits of the exponent. -/
def expDigits (l : Literal) : Nat :=
  match l.exp with
  | none => 0
  | some (_, _, ed) => numVal false ed

/-- The exponent is negative. -/
def expNeg (l : Literal) : Bool :=
  match l.exp with
  | none => false
  | some (_, es, _) => decide (es = ['-'])

/-- The power of the base (`10`, or `2` for a hexadecimal literal) by which
the mantissa is multiplied: the written exponent, less the digits after the
point (four binary places for each hexadecimal digit). -/
def scale (l : Literal) : Int :=
  (if l.expNeg then -(l.expDigits : Int) else (l.expDigits : Int))
    - (if l.hex then 4 else 1) * (numDigits l.hex l.fp : Int)

/-- The magnitude of the number written. -/
def value (l : Literal) : ℚ := (l.mantissa : ℚ) * (if l.hex then (2 : ℚ) else 10) ^ l.scale

end Literal

/-- The letters of `cs` are those of the lower-case `word`, in any case. -/
def eqIgnoreCase : List Char → List Char → Bool
  | [], [] => true
  | c :: cs, p :: ps => (c == p || c == Char.ofNat (p.toNat - 32)) && eqIgnoreCase cs ps
  | _, _ => false

/-- The text without its sign. -/
def unsigned : List Char → List Char
  | c :: cs => if c = '+' ∨ c = '-' then cs else c :: cs
  | [] => []

/-- The marker of an infinity: `inf` or `infinity` in any letter case, with
an optional sign. -/
def isInfMarker (cs : List Char) : Bool :=
  eqIgnoreCase (unsigned cs) "inf".toList || eqIgnoreCase (unsigned cs) "infinity".toList

/-- The marker of not-a-number: `nan` in any letter case, without a sign. -/
def isNaNMarker (cs : List Char) : Bool := eqIgnoreCase cs "nan".toList

/-- The text is a floating-point literal. -/
def IsLiteral (cs : List Char) : Prop := ∃ l : Literal, l.WellFormed ∧ cs = l.render

end FloatText

/-! ## `promethues.go`: the coercion utility -/

/-- A value held in a Go `interface{}`: the dynamic types `getFloat` names,
the remaining integer widths, and what `encoding/json` stores in an
`interface{}` (`float64`, `string`, `bool`, nil, `[]interface{}`,
`map[string]interface{}`).  Integer payloads are meant to lie in their
type's range. -/
inductive GoValue where
  | nil
  | float64 (f : Float64)
  | float32 (f : Float64)
  | int64 (i : Int)
  | int32 (i : Int)
  | int (i : Int)
  | uint64 (n : Nat)
  | uint32 (n : Nat)
  | uint (n : Nat)
  | int8 (i : Int)
  | int16 (i : Int)
  | uint8 (n : Nat)
  | uint16 (n : Nat)
  | uintptr (n : Nat)
  | string (s : String)
  | bool (b : Bool)
  | slice (xs : List GoValue)
  | map (kvs : List (String × GoValue))

/-- `getFloat(unk)`.  The `default` branch goes through `reflect`: a nil
interface has the zero `reflect.Value`, on which `Type()` panics; the integer
kinds outside the switch are convertible to `float64`; `bool`,
`[]interface{}` and `map[string]interface{}` are convertible neither to
`float64` nor to `string`. -/
def getFloat (unk : GoValue) : GoResult (Float64 × Option GoError) :=
  match unk with
  | .float64 i => .ret (i, none)
  | .float32 i => .ret (i, none)
  | .int64 i => .ret (Float64.ofInt i, none)
  | .int32 i => .ret (Float64.ofInt i, none)
  | .int i => .ret (Float64.ofInt i, none)
  | .uint64 i => .ret (Float64.ofInt i, none)
  | .uint32 i => .ret (Float64.ofInt i, none)
  | .uint i => .ret (Float64.ofInt i, none)
  | .string i => .ret (strconv.ParseFloat i)
  | .nil => .panic "reflect: call of reflect.Value.Type on zero Value"
  | .int8 i => .ret (Float64.ofInt i, none)
  | .int16 i => .ret (Float64.ofInt i, none)
  | .uint8 i => .ret (Float64.ofInt i, none)
  | .uint16 i => .ret (Float64.ofInt i, none)
  | .uintptr i => .ret (Float64.ofInt i, none)
  | .bool _ => .ret (Float64.nan, some (.errorString "can't convert bool to float64"))
  | .slice _ =>
    .ret (Float64.nan, some (.errorString "can't convert []interface \x7b\x7d to float64"))
  | .map _ =>
    .ret (Float64.nan, some (.errorString "can't convert map[string]interface \x7b\x7d to float64"))

/-! ## `promethues.go`: the upstream client -/

/-- The `MetricData` struct. -/
structure MetricData where
  Name : String := ""
  Instance : String := ""
  Pod : String := ""
  Node : String := ""
  Namespace : String := ""

/-- The `ResultData` struct: one row of a query result. -/
structure ResultData where
  Metric : MetricData := {}
  Value : List GoValue := []

/-- The `Data` struct. -/
structure Data where
  ResultType : String := ""
  Result : List ResultData := []

/-- The `Response` struct: the decoded envelope. -/
structure Response where
  Status : String := ""
  Data : Data := {}

namespace resty

/-- The request `execute` builds. -/
structure Request where
  header : List (String × String)
  queryString : String
  url : String

/-- What the repository reads of a resty response: `StatusCode()` (`0` when
no HTTP response was received) and `Result()`, the `&Response{}` given to
`SetResult`, filled when a success body was decoded. -/
structure Response where
  statusCode : Int
  result : RabbitmqExporter.Response

/-- A resty client, as the function from a GET request to the pair
`(resp, err)` that `Request.Get` returns. -/
structure Client where
  get : Request → Option Response × Option GoError

end resty

/-- The `Client` struct. -/
structure Client where
  host : String
  port : String
  httpClient : resty.Client

/-- `Client.execute(method, uri, query)`.  Calling `StatusCode()` through a
nil `*resty.Response` dereferences nil. -/
def Client.execute (c : Client) (_method uri query : String) :
    GoResult (Option Response × Option GoError) :=
  let r := c.httpClient.get
    { header := [("Accept", "application/json")], queryString := query,
      url := "http://" ++ c.host ++ ":" ++ c.port ++ "/" ++ uri }
  if r.2.isSome && r.1.isNone then .ret (none, r.2)
  else
    match r.1 with
    | none => .panic "runtime error: invalid memory address or nil pointer dereference"
    | some resp =>
      if resp.statusCode ≠ 200 then .ret (none, some (.errorString "not able to get metrics"))
      else .ret (some resp.result, none)

/-! ## `exporter_cpu.go` -/

namespace prometheus

/-- `model.IsValidMetricName` (legacy validation): `[a-zA-Z_:][a-zA-Z0-9_:]*`. -/
def isValidMetricName (s : String) : Bool :=
  match s.toList with
  | [] => false
  | c :: cs =>
    (c.isAlpha || c = '_' || c = ':') && cs.all (fun d => d.isAlphanum || d = '_' || d = ':')

/-- `checkLabelName`: `[a-zA-Z_][a-zA-Z0-9_]*`, not starting with `__`. -/
def checkLabelName (s : String) : Bool :=
  match s.toList with
  | [] => false
  | c :: cs =>
    (c.isAlpha || c = '_') && cs.all (fun d => d.isAlphanum || d = '_')
      && !(List.isPrefixOf ['_', '_'] (c :: cs))

/-- A metric descriptor: the fields of `prometheus.Desc` the repository relies
on; `err` is the construction error `NewDesc` records. -/
structure Desc where
  fqName : String
  help : String
  variableLabels : List String
  err : Option GoError
deriving DecidableEq

/-- `prometheus.NewDesc(fqName, help, variableLabels, nil)`. -/
def NewDesc (fqName help : String) (variableLabels : List String) : Desc :=
  let err : Option GoError :=
    if !isValidMetricName fqName then
      some (.errorString ("\"" ++ fqName ++ "\" is not a valid metric name"))
    else
      match variableLabels.find? (fun l => !checkLabelName l) with
      | some l =>
        some (.errorString ("\"" ++ l ++ "\" is not a valid label name for metric \"" ++ fqName ++ "\""))
      | none =>
        if variableLabels.Nodup then none else some (.errorString "duplicate label names")
  { fqName := fqName, help := help, variableLabels := variableLabels, err := err }

/-- The `ValueType` enumeration. -/
inductive ValueType where
  | CounterValue
  | GaugeValue
  | UntypedValue
deriving DecidableEq

/-- A constant metric: one sample. -/
structure Metric where
  desc : Desc
  valType : ValueType
  val : Float64
  labelValues : List String
deriving DecidableEq

/-- `prometheus.MustNewConstMetric`: panics when the descriptor carries an
error or the number of label values differs from the number of declared
label names.  (Label values are Lean strings, hence valid UTF-8.) -/
def MustNewConstMetric (desc : Desc) (valueType : ValueType) (value : Float64)
    (labelValues : List String) : GoResult Metric :=
  match desc.err with
  | some _ => .panic "invalid descriptor"
  | none =>
    if labelValues.length ≠ desc.variableLabels.length then
      .panic "inconsistent label cardinality"
    else .ret { desc := desc, valType := valueType, val := value, labelValues := labelValues }

end prometheus

/-- The package variable `utilizationDesc`. -/
def utilizationDesc : prometheus.Desc :=
  prometheus.NewDesc "rabbitmq:cpu_utilization:rate5m" "rabbitmq_exporter: CPU utilization"
    ["hsdp_instance_guid", "hsdp_instance_node_name"]

/-- The `exporterCPU` struct. -/
structure exporterCPU where
  client : Client
  namespace_ : String
  resourceId : String
  instanceGuid : String

/-- The `for _, r := range resp.Data.Result` loop of `Collect`: the samples
sent on `ch`, in order.  The `return` on a coercion error ends the loop. -/
def exporterCPU.collectRows (e : exporterCPU) : List ResultData → GoResult (List prometheus.Metric)
  | [] => .ret []
  | r :: rs =>
    match r.Value[1]? with
    | none => .panic "runtime error: index out of range [1]"
    | some unk =>
      match getFloat unk with
      | .panic m => .panic m
      | .ret (_, some _) => .ret []
      | .ret (val, none) =>
        match prometheus.MustNewConstMetric utilizationDesc .GaugeValue val
            [e.instanceGuid, r.Metric.Node] with
        | .panic m => .panic m
        | .ret metric =>
          match exporterCPU.collectRows e rs with
          | .panic m => .panic m
          | .ret ms => .ret (metric :: ms)

/-- The query text `Collect` sends. -/
def exporterCPU.query (e : exporterCPU) : String :=
  "query=sum(rate(container_cpu_usage_seconds_total\x7bnamespace=\"" ++ e.namespace_
    ++ "\", container=\"" ++ "rabbitmq-k8s" ++ "\", pod=~\"rmq-" ++ e.resourceId
    ++ ".*\"\x7d[5m])) by (node, container)"

/-- `exporterCPU.Collect(ctx, ch)`: the samples sent on `ch`, in order, and
the returned error.  The goroutine is joined before `Collect` returns, so it
is run in line; `ctx` is not read by the source. -/
def exporterCPU.Collect (e : exporterCPU) : GoResult (List prometheus.Metric × Option GoError) :=
  match e.client.execute "GET" "/api/v1/query" e.query with
  | .panic m => .panic m
  | .ret (_, some _) => .ret ([], none)
  | .ret (none, none) => .panic "runtime error: invalid memory address or nil pointer dereference"
  | .ret (some resp, none) =>
    if resp.Data.Result.length = 0 then .ret ([], none)
    else
      match e.collectRows resp.Data.Result with
      | .panic m => .panic m
      | .ret ms => .ret (ms, none)

/-! ## `regexp`: the fragment of RE2 syntax the configuration uses -/

namespace regexp

/-- Syntax tree of a pattern.  Supported: literals, `.`, `^`, `$`, bracket
classes with ranges, groups, `|`, `*`, `+`, `?` (and their lazy forms, which
match the same texts), and the escapes of `escape`. -/
inductive Regex where
  | empty
  | lit (c : Char)
  | anyNotNL
  | cls (neg : Bool) (ranges : List (Char × Char))
  | beginText
  | endText
  | cat (a b : Regex)
  | alt (a b : Regex)
  | star (a : Regex)
  | plus (a : Regex)
  | quest (a : Regex)
deriving DecidableEq, Repr

/-- A place in the text being matched: the number of characters before it
and the characters from it on. -/
abbrev Pos := Nat × List Char

/-- Places reachable by repeating `step` any number of times, every
repetition consuming at least one character; `fuel` bounds the repetitions. -/
def starEnds (step : Pos → List Pos) : Nat → Pos → List Pos
  | 0, st => [st]
  | fuel + 1, st =>
    st :: ((step st).filter (fun t => decide (t.2.length < st.2.length))).flatMap (starEnds step fuel)

/-- All places where a match of the pattern that starts at `st` can end.
`^` and `$` are the beginning and the end of the text (no multi-line mode);
`.` is any character but a newline. -/
def Regex.ends : Regex → Pos → List Pos
  | .empty, st => [st]
  | .lit c, st =>
    match st.2 with
    | d :: ds => if d = c then [(st.1 + 1, ds)] else []
    | [] => []
  | .anyNotNL, st =>
    match st.2 with
    | d :: ds => if d = '\n' then [] else [(st.1 + 1, ds)]
    | [] => []
  | .cls neg ranges, st =>
    match st.2 with
    | d :: ds =>
      if (ranges.any (fun r => decide (r.1 ≤ d) && decide (d ≤ r.2))) != neg then [(st.1 + 1, ds)]
      else []
    | [] => []
  | .beginText, st => if st.1 = 0 then [st] else []
  | .endText, st => if st.2 = [] then [st] else []
  | .cat a b, st => (a.ends st).flatMap b.ends
  | .alt a b, st => a.ends st ++ b.ends st
  | .star a, st => starEnds a.ends st.2.length st
  | .plus a, st => (a.ends st).flatMap (fun t => starEnds a.ends t.2.length t)
  | .quest a, st => st :: a.ends st

/-- Unanchored search: some match starts at some place of the text. -/
def Regex.search (r : Regex) (text : List Char) : Bool :=
  (List.range (text.length + 1)).any (fun i => !(r.ends (i, text.drop i)).isEmpty)

/-- An open group while parsing: the alternatives finished so far and the
pieces of the alternative being read, both most recent first. -/
structure Frame where
  alts : List Regex
  cur : List Regex

/-- The concatenation of pieces given most recent first. -/
def concatAll : List Regex → Regex
  | [] => .empty
  | [r] => r
  | r :: rs => .cat (concatAll rs) r

/-- The pattern of a finished group. -/
def Frame.close (f : Frame) : Regex :=
  f.alts.foldl (fun acc a => .alt a acc) (concatAll f.cur)

/-- Ranges of the Perl classes `\d`, `\w`, `\s`. -/
def perlClass (c : Char) : Option (List (Char × Char)) :=
  if c = 'd' then some [('0', '9')]
  else if c = 'w' then some [('0', '9'), ('A', 'Z'), ('_', '_'), ('a', 'z')]
  else if c = 's' then some [('\t', '\n'), (Char.ofNat 12, '\r'), (' ', ' ')]
  else none

/-- The character an escape `\c` stands for: an escaped ASCII character that
is no letter or digit is itself; a few control characters have names. -/
def escape (c : Char) : Option Char :=
  if c.toNat < 128 ∧ ¬ c.isAlphanum then some c
  else if c = 'n' then some '\n'
  else if c = 't' then some '\t'
  else if c = 'r' then some '\r'
  else if c = 'f' then some (Char.ofNat 12)
  else if c = 'v' then some (Char.ofNat 11)
  else if c = 'a' then some (Char.ofNat 7)
  else none

/-- One character of a bracket class, escaped or not. -/
def classChar : List Char → Option (Char × List Char)
  | [] => none
  | c :: rest =>
    if c = '\\' then
      match rest with
      | [] => none
      | d :: rest1 => (escape d).map (fun x => (x, rest1))
    else some (c, rest)

/-- The body of a bracket class, after `[` and an optional `^`. -/
def parseClassLoop : Nat → List (Char × Char) → Bool → List Char →
    Option (List (Char × Char) × List Char)
  | 0, _, _, _ => none
  | fuel + 1, acc, first, cs =>
    match cs with
    | [] => none
    | c :: rest =>
      if c = ']' ∧ first = false then some (acc.reverse, rest)
      else if c = '[' ∧ rest.head? = some ':' then none
      else if c = '\\' ∧ (rest.head?.bind perlClass).isSome then
        match rest.head?.bind perlClass with
        | some rs => parseClassLoop fuel (rs.reverse ++ acc) false rest.tail
        | none => none
      else
        match classChar cs with
        | none => none
        | some (lo, rest1) =>
          match rest1 with
          | m :: n :: rest2 =>
            if m = '-' ∧ n ≠ ']' then
              match classChar (n :: rest2) with
              | none => none
              | some (hi, rest3) =>
                if hi < lo then none else parseClassLoop fuel ((lo, hi) :: acc) false rest3
            else parseClassLoop fuel ((lo, lo) :: acc) false rest1
          | _ => parseClassLoop fuel ((lo, lo) :: acc) false rest1

/-- A bracket class; the input starts after the `[`. -/
def parseClass (cs : List Char) : Option (Regex × List Char) :=
  let neg := decide (cs.head? = some '^')
  let body := if neg then cs.tail else cs
  (parseClassLoop (body.length + 1) [] true body).map (fun r => (Regex.cls neg r.1, r.2))

/-- The parser's loop over the pattern text.  `stack` holds the enclosing
groups, `fr` the group being read, `lastRepeat` tells that the previous item
was a repetition operator (a second one in a row is an error). -/
def parseLoop : Nat → List Frame → Frame → Bool → List Char → Option Regex
  | 0, _, _, _, _ => none
  | fuel + 1, stack, fr, lastRepeat, cs =>
    match cs with
    | [] => if stack.isEmpty then some fr.close else none
    | c :: rest =>
      if c = '(' then
        match rest with
        | q :: rest1 =>
          if q = '?' then
            match rest1 with
            | k :: rest2 =>
              if k = ':' then parseLoop fuel (fr :: stack) { alts := [], cur := [] } false rest2
              else none
            | [] => none
          else parseLoop fuel (fr :: stack) { alts := [], cur := [] } false rest
        | [] => none
      else if c = ')' then
        match stack with
        | [] => none
        | parent :: stack1 =>
          parseLoop fuel stack1 { parent with cur := fr.close :: parent.cur } false rest
      else if c = '|' then
        parseLoop fuel stack { alts := concatAll fr.cur :: fr.alts, cur := [] } false rest
      else if c = '*' ∨ c = '+' ∨ c = '?' then
        if lastRepeat then none
        else
          match fr.cur with
          | [] => none
          | a :: pieces =>
            let r := if c = '*' then Regex.star a else if c = '+' then Regex.plus a else Regex.quest a
            let rest1 := if rest.head? = some '?' then rest.tail else rest
            parseLoop fuel stack { fr with cur := r :: pieces } true rest1
      else if c = '.' then parseLoop fuel stack { fr with cur := .anyNotNL :: fr.cur } false rest
      else if c = '^' then parseLoop fuel stack { fr with cur := .beginText :: fr.cur } false rest
      else if c = '$' then parseLoop fuel stack { fr with cur := .endText :: fr.cur } false rest
      else if c = '[' then
        match parseClass rest with
        | none => none
        | some (r, rest1) => parseLoop fuel stack { fr with cur := r :: fr.cur } false rest1
      else if c = '\\' then
        match rest with
        | [] => none
        | d :: rest1 =>
          match perlClass d.toLower with
          | some rs =>
            parseLoop fuel stack { fr with cur := .cls (decide (d ≠ d.toLower)) rs :: fr.cur } false rest1
          | none =>
            match escape d with
            | some x => parseLoop fuel stack { fr with cur := .lit x :: fr.cur } false rest1
            | none => none
      else if c = Char.ofNat 123 then none
      else parseLoop fuel stack { fr with cur := .lit c :: fr.cur } false rest

/-- The syntax tree of a pattern, `none` for a pattern that is malformed or
uses syntax outside the supported fragment. -/
def parse (expr : String) : Option Regex :=
  parseLoop (expr.length + 1) [] { alts := [], cur := [] } false expr.toList

/-- A compiled pattern, `*regexp.Regexp`. -/
structure Regexp where
  expr : String
  prog : Regex
deriving DecidableEq, Repr

/-- `regexp.Compile(expr)`. -/
def Compile (expr : String) : Option Regexp × Option GoError :=
  match parse expr with
  | some r => (some { expr := expr, prog := r }, none)
  | none => (none, some (.library "regexp" ("error parsing regexp: " ++ expr)))

/-- `regexp.MustCompile(expr)`: panics where `Compile` gives an error. -/
def MustCompile (expr : String) : GoResult Regexp :=
  match parse expr with
  | some r => .ret { expr := expr, prog := r }
  | none => .panic ("regexp: Compile(" ++ expr ++ "): error parsing regexp")

/-- `re.MatchString(s)`: the text contains a match. -/
def Regexp.MatchString (re : Regexp) (s : String) : Bool := re.prog.search s.toList

/-- The package function `regexp.MatchString(pattern, s)`. -/
def MatchString (pattern s : String) : Bool × Option GoError :=
  match Compile pattern with
  | (some re, _) => (re.MatchString s, none)
  | (none, err) => (false, err)

end regexp

/-! ## `strings`, `strconv.Atoi` -/

namespace strings

/-- `unicode.ToLower` as far as an ASCII pattern can tell: ASCII capitals are
lowered, and so are the two characters outside ASCII whose lower case is an
ASCII letter (U+0130 and the Kelvin sign U+212A); any other character outside
ASCII, whose lower case is outside ASCII too, is left as it is. -/
def toLowerRune (c : Char) : Char :=
  if 65 ≤ c.toNat ∧ c.toNat ≤ 90 then Char.ofNat (c.toNat + 32)
  else if c.toNat = 0x130 then 'i'
  else if c.toNat = 0x212A then 'k'
  else c

/-- `strings.ToLower(s)`. -/
def ToLower (s : String) : String := String.mk (s.toList.map toLowerRune)

/-- `unicode.IsSpace`. -/
def isSpace (c : Char) : Bool :=
  let n := c.toNat
  decide (9 ≤ n ∧ n ≤ 13) || n == 32 || n == 0x85 || n == 0xA0 || n == 0x1680
    || decide (0x2000 ≤ n ∧ n ≤ 0x200a) || n == 0x2028 || n == 0x2029 || n == 0x202f
    || n == 0x205f || n == 0x3000

/-- `strings.TrimSpace(s)`. -/
def TrimSpace (s : String) : String :=
  String.mk ((s.toList.dropWhile isSpace).reverse.dropWhile isSpace).reverse

/-- Splitting a text at every `sep`; `cur` is the piece being read, reversed. -/
def splitLoop (sep : Char) (cur : List Char) : List Char → List String
  | [] => [String.mk cur.reverse]
  | c :: cs => if c = sep then String.mk cur.reverse :: splitLoop sep [] cs
               else splitLoop sep (c :: cur) cs

/-- `strings.Split(s, sep)` for a separator of one character (the sources
split at `","` only). -/
def Split (s : String) (sep : Char) : List String := splitLoop sep [] s.toList

end strings

namespace strconv

/-- `strconv.Atoi(s)` with a 64-bit `int`: an optional sign and decimal
digits; a value outside the `int` range is clamped and reported. -/
def Atoi (s : String) : Int × Option GoError :=
  let cs := s.toList
  let neg := decide (cs.head? = some '-')
  let ds := if cs.head? = some '-' ∨ cs.head? = some '+' then cs.tail else cs
  if ds.isEmpty || !ds.all isDigit then (0, some (.syntaxError "Atoi" s))
  else
    let n : Int := (digitsVal ds : Nat)
    let v : Int := if neg then -n else n
    if v < -(2 ^ 63) then (-(2 ^ 63), some (.rangeError "Atoi" s))
    else if 2 ^ 63 - 1 < v then (2 ^ 63 - 1, some (.rangeError "Atoi" s))
    else (v, none)

end strconv

/-! ## `config.go` -/

/-- The type `rabbitCapability`. -/
abbrev rabbitCapability := String

/-- The type `rabbitCapabilitySet`, a `map[rabbitCapability]bool`, as the
list of its entries. -/
abbrev rabbitCapabilitySet := List (rabbitCapability × Bool)

/-- The constant `rabbitCapNoSort`. -/
def rabbitCapNoSort : rabbitCapability := "no_sort"

/-- The constant `rabbitCapBert`. -/
def rabbitCapBert : rabbitCapability := "bert"

/-- The package variable `allRabbitCapabilities`. -/
def allRabbitCapabilities : rabbitCapabilitySet :=
  [(rabbitCapNoSort, true), (rabbitCapBert, true)]

/-- `parseCapabilities(raw)`. -/
def parseCapabilities (raw : String) : rabbitCapabilitySet :=
  (strings.Split raw ',').foldl
    (fun result maybeCapStr =>
      let maybeCap : rabbitCapability := strings.TrimSpace maybeCapStr
      match allRabbitCapabilities.lookup maybeCap with
      | some true => (maybeCap, true) :: result.filter (fun kv => kv.1 != maybeCap)
      | _ => result)
    []

/-- The struct `rabbitExporterConfig`.  The `*regexp.Regexp` fields are `none`
for a nil pointer. -/
structure rabbitExporterConfig where
  RabbitURL : String := ""
  RabbitUsername : String := ""
  RabbitPassword : String := ""
  RabbitConnection : String := ""
  PublishPort : String := ""
  PublishAddr : String := ""
  OutputFormat : String := ""
  CAFile : String := ""
  CertFile : String := ""
  KeyFile : String := ""
  InsecureSkipVerify : Bool := false
  ExcludeMetrics : List String := []
  SkipExchanges : Option regexp.Regexp := none
  IncludeExchanges : Option regexp.Regexp := none
  SkipQueues : Option regexp.Regexp := none
  IncludeQueues : Option regexp.Regexp := none
  SkipVHost : Option regexp.Regexp := none
  IncludeVHost : Option regexp.Regexp := none
  IncludeExchangesString : String := ""
  SkipExchangesString : String := ""
  IncludeQueuesString : String := ""
  SkipQueuesString : String := ""
  SkipVHostString : String := ""
  IncludeVHostString : String := ""
  RabbitCapabilitiesString : String := ""
  RabbitCapabilities : rabbitCapabilitySet := []
  AlivenessVhost : String := ""
  EnabledExporters : List String := []
  Timeout : Int := 0
  MaxQueues : Int := 0
  ResourceID : String := ""
  ServiceInstanceGUID : String := ""
  ServiceNameSpace : String := ""
  PrometheusHost : String := ""
  PrometheusPort : String := ""
deriving DecidableEq

/-- What the process reads from outside: `os.Getenv`, `ioutil.ReadFile`, and
`gonfig.GetConf(configFile, &config)` run on the zero struct (the struct it
leaves in `config`, and its error). -/
structure World where
  getenv : String → String
  readFile : String → String × Option GoError
  getConf : String → rabbitExporterConfig × Option GoError

/-- The package variable `defaultConfig`; its initialiser calls
`regexp.MustCompile`. -/
def defaultConfig : GoResult rabbitExporterConfig := do
  let skipExchanges ← regexp.MustCompile "^$"
  let includeExchanges ← regexp.MustCompile ".*"
  let skipQueues ← regexp.MustCompile "^$"
  let includeQueues ← regexp.MustCompile ".*"
  let skipVHost ← regexp.MustCompile "^$"
  let includeVHost ← regexp.MustCompile ".*"
  pure {
    RabbitURL := "http://127.0.0.1:15672"
    RabbitUsername := "guest"
    RabbitPassword := "guest"
    RabbitConnection := "direct"
    PublishPort := "9419"
    PublishAddr := ""
    OutputFormat := "TTY"
    CAFile := "ca.pem"
    CertFile := "client-cert.pem"
    KeyFile := "client-key.pem"
    InsecureSkipVerify := false
    ExcludeMetrics := []
    SkipExchanges := some skipExchanges
    IncludeExchanges := some includeExchanges
    SkipQueues := some skipQueues
    IncludeQueues := some includeQueues
    SkipVHost := some skipVHost
    IncludeVHost := some includeVHost
    RabbitCapabilities := parseCapabilities "no_sort,bert"
    AlivenessVhost := "/"
    EnabledExporters := ["exchange", "node", "overview", "queue", "cpu"]
    Timeout := 30
    MaxQueues := 0 }

/-- The URL check shared by `initConfig` and `initConfigFromFile`:
`regexp.MatchString("https?://[a-zA-Z.0-9]+", strings.ToLower(url))`, the
error dropped. -/
def validRabbitURL (url : String) : Bool :=
  (regexp.MatchString "https?://[a-zA-Z.0-9]+" (strings.ToLower url)).1

/-- `initConfigFromFile(configFile)`: the new value of `config` and the
returned error. -/
def initConfigFromFile (w : World) (configFile : String) :
    GoResult (rabbitExporterConfig × Option GoError) :=
  let r := w.getConf configFile
  let config := r.1
  match r.2 with
  | some err => .ret (config, some err)
  | none =>
    if config.RabbitURL ≠ "" ∧ validRabbitURL config.RabbitURL = false then
      .panic "rabbit URL must start with http:// or https://"
    else do
      let skipExchanges ← regexp.MustCompile config.SkipExchangesString
      let includeExchanges ← regexp.MustCompile config.IncludeExchangesString
      let skipQueues ← regexp.MustCompile config.SkipQueuesString
      let includeQueues ← regexp.MustCompile config.IncludeQueuesString
      let skipVHost ← regexp.MustCompile config.SkipVHostString
      let includeVHost ← regexp.MustCompile config.IncludeVHostString
      pure ({ config with
        SkipExchanges := some skipExchanges
        IncludeExchanges := some includeExchanges
        SkipQueues := some skipQueues
        IncludeQueues := some includeQueues
        SkipVHost := some skipVHost
        IncludeVHost := some includeVHost
        RabbitCapabilities := parseCapabilities config.RabbitCapabilitiesString }, none)

/-- Lines 119-125 of `initConfig`: `RABBIT_URL`. -/
def initRabbitURL (w : World) (config : rabbitExporterConfig) : GoResult rabbitExporterConfig :=
  let url := w.getenv "RABBIT_URL"
  if url ≠ "" then
    if validRabbitURL url then .ret { config with RabbitURL := url }
    else .panic "rabbit URL must start with http:// or https://"
  else .ret config

/-- Lines 127-133: `RABBIT_CONNECTION`. -/
def initRabbitConnection (w : World) (config : rabbitExporterConfig) :
    GoResult rabbitExporterConfig :=
  let connection := w.getenv "RABBIT_CONNECTION"
  if connection ≠ "" then
    if (regexp.MatchString "(direct|loadbalancer)" connection).1 then
      .ret { config with RabbitConnection := connection }
    else .panic "rabbit connection must be direct or loadbalancer"
  else .ret config

/-- A secret read from the file named by the variable `fileVar` when that is
set (a failed read panics), from the variable `var` otherwise. -/
def readSecret (w : World) (fileVar var : String) : GoResult String :=
  if (w.getenv fileVar).length ≠ 0 then
    match w.readFile (w.getenv fileVar) with
    | (_, some _) => .panic ("open " ++ w.getenv fileVar)
    | (fileContents, none) => .ret (strings.TrimSpace fileContents)
  else .ret (w.getenv var)

/-- Lines 135-163: user name and password. -/
def initCredentials (w : World) (config : rabbitExporterConfig) : GoResult rabbitExporterConfig := do
  let user ← readSecret w "RABBIT_USER_FILE" "RABBIT_USER"
  let config := if user ≠ "" then { config with RabbitUsername := user } else config
  let pass ← readSecret w "RABBIT_PASSWORD_FILE" "RABBIT_PASSWORD"
  pure (if pass ≠ "" then { config with RabbitPassword := pass } else config)

/-- Lines 165-172: `PUBLISH_PORT`. -/
def initPublishPort (w : World) (config : rabbitExporterConfig) : GoResult rabbitExporterConfig :=
  let port := w.getenv "PUBLISH_PORT"
  if port ≠ "" then
    if (strconv.Atoi port).2 = none then .ret { config with PublishPort := port }
    else .panic ("the configured port is not a valid number: " ++ port)
  else .ret config

/-- Lines 174-190: `PUBLISH_ADDR`, `OUTPUT_FORMAT`, `CAFILE`, `CERTFILE`, `KEYFILE`. -/
def initOutput (w : World) (config : rabbitExporterConfig) : rabbitExporterConfig :=
  let config := if w.getenv "PUBLISH_ADDR" ≠ "" then
    { config with PublishAddr := w.getenv "PUBLISH_ADDR" } else config
  let config := if w.getenv "OUTPUT_FORMAT" ≠ "" then
    { config with OutputFormat := w.getenv "OUTPUT_FORMAT" } else config
  let config := if w.getenv "CAFILE" ≠ "" then
    { config with CAFile := w.getenv "CAFILE" } else config
  let config := if w.getenv "CERTFILE" ≠ "" then
    { config with CertFile := w.getenv "CERTFILE" } else config
  if w.getenv "KEYFILE" ≠ "" then { config with KeyFile := w.getenv "KEYFILE" } else config

/-- Lines 191-197: `SKIPVERIFY`, `EXCLUDE_METRICS`. -/
def initVerifyExclude (w : World) (config : rabbitExporterConfig) : rabbitExporterConfig :=
  let insecureSkipVerify := w.getenv "SKIPVERIFY"
  let config := if insecureSkipVerify = "true" ∨ insecureSkipVerify = "1"
      ∨ insecureSkipVerify = "TRUE" then
    { config with InsecureSkipVerify := true } else config
  if w.getenv "EXCLUDE_METRICS" ≠ "" then
    { config with ExcludeMetrics := strings.Split (w.getenv "EXCLUDE_METRICS") ',' }
  else config

/-- One of the six blocks of lines 199-221: a pattern variable, when set, is
compiled (a bad pattern panics) and stored by `set`. -/
def initPattern (w : World) (var : String)
    (set : rabbitExporterConfig → regexp.Regexp → rabbitExporterConfig)
    (config : rabbitExporterConfig) : GoResult rabbitExporterConfig :=
  if w.getenv var ≠ "" then
    match regexp.MustCompile (w.getenv var) with
    | .ret re => .ret (set config re)
    | .panic m => .panic m
  else .ret config

/-- Lines 199-221: `SKIP_EXCHANGES`, `INCLUDE_EXCHANGES`, `SKIP_QUEUES`,
`INCLUDE_QUEUES`, `SKIP_VHOST`, `INCLUDE_VHOST`. -/
def initFilters (w : World) (config : rabbitExporterConfig) : GoResult rabbitExporterConfig := do
  let config ← initPattern w "SKIP_EXCHANGES" (fun c re => { c with SkipExchanges := some re }) config
  let config ← initPattern w "INCLUDE_EXCHANGES"
    (fun c re => { c with IncludeExchanges := some re }) config
  let config ← initPattern w "SKIP_QUEUES" (fun c re => { c with SkipQueues := some re }) config
  let config ← initPattern w "INCLUDE_QUEUES" (fun c re => { c with IncludeQueues := some re }) config
  let config ← initPattern w "SKIP_VHOST" (fun c re => { c with SkipVHost := some re }) config
  initPattern w "INCLUDE_VHOST" (fun c re => { c with IncludeVHost := some re }) config

/-- Lines 223-233: `RABBIT_CAPABILITIES`, `RABBIT_EXPORTERS`, `ALIVENESS_VHOST`. -/
def initExporters (w : World) (config : rabbitExporterConfig) : rabbitExporterConfig :=
  let config := if w.getenv "RABBIT_CAPABILITIES" ≠ "" then
    { config with RabbitCapabilities := parseCapabilities (w.getenv "RABBIT_CAPABILITIES") }
    else config
  let config := if w.getenv "RABBIT_EXPORTERS" ≠ "" then
    { config with EnabledExporters := strings.Split (w.getenv "RABBIT_EXPORTERS") ',' }
    else config
  if w.getenv "ALIVENESS_VHOST" ≠ "" then
    { config with AlivenessVhost := w.getenv "ALIVENESS_VHOST" } else config

/-- Lines 235-241: `RABBIT_TIMEOUT`. -/
def initTimeout (w : World) (config : rabbitExporterConfig) : GoResult rabbitExporterConfig :=
  if w.getenv "RABBIT_TIMEOUT" ≠ "" then
    match strconv.Atoi (w.getenv "RABBIT_TIMEOUT") with
    | (_, some _) => .panic "timeout is not a number"
    | (t, none) => .ret { config with Timeout := t }
  else .ret config

/-- Lines 243-249: `MAX_QUEUES`. -/
def initMaxQueues (w : World) (config : rabbitExporterConfig) : GoResult rabbitExporterConfig :=
  if w.getenv "MAX_QUEUES" ≠ "" then
    match strconv.Atoi (w.getenv "MAX_QUEUES") with
    | (_, some _) => .panic "maxQueues is not a number"
    | (m, none) => .ret { config with MaxQueues := m }
  else .ret config

/-- Lines 250-268: `RESOURCE_ID`, `SERVICE_INSTANCE_GUID`, `SERVICE_NAMESPACE`,
`PROMETHEUS_HOST`, `PROMETHEUS_PORT`. -/
def initService (w : World) (config : rabbitExporterConfig) : rabbitExporterConfig :=
  let config := if w.getenv "RESOURCE_ID" ≠ "" then
    { config with ResourceID := w.getenv "RESOURCE_ID" } else config
  let config := if w.getenv "SERVICE_INSTANCE_GUID" ≠ "" then
    { config with ServiceInstanceGUID := w.getenv "SERVICE_INSTANCE_GUID" } else config
  let config := if w.getenv "SERVICE_NAMESPACE" ≠ "" then
    { config with ServiceNameSpace := w.getenv "SERVICE_NAMESPACE" } else config
  let config := if w.getenv "PROMETHEUS_HOST" ≠ "" then
    { config with PrometheusHost := w.getenv "PROMETHEUS_HOST" } else config
  if w.getenv "PROMETHEUS_PORT" ≠ "" then
    { config with PrometheusPort := w.getenv "PROMETHEUS_PORT" } else config

/-- `initConfig()`: the value it leaves in `config`, or the panic that stops
the process. -/
def initConfig (w : World) : GoResult rabbitExporterConfig := do
  let config ← defaultConfig
  let config ← initRabbitURL w config
  let config ← initRabbitConnection w config
  let config ← initCredentials w config
  let config ← initPublishPort w config
  let config := initOutput w config
  let config := initVerifyExclude w config
  let config ← initFilters w config
  let config := initExporters w config
  let config ← initTimeout w config
  let config ← initMaxQueues w config
  pure (initService w config)

/-- A world with the given environment, no readable file and an empty
configuration file. -/
def World.ofEnv (env : List (String × String)) : World where
  getenv := fun k => (env.lookup k).getD ""
  readFile := fun f => ("", some (.library "os" ("open " ++ f ++ ": no such file or directory")))
  getConf := fun _ => ({}, none)

/-! ## Concrete inputs used below -/

/-- A client whose HTTP call always has the outcome `out`. -/
def Client.fixed (out : Option resty.Response × Option GoError) : Client :=
  { host := "prometheus", port := "9090", httpClient := { get := fun _ => out } }

/-- The CPU exporter of instance `guid-1` over a client with a fixed outcome. -/
def exporterCPU.fixed (out : Option resty.Response × Option GoError) : exporterCPU :=
  { client := Client.fixed out, namespace_ := "ns", resourceId := "r1", instanceGuid := "guid-1" }

/-- A success response carrying the given rows. -/
def okResponse (rows : List ResultData) : resty.Response :=
  { statusCode := 200,
    result := { Status := "success", Data := { ResultType := "vector", Result := rows } } }

/-- A row for `node` whose value pair is a timestamp and `v`. -/
def rowOf (node : String) (v : GoValue) : ResultData :=
  { Metric := { Node := node }, Value := [.float64 (Float64.ofInt 1700000000), v] }

/-- The sample `Collect` builds for a node and a value. -/
def sampleOf (guid node : String) (val : Float64) : prometheus.Metric :=
  { desc := utilizationDesc, valType := .GaugeValue, val := val, labelValues := [guid, node] }

/-- A world with an empty environment whose configuration file decodes to
`decoded`. -/
def World.ofFile (decoded : rabbitExporterConfig) : World where
  getenv := fun _ => ""
  readFile := fun f => ("", some (.library "os" ("open " ++ f ++ ": no such file or directory")))
  getConf := fun _ => (decoded, none)

/-- The six filter patterns of a configuration. -/
def rabbitExporterConfig.filters (c : rabbitExporterConfig) :
    Option regexp.Regexp × Option regexp.Regexp × Option regexp.Regexp × Option regexp.Regexp
      × Option regexp.Regexp × Option regexp.Regexp :=
  (c.SkipExchanges, c.IncludeExchanges, c.SkipQueues, c.IncludeQueues, c.SkipVHost, c.IncludeVHost)

/-- The filter rule the default patterns give, for the three entity classes:
every name matches the include pattern, and the skip pattern matches the
empty name and no other. -/
def rabbitExporterConfig.hasDefaultRule (c : rabbitExporterConfig) : Prop :=
  ∃ se ie sq iq sv iv,
    c.SkipExchanges = some se ∧ c.IncludeExchanges = some ie ∧ c.SkipQueues = some sq
      ∧ c.IncludeQueues = some iq ∧ c.SkipVHost = some sv ∧ c.IncludeVHost = some iv
      ∧ ∀ name : String,
          ie.MatchString name = true ∧ iq.MatchString name = true ∧ iv.MatchString name = true
            ∧ (se.MatchString name = true ↔ name = "")
            ∧ (sq.MatchString name = true ↔ name = "")
            ∧ (sv.MatchString name = true ↔ name = "")

/-- None of the six pattern variables is set. -/
def World.noPatternVars (w : World) : Prop :=
  w.getenv "SKIP_EXCHANGES" = "" ∧ w.getenv "INCLUDE_EXCHANGES" = ""
    ∧ w.getenv "SKIP_QUEUES" = "" ∧ w.getenv "INCLUDE_QUEUES" = ""
    ∧ w.getenv "SKIP_VHOST" = "" ∧ w.getenv "INCLUDE_VHOST" = ""

/-- The "numeric string" of the specification ("decimal, parsed with standard
floating-point literal grammar"), written as a pattern: an optional sign,
digits with an optional fraction or a fraction alone, and an optional
exponent. -/
def specNumericString (s : String) : Bool :=
  (regexp.MatchString "^[+-]?([0-9]+\\.?[0-9]*|\\.[0-9]+)([eE][+-]?[0-9]+)?$" s).1

/-! ## Theorems -/

theorem GoResult.bind_eq_ret {α β : Type} {x : GoResult α} {f : α → GoResult β} {b : β}
    (h : x.bind f = .ret b) : ∃ a, x = .ret a ∧ f a = .ret b := by
  cases x with
  | ret a => exact ⟨a, rfl, h⟩
  | panic m => simp [GoResult.bind] at h

theorem GoResult.bind_eq_ret_do {α β : Type} {x : GoResult α} {f : α → GoResult β} {b : β}
    (h : (x >>= f) = .ret b) : ∃ a, x = .ret a ∧ f a = .ret b :=
  GoResult.bind_eq_ret h

theorem utilizationDesc_err : utilizationDesc.err = none := by decide

theorem utilizationDesc_labels :
    utilizationDesc.variableLabels = ["hsdp_instance_guid", "hsdp_instance_node_name"] := rfl

theorem mustNewConstMetric_utilization (val : Float64) (guid node : String) :
    prometheus.MustNewConstMetric utilizationDesc .GaugeValue val [guid, node]
      = .ret (sampleOf guid node val) := by
  simp [prometheus.MustNewConstMetric, utilizationDesc_err, utilizationDesc_labels, sampleOf]

/-- The loop of `Collect` over rows that all coerce: one sample per row, in
row order. -/
theorem collectRows_all_coercible (e : exporterCPU) (rows : List ResultData)
    (hrows : ∀ r ∈ rows, ∃ v f, r.Value[1]? = some v ∧ getFloat v = .ret (f, none)) :
    ∃ samples, e.collectRows rows = .ret samples ∧
      List.Forall₂ (fun r m => ∃ v, r.Value[1]? = some v ∧ getFloat v = .ret (m.val, none)
        ∧ m = sampleOf e.instanceGuid r.Metric.Node m.val) rows samples := by
  induction rows with
  | nil => exact ⟨[], rfl, List.Forall₂.nil⟩
  | cons r rs ih =>
    obtain ⟨v, f, hv, hf⟩ := hrows r (List.mem_cons_self _ _)
    obtain ⟨ms, hms, hall⟩ := ih (fun r1 h1 => hrows r1 (List.mem_cons_of_mem _ h1))
    refine ⟨sampleOf e.instanceGuid r.Metric.Node f :: ms, ?_, ?_⟩
    · simp [exporterCPU.collectRows, hv, hf, mustNewConstMetric_utilization, hms]
    · exact List.Forall₂.cons ⟨v, hv, hf, rfl⟩ hall

/-- C4: when the upstream call succeeds and every row's scalar `Value[1]`
coerces, `Collect` returns a nil error after sending exactly one gauge sample
per row, in row order; each sample carries `utilizationDesc`, the value
`getFloat` gives for the row's scalar, and the two label values (instance
GUID, the row's node), as many and in the order of the two label names
`utilizationDesc` declares. -/
theorem Collect_one_sample_per_row (e : exporterCPU) (resp : Response)
    (hexec : e.client.execute "GET" "/api/v1/query" e.query = .ret (some resp, none))
    (hrows : ∀ r ∈ resp.Data.Result, ∃ v f, r.Value[1]? = some v ∧ getFloat v = .ret (f, none)) :
    ∃ samples, e.Collect = .ret (samples, none) ∧
      List.Forall₂ (fun r m => ∃ v, r.Value[1]? = some v ∧ getFloat v = .ret (m.val, none)
        ∧ m.desc = utilizationDesc ∧ m.valType = prometheus.ValueType.GaugeValue
        ∧ m.labelValues = [e.instanceGuid, r.Metric.Node]
        ∧ m.labelValues.length = m.desc.variableLabels.length) resp.Data.Result samples
      ∧ utilizationDesc.variableLabels = ["hsdp_instance_guid", "hsdp_instance_node_name"] := by
  obtain ⟨ms, hms, hall⟩ := collectRows_all_coercible e resp.Data.Result hrows
  refine ⟨ms, ?_, ?_, rfl⟩
  · unfold exporterCPU.Collect
    rw [hexec]
    by_cases h0 : resp.Data.Result.length = 0
    · have hnil : resp.Data.Result = [] := List.length_eq_zero.mp h0
      rw [hnil] at hms
      simp only [exporterCPU.collectRows, GoResult.ret.injEq] at hms
      simp [h0, hms]
    · simp [h0, hms]
  · refine hall.imp ?_
    rintro r m ⟨v, hv, hf, hm⟩
    refine ⟨v, hv, hf, ?_, ?_, ?_, ?_⟩ <;> rw [hm] <;> rfl

/-- C4 at a concrete input: two rows, `"0.5"` on `node-a` and `2` on `node-b`. -/
theorem Collect_one_sample_per_row_witness :
    ∃ samples,
      (exporterCPU.fixed (some (okResponse [rowOf "node-a" (.string "0.5"),
          rowOf "node-b" (.float64 (Float64.ofInt 2))]), none)).Collect = .ret (samples, none) ∧
      List.Forall₂ (fun r m => ∃ v, r.Value[1]? = some v ∧ getFloat v = .ret (m.val, none)
        ∧ m.desc = utilizationDesc ∧ m.valType = prometheus.ValueType.GaugeValue
        ∧ m.labelValues = ["guid-1", r.Metric.Node]
        ∧ m.labelValues.length = m.desc.variableLabels.length)
        [rowOf "node-a" (.string "0.5"), rowOf "node-b" (.float64 (Float64.ofInt 2))] samples
      ∧ utilizationDesc.variableLabels = ["hsdp_instance_guid", "hsdp_instance_node_name"] :=
  Collect_one_sample_per_row
    (exporterCPU.fixed (some (okResponse [rowOf "node-a" (.string "0.5"),
      rowOf "node-b" (.float64 (Float64.ofInt 2))]), none))
    (okResponse [rowOf "node-a" (.string "0.5"),
      rowOf "node-b" (.float64 (Float64.ofInt 2))]).result
    rfl
    (by
      intro r hr
      simp only [okResponse, List.mem_cons, List.mem_singleton, List.not_mem_nil, or_false] at hr
      rcases hr with rfl | rfl
      · exact ⟨.string "0.5", Float64.fin false (2 ^ 52) (-53), rfl, by decide⟩
      · exact ⟨.float64 (Float64.ofInt 2), Float64.ofInt 2, rfl, rfl⟩)

/-- C5: when the upstream call fails (`execute` returns a non-nil error), or
succeeds with an empty result set, `Collect` sends no sample and returns a nil
error. -/
theorem Collect_nothing_on_empty_or_failed_upstream (e : exporterCPU)
    (h : (∃ resp err, e.client.execute "GET" "/api/v1/query" e.query = .ret (resp, some err))
      ∨ (∃ resp, e.client.execute "GET" "/api/v1/query" e.query = .ret (some resp, none)
          ∧ resp.Data.Result = [])) :
    e.Collect = .ret ([], none) := by
  unfold exporterCPU.Collect
  rcases h with ⟨resp, err, h⟩ | ⟨resp, h, hnil⟩
  · rw [h]
    cases resp <;> rfl
  · rw [h]
    simp [hnil]

/-- C5 at concrete inputs: a refused connection, a 503 answer, and a success
answer without rows. -/
theorem Collect_nothing_on_empty_or_failed_upstream_witness :
    (exporterCPU.fixed (none, some (.library "resty" "connection refused"))).Collect
        = .ret ([], none)
      ∧ (exporterCPU.fixed (some { statusCode := 503, result := {} }, none)).Collect
        = .ret ([], none)
      ∧ (exporterCPU.fixed (some (okResponse []), none)).Collect = .ret ([], none) :=
  ⟨Collect_nothing_on_empty_or_failed_upstream _
      (Or.inl ⟨none, .library "resty" "connection refused", rfl⟩),
    Collect_nothing_on_empty_or_failed_upstream _
      (Or.inl ⟨none, .errorString "not able to get metrics", rfl⟩),
    Collect_nothing_on_empty_or_failed_upstream _ (Or.inr ⟨(okResponse []).result, rfl, rfl⟩)⟩

/-- C1 (the code at the failing input): with the rows `"bad"` on `node-a`
and `"1"` on `node-b`, `Collect` sends nothing, although the second row
coerces and, asked alone, gets its sample; with the bad row last, the rows
before it are sent.  The `return` taken at the first failing row drops every
later row. -/
theorem Collect_bad_row_drops_later_rows :
    (exporterCPU.fixed (some (okResponse [rowOf "node-a" (.string "bad"),
        rowOf "node-b" (.string "1")]), none)).Collect = .ret ([], none)
      ∧ (exporterCPU.fixed (some (okResponse [rowOf "node-b" (.string "1")]), none)).Collect
        = .ret ([sampleOf "guid-1" "node-b" (Float64.ofInt 1)], none)
      ∧ (exporterCPU.fixed (some (okResponse [rowOf "node-b" (.string "1"),
          rowOf "node-a" (.string "bad")]), none)).Collect
        = .ret ([sampleOf "guid-1" "node-b" (Float64.ofInt 1)], none) := by
  refine ⟨?_, ?_, ?_⟩ <;> decide

/-- C6 (the code at the failing input): a 200 answer whose body could not be
decoded (resty hands back the response together with the decoding error) makes
`execute` return the unfilled envelope with a nil error; and a transport
failure for which resty hands back a response object gets the very error of a
non-success status. -/
theorem execute_swallows_decoding_error :
    (Client.fixed (some { statusCode := 200, result := {} },
        some (.library "json" "invalid character '<' looking for beginning of value"))).execute
        "GET" "/api/v1/query" "query=up" = .ret (some {}, none)
      ∧ (Client.fixed (some { statusCode := 0, result := {} },
          some (.library "resty" "dial tcp: connection refused"))).execute
          "GET" "/api/v1/query" "query=up"
        = (Client.fixed (some { statusCode := 500, result := {} }, none)).execute
          "GET" "/api/v1/query" "query=up" := by
  constructor <;> rfl

/-- C10 (the code at the failing input): `getFloat` panics on a nil interface,
which is what a JSON `null` decodes to; on every other value it returns. -/
theorem getFloat_panics_on_nil :
    getFloat GoValue.nil = .panic "reflect: call of reflect.Value.Type on zero Value"
      ∧ ∀ v : GoValue, v ≠ GoValue.nil → ∃ r, getFloat v = .ret r := by
  refine ⟨rfl, ?_⟩
  intro v hv
  cases v <;> first | exact absurd rfl hv | exact ⟨_, rfl⟩

/-! ### Patterns -/

theorem parse_skip_default : regexp.parse "^$" = some (.cat .beginText .endText) := by decide

theorem parse_include_default : regexp.parse ".*" = some (.star .anyNotNL) := by decide

theorem parse_empty_pattern : regexp.parse "" = some .empty := by decide

theorem starEnds_ne_nil (step : regexp.Pos → List regexp.Pos) (fuel : Nat) (st : regexp.Pos) :
    regexp.starEnds step fuel st ≠ [] := by
  cases fuel <;> simp [regexp.starEnds]

/-- `.*` is found in every text. -/
theorem search_star_any (text : List Char) :
    (regexp.Regex.star .anyNotNL).search text = true := by
  unfold regexp.Regex.search
  rw [List.any_eq_true]
  refine ⟨0, by simp, ?_⟩
  have h := starEnds_ne_nil regexp.Regex.anyNotNL.ends text.length (0, text)
  simp only [regexp.Regex.ends, List.drop_zero, Bool.not_eq_true', List.isEmpty_eq_false]
  exact h

/-- The empty pattern is found in every text. -/
theorem search_empty (text : List Char) : regexp.Regex.empty.search text = true := by
  unfold regexp.Regex.search
  rw [List.any_eq_true]
  exact ⟨0, by simp, by simp [regexp.Regex.ends]⟩

/-- `^$` is found in the empty text only. -/
theorem search_begin_end (text : List Char) :
    (regexp.Regex.cat .beginText .endText).search text = true ↔ text = [] := by
  unfold regexp.Regex.search
  rw [List.any_eq_true]
  constructor
  · rintro ⟨i, _, hi⟩
    by_cases h0 : i = 0
    · subst h0
      by_cases ht : text = []
      · exact ht
      · simp [regexp.Regex.ends, ht] at hi
    · simp [regexp.Regex.ends, h0] at hi
  · rintro rfl
    exact ⟨0, by simp, by simp [regexp.Regex.ends]⟩

theorem string_toList_eq_nil (s : String) : s.toList = [] ↔ s = "" := by
  constructor
  · intro h
    cases s with
    | mk data =>
      simp only [String.toList] at h
      subst h
      rfl
  · rintro rfl
    rfl

theorem mustCompile_skip_default :
    regexp.MustCompile "^$" = .ret { expr := "^$", prog := .cat .beginText .endText } := by
  decide

theorem mustCompile_include_default :
    regexp.MustCompile ".*" = .ret { expr := ".*", prog := .star .anyNotNL } := by
  decide

theorem mustCompile_empty_pattern :
    regexp.MustCompile "" = .ret { expr := "", prog := .empty } := by
  decide

/-! ### `initConfig` keeps the default patterns -/

theorem defaultConfig_hasDefaultRule : ∃ c, defaultConfig = .ret c ∧ c.hasDefaultRule := by
  refine ⟨_, rfl, ?_⟩
  refine ⟨{ expr := "^$", prog := .cat .beginText .endText },
    { expr := ".*", prog := .star .anyNotNL },
    { expr := "^$", prog := .cat .beginText .endText },
    { expr := ".*", prog := .star .anyNotNL },
    { expr := "^$", prog := .cat .beginText .endText },
    { expr := ".*", prog := .star .anyNotNL }, rfl, rfl, rfl, rfl, rfl, rfl, ?_⟩
  intro name
  simp only [regexp.Regexp.MatchString, search_star_any, search_begin_end, string_toList_eq_nil,
    and_self]

theorem hasDefaultRule_of_filters {c d : rabbitExporterConfig} (h : c.filters = d.filters)
    (hd : d.hasDefaultRule) : c.hasDefaultRule := by
  obtain ⟨se, ie, sq, iq, sv, iv, h1, h2, h3, h4, h5, h6, hall⟩ := hd
  simp only [rabbitExporterConfig.filters, Prod.mk.injEq] at h
  obtain ⟨g1, g2, g3, g4, g5, g6⟩ := h
  exact ⟨se, ie, sq, iq, sv, iv, g1.trans h1, g2.trans h2, g3.trans h3, g4.trans h4, g5.trans h5,
    g6.trans h6, hall⟩

theorem initRabbitURL_filters {w : World} {c d : rabbitExporterConfig}
    (h : initRabbitURL w c = .ret d) : d.filters = c.filters := by
  unfold initRabbitURL at h
  simp only at h
  split_ifs at h <;> cases h <;> rfl

theorem initRabbitConnection_filters {w : World} {c d : rabbitExporterConfig}
    (h : initRabbitConnection w c = .ret d) : d.filters = c.filters := by
  unfold initRabbitConnection at h
  simp only at h
  split_ifs at h <;> cases h <;> rfl

theorem initCredentials_filters {w : World} {c d : rabbitExporterConfig}
    (h : initCredentials w c = .ret d) : d.filters = c.filters := by
  unfold initCredentials at h
  obtain ⟨user, _, h⟩ := GoResult.bind_eq_ret_do h
  obtain ⟨pass, _, h⟩ := GoResult.bind_eq_ret_do h
  cases h
  split_ifs <;> rfl

theorem initPublishPort_filters {w : World} {c d : rabbitExporterConfig}
    (h : initPublishPort w c = .ret d) : d.filters = c.filters := by
  unfold initPublishPort at h
  simp only at h
  split_ifs at h <;> cases h <;> rfl

theorem initOutput_filters (w : World) (c : rabbitExporterConfig) :
    (initOutput w c).filters = c.filters := by
  unfold initOutput
  simp only
  split_ifs <;> rfl

theorem initVerifyExclude_filters (w : World) (c : rabbitExporterConfig) :
    (initVerifyExclude w c).filters = c.filters := by
  unfold initVerifyExclude
  simp only
  split_ifs <;> rfl

theorem initFilters_unset {w : World} (hw : w.noPatternVars) (c : rabbitExporterConfig) :
    initFilters w c = .ret c := by
  obtain ⟨h1, h2, h3, h4, h5, h6⟩ := hw
  simp only [initFilters, initPattern, h1, h2, h3, h4, h5, h6, ne_eq, not_true_eq_false,
    if_false]
  rfl

theorem initExporters_filters (w : World) (c : rabbitExporterConfig) :
    (initExporters w c).filters = c.filters := by
  unfold initExporters
  simp only
  split_ifs <;> rfl

theorem initTimeout_filters {w : World} {c d : rabbitExporterConfig}
    (h : initTimeout w c = .ret d) : d.filters = c.filters := by
  unfold initTimeout at h
  split_ifs at h
  · split at h <;> cases h
    rfl
  · cases h
    rfl

theorem initMaxQueues_filters {w : World} {c d : rabbitExporterConfig}
    (h : initMaxQueues w c = .ret d) : d.filters = c.filters := by
  unfold initMaxQueues at h
  split_ifs at h
  · split at h <;> cases h
    rfl
  · cases h
    rfl

theorem initService_filters (w : World) (c : rabbitExporterConfig) :
    (initService w c).filters = c.filters := by
  unfold initService
  simp only
  split_ifs <;> rfl

/-- With no pattern variable set, `initConfig` leaves the six default
patterns in place. -/
theorem initConfig_filters {w : World} (hw : w.noPatternVars) {c : rabbitExporterConfig}
    (h : initConfig w = .ret c) : ∃ d, defaultConfig = .ret d ∧ c.filters = d.filters := by
  unfold initConfig at h
  obtain ⟨c0, h0, g0⟩ := GoResult.bind_eq_ret_do h
  clear h
  try dsimp only at g0
  obtain ⟨c1, h1, g1⟩ := GoResult.bind_eq_ret_do g0
  clear g0
  try dsimp only at g1
  obtain ⟨c2, h2, g2⟩ := GoResult.bind_eq_ret_do g1
  clear g1
  try dsimp only at g2
  obtain ⟨c3, h3, g3⟩ := GoResult.bind_eq_ret_do g2
  clear g2
  try dsimp only at g3
  obtain ⟨c4, h4, g4⟩ := GoResult.bind_eq_ret_do g3
  clear g3
  try dsimp only at g4
  obtain ⟨c5, h5, g5⟩ := GoResult.bind_eq_ret_do g4
  clear g4
  try dsimp only at g5
  obtain ⟨c6, h6, g6⟩ := GoResult.bind_eq_ret_do g5
  clear g5
  try dsimp only at g6
  obtain ⟨c7, h7, g7⟩ := GoResult.bind_eq_ret_do g6
  clear g6
  try dsimp only at g7
  rw [initFilters_unset hw] at h5
  obtain rfl := GoResult.ret.inj h5
  obtain rfl : initService w c7 = c := GoResult.ret.inj g7
  refine ⟨c0, h0, ?_⟩
  rw [initService_filters, initMaxQueues_filters h7, initTimeout_filters h6,
    initExporters_filters,
    initVerifyExclude_filters, initOutput_filters, initPublishPort_filters h4,
    initCredentials_filters h3, initRabbitConnection_filters h2, initRabbitURL_filters h1]

/-- C7 (counterexample): in `defaultConfig` the skip pattern of every entity
class matches the empty name. -/
theorem defaultConfig_skip_matches_empty_name :
    ∃ c se sq sv, defaultConfig = .ret c ∧ c.SkipExchanges = some se ∧ c.SkipQueues = some sq
      ∧ c.SkipVHost = some sv ∧ se.MatchString "" = true ∧ sq.MatchString "" = true
      ∧ sv.MatchString "" = true :=
  ⟨_, _, _, _, rfl, rfl, rfl, rfl, by decide, by decide, by decide⟩

/-- C7 (amended): in `defaultConfig`, and in the configuration `initConfig`
leaves when none of the `SKIP_*`/`INCLUDE_*` variables is set, for each entity
class (exchange, queue, virtual host) every name matches the include pattern,
and the skip pattern matches the empty name and no other name. -/
theorem default_filter_rule :
    (∃ c, defaultConfig = .ret c ∧ c.hasDefaultRule)
      ∧ ∀ (w : World) (c : rabbitExporterConfig), w.noPatternVars → initConfig w = .ret c →
          c.hasDefaultRule := by
  refine ⟨defaultConfig_hasDefaultRule, ?_⟩
  intro w c hw h
  obtain ⟨d, hd, hcd⟩ := initConfig_filters hw h
  obtain ⟨d1, hd1, hrule⟩ := defaultConfig_hasDefaultRule
  rw [hd] at hd1
  obtain rfl := GoResult.ret.inj hd1
  exact hasDefaultRule_of_filters hcd hrule

/-- C7 (amended) at a concrete environment: only `RABBIT_USER` and
`RABBIT_URL` are set. -/
theorem default_filter_rule_witness :
    ∃ c, initConfig (World.ofEnv [("RABBIT_USER", "admin"), ("RABBIT_URL", "https://mq.local")])
        = .ret c ∧ c.RabbitUsername = "admin" ∧ c.hasDefaultRule :=
  ⟨_, rfl, rfl,
    default_filter_rule.2 (World.ofEnv [("RABBIT_USER", "admin"), ("RABBIT_URL", "https://mq.local")])
      _ ⟨rfl, rfl, rfl, rfl, rfl, rfl⟩ rfl⟩

/-- After `initConfigFromFile` succeeds on a file whose six pattern strings
are empty, each of the six patterns matches every name. -/
theorem initConfigFromFile_unset_patterns {w : World} {file : String}
    {c : rabbitExporterConfig}
    (hs : (w.getConf file).1.SkipExchangesString = "" ∧ (w.getConf file).1.IncludeExchangesString = ""
      ∧ (w.getConf file).1.SkipQueuesString = "" ∧ (w.getConf file).1.IncludeQueuesString = ""
      ∧ (w.getConf file).1.SkipVHostString = "" ∧ (w.getConf file).1.IncludeVHostString = "")
    (h : initConfigFromFile w file = .ret (c, none)) :
    ∃ se ie sq iq sv iv,
      c.SkipExchanges = some se ∧ c.IncludeExchanges = some ie ∧ c.SkipQueues = some sq
        ∧ c.IncludeQueues = some iq ∧ c.SkipVHost = some sv ∧ c.IncludeVHost = some iv
        ∧ ∀ name : String,
            se.MatchString name = true ∧ ie.MatchString name = true ∧ sq.MatchString name = true
              ∧ iq.MatchString name = true ∧ sv.MatchString name = true
              ∧ iv.MatchString name = true := by
  obtain ⟨h1, h2, h3, h4, h5, h6⟩ := hs
  unfold initConfigFromFile at h
  dsimp only at h
  split at h
  · cases h
  · split_ifs at h
    rw [h1, h2, h3, h4, h5, h6, mustCompile_empty_pattern] at h
    obtain rfl := (Prod.mk.inj (GoResult.ret.inj h)).1
    refine ⟨_, _, _, _, _, _, rfl, rfl, rfl, rfl, rfl, rfl, ?_⟩
    intro name
    simp only [regexp.Regexp.MatchString, search_empty, and_self]

/-- C8 (the code at the failing input): a configuration file that sets only
`rabbit_url`, `rabbit_user` and `rabbit_pass` is loaded without error, and the
skip pattern of every entity class then matches every name, so every exchange,
queue and virtual host is excluded. -/
theorem initConfigFromFile_unset_skip_excludes_all :
    ∃ c se sq sv,
      initConfigFromFile
          (World.ofFile { RabbitURL := "http://localhost:15672", RabbitUsername := "guest",
                          RabbitPassword := "guest" }) "conf/rabbitmq.conf" = .ret (c, none)
        ∧ c.SkipExchanges = some se ∧ c.SkipQueues = some sq ∧ c.SkipVHost = some sv
        ∧ ∀ name : String,
            se.MatchString name = true ∧ sq.MatchString name = true
              ∧ sv.MatchString name = true := by
  obtain ⟨se, ie, sq, iq, sv, iv, h1, _, h3, _, h5, _, hall⟩ :=
    @initConfigFromFile_unset_patterns
      (World.ofFile { RabbitURL := "http://localhost:15672", RabbitUsername := "guest",
                      RabbitPassword := "guest" })
      "conf/rabbitmq.conf" _ ⟨rfl, rfl, rfl, rfl, rfl, rfl⟩ rfl
  exact ⟨_, se, sq, sv, rfl, h1, h3, h5, fun name => ⟨(hall name).1, (hall name).2.2.1,
    (hall name).2.2.2.2.1⟩⟩

/-- C9 (the code at the failing input): the value `amqp://http://a`, whose
scheme is `amqp`, passes the URL check; `initConfig` stores it as
`config.RabbitURL`, and `initConfigFromFile` accepts it as the `rabbit_url` of
a file.  The pattern is searched anywhere in the value. -/
theorem initConfig_accepts_url_with_other_scheme :
    validRabbitURL "amqp://http://a" = true
      ∧ (∃ c, initConfig (World.ofEnv [("RABBIT_URL", "amqp://http://a")]) = .ret c
          ∧ c.RabbitURL = "amqp://http://a")
      ∧ (∃ c, initConfigFromFile (World.ofFile { RabbitURL := "amqp://http://a" }) "conf"
          = .ret (c, none) ∧ c.RabbitURL = "amqp://http://a") :=
  ⟨by decide, ⟨_, rfl, rfl⟩, ⟨_, rfl, rfl⟩⟩

/-! ### Integer to `float64` -/

theorem bitLenAux_zero (f : Nat) : Float64.bitLenAux f 0 = 0 := by
  cases f <;> simp [Float64.bitLenAux]

theorem bitLenAux_spec : ∀ f n : Nat, n ≤ f →
    n < 2 ^ Float64.bitLenAux f n ∧ (0 < n → 2 ^ (Float64.bitLenAux f n - 1) ≤ n)
  | 0, n, h => by
    have hn : n = 0 := by omega
    subst hn
    simp [Float64.bitLenAux]
  | f + 1, n, h => by
    by_cases hn : n = 0
    · subst hn
      simp [Float64.bitLenAux]
    · obtain ⟨ih1, ih2⟩ := bitLenAux_spec f (n / 2) (by omega)
      simp only [Float64.bitLenAux, hn, if_false, Nat.add_sub_cancel]
      constructor
      · rw [pow_succ]
        omega
      · intro _
        by_cases h2 : n / 2 = 0
        · rw [h2, bitLenAux_zero]
          simp
          omega
        · have h3 := ih2 (by omega)
          have hb : 1 ≤ Float64.bitLenAux f (n / 2) := by
            by_contra hb
            have h4 : Float64.bitLenAux f (n / 2) = 0 := by omega
            rw [h4] at ih1
            simp at ih1
            omega
          have h5 : 2 ^ Float64.bitLenAux f (n / 2)
              = 2 ^ (Float64.bitLenAux f (n / 2) - 1) * 2 := by
            rw [← pow_succ, Nat.sub_add_cancel hb]
          omega

/-- A positive `n` has exactly `bitLen n` binary digits. -/
theorem bitLen_spec (n : Nat) (hn : 0 < n) :
    2 ^ (Float64.bitLen n - 1) ≤ n ∧ n < 2 ^ Float64.bitLen n :=
  ⟨(bitLenAux_spec n n (le_refl n)).2 hn, (bitLenAux_spec n n (le_refl n)).1⟩

theorem roundHalfEven_one (n : Nat) : Float64.roundHalfEven n 1 = n := by
  simp [Float64.roundHalfEven, Nat.mod_one]

theorem round_two_pow_53 (neg : Bool) :
    Float64.round neg (2 ^ 53) 1 = (Float64.fin neg (2 ^ 52) 1, false) := by
  cases neg <;> decide

/-- A positive integer below `2^53` is converted without rounding. -/
theorem round_nat_exact (neg : Bool) (n : Nat) (h0 : 0 < n) (h : n < 2 ^ 53) :
    Float64.round neg n 1
      = (Float64.fin neg (n * 2 ^ (53 - Float64.bitLen n)) (-((53 - Float64.bitLen n : Nat) : Int)),
          false) := by
  obtain ⟨ha1, ha2⟩ := bitLen_spec n h0
  have ha : 1 ≤ Float64.bitLen n := by
    by_contra hb
    have h4 : Float64.bitLen n = 0 := by omega
    rw [h4] at ha2
    simp at ha2
    omega
  have hle : Float64.bitLen n ≤ 53 := by
    by_contra hb
    have h6 : 2 ^ 53 ≤ 2 ^ (Float64.bitLen n - 1) :=
      Nat.pow_le_pow_right (by norm_num) (by omega)
    omega
  have hlog : Float64.ilog2 n 1 = (Float64.bitLen n : Int) - 1 := by
    unfold Float64.ilog2
    have hb1 : Float64.bitLen 1 = 1 := rfl
    simp only [hb1, Nat.cast_one]
    have t1 : ((Float64.bitLen n : Int) - 1).toNat = Float64.bitLen n - 1 := by omega
    have t2 : (-((Float64.bitLen n : Int) - 1)).toNat = 0 := by omega
    rw [t1, t2]
    simp [ha1]
  have he : max (Float64.ilog2 n 1 - 52) (-1074) = -((53 - Float64.bitLen n : Nat) : Int) := by
    rw [hlog]
    omega
  unfold Float64.round
  rw [if_neg (by omega)]
  simp only [he]
  have t3 : (- -((53 - Float64.bitLen n : Nat) : Int)).toNat = 53 - Float64.bitLen n := by omega
  have t4 : (-((53 - Float64.bitLen n : Nat) : Int)).toNat = 0 := by omega
  rw [t3, t4]
  simp only [pow_zero, mul_one, roundHalfEven_one]
  have hlt : n * 2 ^ (53 - Float64.bitLen n) < 2 ^ 53 := by
    calc n * 2 ^ (53 - Float64.bitLen n)
        < 2 ^ Float64.bitLen n * 2 ^ (53 - Float64.bitLen n) :=
          Nat.mul_lt_mul_of_lt_of_le ha2 (le_refl _) (by positivity)
      _ = 2 ^ 53 := by rw [← pow_add]; congr 1; omega
  rw [if_neg (by omega), if_neg (by omega), if_neg (by omega)]

/-- The rational value of `float64(i)` is `i` whenever `|i| ≤ 2^53`. -/
theorem ofInt_exact (i : Int) (h : |i| ≤ 2 ^ 53) : (Float64.ofInt i).toRat = some (i : ℚ) := by
  unfold Float64.ofInt
  rcases Nat.lt_trichotomy i.natAbs 0 with h1 | h1 | h1
  · omega
  · have hi : i = 0 := Int.natAbs_eq_zero.mp h1
    subst hi
    simp [Float64.round, Float64.toRat]
  · have habs : (i.natAbs : Int) = |i| := Int.natCast_natAbs i
    have hle : i.natAbs ≤ 2 ^ 53 := by
      have : (i.natAbs : Int) ≤ 2 ^ 53 := by rw [habs]; exact h
      exact_mod_cast this
    have hval : ((if decide (i < 0) = true then (-1 : ℚ) else 1) * (i.natAbs : ℚ)) = (i : ℚ) := by
      have hc : (i.natAbs : ℚ) = ((i.natAbs : Int) : ℚ) := (Int.cast_natCast _).symm
      by_cases hneg : i < 0
      · simp only [hneg, decide_True, if_true]
        have : (i.natAbs : Int) = -i := by omega
        rw [hc, this]
        push_cast
        ring
      · simp only [hneg, decide_False, if_false]
        have : (i.natAbs : Int) = i := by omega
        rw [hc, this]
        simp
    rcases Nat.lt_or_ge i.natAbs (2 ^ 53) with h2 | h2
    · rw [round_nat_exact _ _ h1 h2]
      simp only [Float64.toRat, Option.some.injEq]
      rw [← hval]
      have hz : ((2 : ℚ) ^ (53 - Float64.bitLen i.natAbs)) * (2 : ℚ) ^ (-((53 - Float64.bitLen i.natAbs : Nat) : Int)) = 1 := by
        rw [zpow_neg, zpow_natCast]
        exact mul_inv_cancel₀ (by positivity)
      push_cast
      rw [mul_assoc, mul_assoc, hz, mul_one]
    · have h3 : i.natAbs = 2 ^ 53 := le_antisymm hle h2
      rw [h3] at hval
      rw [h3, round_two_pow_53, ← hval]
      simp only [Float64.toRat, Option.some.injEq]
      norm_num

/-! ### Accuracy of the rounding -/

theorem roundHalfEven_near (N D : Nat) (hD : 0 < D) :
    |((Float64.roundHalfEven N D : Nat) : ℚ) - (N : ℚ) / D| ≤ 1 / 2 := by
  have hDq : (0 : ℚ) < D := by exact_mod_cast hD
  have hN : (N : ℚ) = D * ((N / D : Nat) : ℚ) + ((N % D : Nat) : ℚ) := by
    exact_mod_cast (Nat.div_add_mod N D).symm
  have hr : ((N % D : Nat) : ℚ) < D := by exact_mod_cast Nat.mod_lt N hD
  have hr0 : (0 : ℚ) ≤ ((N % D : Nat) : ℚ) := Nat.cast_nonneg _
  have key : ∀ x : ℚ, |x * D - N| ≤ 1 / 2 * D → |x - (N : ℚ) / D| ≤ 1 / 2 := by
    intro x hx
    have e1 : x - (N : ℚ) / D = (x * D - N) / D := by field_simp
    rw [e1, abs_div, abs_of_pos hDq, div_le_iff₀ hDq]
    exact hx
  unfold Float64.roundHalfEven
  simp only
  split_ifs with h1 h2 h3
  · apply key
    have h1q : (2 : ℚ) * ((N % D : Nat) : ℚ) < D := by exact_mod_cast h1
    rw [abs_le]
    constructor <;> linarith
  · apply key
    have h2q : (D : ℚ) < 2 * ((N % D : Nat) : ℚ) := by exact_mod_cast h2
    push_cast
    rw [abs_le]
    constructor <;> linarith
  · apply key
    have h1q : (2 : ℚ) * ((N % D : Nat) : ℚ) ≤ D := by exact_mod_cast (not_lt.mp h2)
    rw [abs_le]
    constructor <;> linarith
  · apply key
    have h2q : (D : ℚ) ≤ 2 * ((N % D : Nat) : ℚ) := by exact_mod_cast (not_lt.mp h1)
    push_cast
    rw [abs_le]
    constructor <;> linarith

theorem two_pow_toNat_div (z : Int) :
    (2 : ℚ) ^ (-z).toNat / (2 : ℚ) ^ z.toNat = (2 : ℚ) ^ (-z) := by
  rcases le_total 0 z with hz | hz
  · have h1 : (-z).toNat = 0 := Int.toNat_of_nonpos (by omega)
    have h2 : ((z.toNat : Nat) : Int) = z := Int.toNat_of_nonneg hz
    rw [h1, pow_zero, one_div, zpow_neg]
    congr 1
    rw [← zpow_natCast, h2]
  · have h1 : z.toNat = 0 := Int.toNat_of_nonpos hz
    have h2 : (((-z).toNat : Nat) : Int) = -z := Int.toNat_of_nonneg (by omega)
    rw [h1, pow_zero, div_one, ← zpow_natCast, h2]

/-- A finite result of `round` lies within half a unit in the last place of
the number rounded. -/
theorem round_within_half_ulp (neg sgn : Bool) (n d m : Nat) (e : Int) (hd : 0 < d)
    (h : Float64.round neg n d = (Float64.fin sgn m e, false)) :
    |(m : ℚ) * (2 : ℚ) ^ e - (n : ℚ) / d| ≤ (2 : ℚ) ^ e / 2 := by
  unfold Float64.round at h
  by_cases hn : n = 0
  · rw [if_pos hn] at h
    simp only [Prod.mk.injEq, Float64.fin.injEq, and_true] at h
    obtain ⟨_, hm, he⟩ := h
    subst hm
    subst hn
    simp only [Nat.cast_zero, zero_mul, zero_div, sub_zero, abs_zero]
    positivity
  · rw [if_neg hn] at h
    simp only at h
    generalize he0 : max (Float64.ilog2 n d - 52) (-1074) = e0 at h
    generalize hM : Float64.roundHalfEven (n * 2 ^ (-e0).toNat) (d * 2 ^ e0.toNat) = M at h
    have hD : 0 < d * 2 ^ e0.toNat := Nat.mul_pos hd (by positivity)
    have hnear := roundHalfEven_near (n * 2 ^ (-e0).toNat) (d * 2 ^ e0.toNat) hD
    rw [hM] at hnear
    have hq : ((n * 2 ^ (-e0).toNat : Nat) : ℚ) / ((d * 2 ^ e0.toNat : Nat) : ℚ)
        = (n : ℚ) / d * (2 : ℚ) ^ (-e0) := by
      push_cast
      rw [← two_pow_toNat_div e0]
      have hdq : (d : ℚ) ≠ 0 := by exact_mod_cast hd.ne'
      field_simp
    rw [hq] at hnear
    have hpos : (0 : ℚ) < (2 : ℚ) ^ e0 := by positivity
    have hscale : |(M : ℚ) * (2 : ℚ) ^ e0 - (n : ℚ) / d| ≤ (2 : ℚ) ^ e0 / 2 := by
      have e1 : (M : ℚ) * (2 : ℚ) ^ e0 - (n : ℚ) / d
          = ((M : ℚ) - (n : ℚ) / d * (2 : ℚ) ^ (-e0)) * (2 : ℚ) ^ e0 := by
        rw [sub_mul, mul_assoc, ← zpow_add₀ (by norm_num : (2 : ℚ) ≠ 0)]
        simp
      rw [e1, abs_mul, abs_of_pos hpos]
      calc |(M : ℚ) - (n : ℚ) / d * (2 : ℚ) ^ (-e0)| * (2 : ℚ) ^ e0
          ≤ 1 / 2 * (2 : ℚ) ^ e0 := mul_le_mul_of_nonneg_right hnear hpos.le
        _ = (2 : ℚ) ^ e0 / 2 := by ring
    by_cases hM53 : M = 2 ^ 53
    · simp only [hM53, if_true] at h
      split_ifs at h
      · simp at h
      · simp only [Prod.mk.injEq, Float64.fin.injEq, and_true] at h
        obtain ⟨_, hm, he⟩ := h
        subst hm
        subst he
        rw [hM53] at hscale
        have e2 : ((2 ^ 52 : Nat) : ℚ) * (2 : ℚ) ^ (e0 + 1)
            = ((2 ^ 53 : Nat) : ℚ) * (2 : ℚ) ^ e0 := by
          rw [zpow_add₀ (by norm_num : (2 : ℚ) ≠ 0)]
          push_cast
          ring
        have e3 : (2 : ℚ) ^ (e0 + 1) / 2 = (2 : ℚ) ^ e0 := by
          rw [zpow_add₀ (by norm_num : (2 : ℚ) ≠ 0)]
          simp
        rw [e2, e3]
        linarith
    · simp only [hM53, if_false] at h
      split_ifs at h
      · simp at h
      · simp only [Prod.mk.injEq, Float64.fin.injEq, and_true] at h
        obtain ⟨_, hm, he⟩ := h
        subst hm
        subst he
        exact hscale

theorem bitLen_bounds_rat (n : Nat) (hn : 0 < n) :
    (2 : ℚ) ^ ((Float64.bitLen n : Int) - 1) ≤ n ∧ (n : ℚ) < (2 : ℚ) ^ (Float64.bitLen n : Int) := by
  obtain ⟨h1, h2⟩ := bitLen_spec n hn
  have ha : 1 ≤ Float64.bitLen n := by
    by_contra hb
    have h4 : Float64.bitLen n = 0 := by omega
    rw [h4] at h2
    simp at h2
    omega
  have hc : ((Float64.bitLen n - 1 : Nat) : Int) = (Float64.bitLen n : Int) - 1 := by omega
  constructor
  · rw [← hc, zpow_natCast]
    exact_mod_cast h1
  · rw [zpow_natCast]
    exact_mod_cast h2

/-- `ilog2 n d` is the integer part of the binary logarithm of `n / d`. -/
theorem ilog2_spec (n d : Nat) (hn : 0 < n) (hd : 0 < d) :
    (2 : ℚ) ^ Float64.ilog2 n d ≤ (n : ℚ) / d
      ∧ (n : ℚ) / d < (2 : ℚ) ^ (Float64.ilog2 n d + 1) := by
  obtain ⟨hn1, hn2⟩ := bitLen_bounds_rat n hn
  obtain ⟨hd1, hd2⟩ := bitLen_bounds_rat d hd
  have hdq : (0 : ℚ) < d := by exact_mod_cast hd
  have h2 : (2 : ℚ) ≠ 0 := by norm_num
  generalize hk : (Float64.bitLen n : Int) - (Float64.bitLen d : Int) = k
  have hup : (n : ℚ) / d < (2 : ℚ) ^ (k + 1) := by
    rw [div_lt_iff₀ hdq]
    calc (n : ℚ) < (2 : ℚ) ^ (Float64.bitLen n : Int) := hn2
      _ = (2 : ℚ) ^ (k + 1) * (2 : ℚ) ^ ((Float64.bitLen d : Int) - 1) := by
          rw [← zpow_add₀ h2]
          congr 1
          omega
      _ ≤ (2 : ℚ) ^ (k + 1) * d := by
          apply mul_le_mul_of_nonneg_left hd1
          positivity
  have hlow : (2 : ℚ) ^ (k - 1) ≤ (n : ℚ) / d := by
    rw [le_div_iff₀ hdq]
    calc (2 : ℚ) ^ (k - 1) * d ≤ (2 : ℚ) ^ (k - 1) * (2 : ℚ) ^ (Float64.bitLen d : Int) := by
          apply mul_le_mul_of_nonneg_left hd2.le
          positivity
      _ = (2 : ℚ) ^ ((Float64.bitLen n : Int) - 1) := by
          rw [← zpow_add₀ h2]
          congr 1
          omega
      _ ≤ n := hn1
  have hcond : d * 2 ^ k.toNat ≤ n * 2 ^ (-k).toNat ↔ (2 : ℚ) ^ k ≤ (n : ℚ) / d := by
    have e1 := two_pow_toNat_div (-k)
    rw [neg_neg] at e1
    have p1 : (0 : ℚ) < (2 : ℚ) ^ (-k).toNat := by positivity
    rw [← e1, le_div_iff₀ hdq, div_mul_eq_mul_div, div_le_iff₀ p1]
    constructor
    · intro h
      have hq : ((d * 2 ^ k.toNat : Nat) : ℚ) ≤ ((n * 2 ^ (-k).toNat : Nat) : ℚ) := by
        exact_mod_cast h
      push_cast at hq
      linarith
    · intro h
      have hq : ((d * 2 ^ k.toNat : Nat) : ℚ) ≤ ((n * 2 ^ (-k).toNat : Nat) : ℚ) := by
        push_cast
        linarith
      exact_mod_cast hq
  unfold Float64.ilog2
  simp only [hk]
  split_ifs with hc
  · exact ⟨hcond.mp hc, hup⟩
  · refine ⟨hlow, ?_⟩
    have : k - 1 + 1 = k := by ring
    rw [this]
    exact not_le.mp (fun h => hc (hcond.mpr h))

theorem roundHalfEven_scaled (n d : Nat) (hd : 0 < d) (e0 : Int) :
    |((Float64.roundHalfEven (n * 2 ^ (-e0).toNat) (d * 2 ^ e0.toNat) : Nat) : ℚ)
        - (n : ℚ) / d * (2 : ℚ) ^ (-e0)| ≤ 1 / 2 := by
  have hD : 0 < d * 2 ^ e0.toNat := Nat.mul_pos hd (by positivity)
  have hnear := roundHalfEven_near (n * 2 ^ (-e0).toNat) (d * 2 ^ e0.toNat) hD
  have hq : ((n * 2 ^ (-e0).toNat : Nat) : ℚ) / ((d * 2 ^ e0.toNat : Nat) : ℚ)
      = (n : ℚ) / d * (2 : ℚ) ^ (-e0) := by
    push_cast
    rw [← two_pow_toNat_div e0]
    have hdq : (d : ℚ) ≠ 0 := by exact_mod_cast hd.ne'
    field_simp
  rw [hq] at hnear
  exact hnear

/-- A finite result of `round` is in IEEE form: the sign asked for, a
significand below `2^53`, an exponent between `-1074` and `971`, and a
significand of full width unless the exponent is the least one. -/
theorem round_canonical (neg sgn : Bool) (n d m : Nat) (e : Int) (hd : 0 < d)
    (h : Float64.round neg n d = (Float64.fin sgn m e, false)) :
    sgn = neg ∧ m < 2 ^ 53 ∧ -1074 ≤ e ∧ e ≤ 971 ∧ (2 ^ 52 ≤ m ∨ e = -1074) := by
  unfold Float64.round at h
  by_cases hn : n = 0
  · rw [if_pos hn] at h
    simp only [Prod.mk.injEq, Float64.fin.injEq, and_true] at h
    obtain ⟨hs, hm, he⟩ := h
    subst hm he hs
    norm_num
  · rw [if_neg hn] at h
    simp only at h
    obtain ⟨hl1, hl2⟩ := ilog2_spec n d (by omega) hd
    generalize hL : Float64.ilog2 n d = L at h hl1 hl2
    have hnear := roundHalfEven_scaled n d hd (max (L - 52) (-1074))
    generalize he0 : max (L - 52) (-1074) = e0 at h hnear
    generalize hM : Float64.roundHalfEven (n * 2 ^ (-e0).toNat) (d * 2 ^ e0.toNat) = M
      at h hnear
    have hge : -1074 ≤ e0 := by rw [← he0]; exact le_max_right _ _
    have hge2 : L - 52 ≤ e0 := by rw [← he0]; exact le_max_left _ _
    have h2 : (2 : ℚ) ≠ 0 := by norm_num
    have hpos : (0 : ℚ) < (2 : ℚ) ^ (-e0) := by positivity
    have hxu : (n : ℚ) / d * (2 : ℚ) ^ (-e0) < (2 : ℚ) ^ (53 : Nat) := by
      calc (n : ℚ) / d * (2 : ℚ) ^ (-e0) < (2 : ℚ) ^ (L + 1) * (2 : ℚ) ^ (-e0) :=
            mul_lt_mul_of_pos_right hl2 hpos
        _ = (2 : ℚ) ^ (L + 1 + -e0) := (zpow_add₀ h2 _ _).symm
        _ ≤ (2 : ℚ) ^ ((53 : Nat) : Int) := zpow_le_zpow_right₀ (by norm_num) (by omega)
        _ = (2 : ℚ) ^ (53 : Nat) := zpow_natCast _ _
    have hxl : e0 ≠ -1074 → (2 : ℚ) ^ (52 : Nat) ≤ (n : ℚ) / d * (2 : ℚ) ^ (-e0) := by
      intro hne
      have he1 : e0 = L - 52 := by
        rcases max_choice (L - 52) (-1074) with hc | hc
        · rw [← he0, hc]
        · exact absurd (he0.symm.trans hc) hne
      calc (2 : ℚ) ^ (52 : Nat) = (2 : ℚ) ^ ((52 : Nat) : Int) := (zpow_natCast _ _).symm
        _ = (2 : ℚ) ^ (L + -e0) := by
            congr 1
            omega
        _ = (2 : ℚ) ^ L * (2 : ℚ) ^ (-e0) := zpow_add₀ h2 _ _
        _ ≤ (n : ℚ) / d * (2 : ℚ) ^ (-e0) := mul_le_mul_of_nonneg_right hl1 hpos.le
    generalize (n : ℚ) / d * (2 : ℚ) ^ (-e0) = x at hnear hxu hxl
    have hMle : M ≤ 2 ^ 53 := by
      by_contra hc
      have h3 : 2 ^ 53 + 1 ≤ M := by omega
      have h4 : (2 : ℚ) ^ (53 : Nat) + 1 ≤ (M : ℚ) := by exact_mod_cast h3
      have h5 := (abs_le.mp hnear).2
      linarith
    have hMge : e0 ≠ -1074 → 2 ^ 52 ≤ M := by
      intro hne
      have h6 := hxl hne
      by_contra hc
      have h3 : M + 1 ≤ 2 ^ 52 := by omega
      have h4 : (M : ℚ) + 1 ≤ (2 : ℚ) ^ (52 : Nat) := by exact_mod_cast h3
      have h5 := (abs_le.mp hnear).1
      linarith
    by_cases hM53 : M = 2 ^ 53
    · simp only [hM53, if_true] at h
      split_ifs at h with ho
      · simp at h
      · simp only [Prod.mk.injEq, Float64.fin.injEq, and_true] at h
        obtain ⟨hs, hm, he⟩ := h
        subst hm he hs
        refine ⟨rfl, by norm_num, by omega, by omega, Or.inl (le_refl _)⟩
    · simp only [hM53, if_false] at h
      split_ifs at h with ho
      · simp at h
      · simp only [Prod.mk.injEq, Float64.fin.injEq, and_true] at h
        obtain ⟨hs, hm, he⟩ := h
        subst hm he hs
        refine ⟨rfl, by omega, hge, by omega, ?_⟩
        by_cases hne : e0 = -1074
        · exact Or.inr hne
        · exact Or.inl (hMge hne)

/-! ### The rounding is IEEE round-to-nearest-even -/

theorem roundHalfEven_odd (N D : Nat) (hD : 0 < D)
    (hodd : Float64.roundHalfEven N D % 2 = 1) :
    |((Float64.roundHalfEven N D : Nat) : ℚ) - (N : ℚ) / D| < 1 / 2 := by
  have hDq : (0 : ℚ) < D := by exact_mod_cast hD
  have hN : (N : ℚ) = D * ((N / D : Nat) : ℚ) + ((N % D : Nat) : ℚ) := by
    exact_mod_cast (Nat.div_add_mod N D).symm
  have hr0 : (0 : ℚ) ≤ ((N % D : Nat) : ℚ) := Nat.cast_nonneg _
  have hr : ((N % D : Nat) : ℚ) < D := by exact_mod_cast Nat.mod_lt N hD
  have key : ∀ x : ℚ, |x * D - N| < 1 / 2 * D → |x - (N : ℚ) / D| < 1 / 2 := by
    intro x hx
    have e1 : x - (N : ℚ) / D = (x * D - N) / D := by field_simp
    rw [e1, abs_div, abs_of_pos hDq, div_lt_iff₀ hDq]
    exact hx
  rcases lt_trichotomy (2 * (N % D)) D with h1 | h1 | h1
  · have hv : Float64.roundHalfEven N D = N / D := by
      simp [Float64.roundHalfEven, h1]
    rw [hv]
    apply key
    have h1q : (2 : ℚ) * ((N % D : Nat) : ℚ) < D := by exact_mod_cast h1
    rw [abs_lt]
    constructor <;> linarith
  · exfalso
    have hv : Float64.roundHalfEven N D % 2 = 0 := by
      unfold Float64.roundHalfEven
      simp only [h1, lt_self_iff_false, if_false]
      split_ifs with h3
      · exact h3
      · omega
    omega
  · have hv : Float64.roundHalfEven N D = N / D + 1 := by
      have h2 : ¬ 2 * (N % D) < D := by omega
      simp [Float64.roundHalfEven, h1, h2]
    rw [hv]
    apply key
    have h2q : (D : ℚ) < 2 * ((N % D : Nat) : ℚ) := by exact_mod_cast h1
    push_cast
    rw [abs_lt]
    constructor <;> linarith

theorem roundHalfEven_scaled_odd (n d : Nat) (hd : 0 < d) (e0 : Int)
    (hodd : Float64.roundHalfEven (n * 2 ^ (-e0).toNat) (d * 2 ^ e0.toNat) % 2 = 1) :
    |((Float64.roundHalfEven (n * 2 ^ (-e0).toNat) (d * 2 ^ e0.toNat) : Nat) : ℚ)
        - (n : ℚ) / d * (2 : ℚ) ^ (-e0)| < 1 / 2 := by
  have hD : 0 < d * 2 ^ e0.toNat := Nat.mul_pos hd (by positivity)
  have hnear := roundHalfEven_odd (n * 2 ^ (-e0).toNat) (d * 2 ^ e0.toNat) hD hodd
  have hq : ((n * 2 ^ (-e0).toNat : Nat) : ℚ) / ((d * 2 ^ e0.toNat : Nat) : ℚ)
      = (n : ℚ) / d * (2 : ℚ) ^ (-e0) := by
    push_cast
    rw [← two_pow_toNat_div e0]
    have hdq : (d : ℚ) ≠ 0 := by exact_mod_cast hd.ne'
    field_simp
  rw [hq] at hnear
  exact hnear

/-- What `round` computes for a non-zero `n / d`: a scale `e0` and the integer
`M` nearest to `n / d / 2^e0`. -/
theorem round_analysis (neg : Bool) (n d : Nat) (hn : n ≠ 0) (hd : 0 < d) :
    ∃ (e0 : Int) (M : Nat),
      Float64.round neg n d
        = (if 971 < (if M = 2 ^ 53 then e0 + 1 else e0) then (Float64.inf neg, true)
           else (Float64.fin neg (if M = 2 ^ 53 then 2 ^ 52 else M)
                  (if M = 2 ^ 53 then e0 + 1 else e0), false))
      ∧ -1074 ≤ e0
      ∧ |(M : ℚ) - (n : ℚ) / d * (2 : ℚ) ^ (-e0)| ≤ 1 / 2
      ∧ (M % 2 = 1 → |(M : ℚ) - (n : ℚ) / d * (2 : ℚ) ^ (-e0)| < 1 / 2)
      ∧ M ≤ 2 ^ 53
      ∧ (e0 ≠ -1074 → 2 ^ 52 ≤ M ∧ (2 : ℚ) ^ (52 : Nat) * (2 : ℚ) ^ e0 ≤ (n : ℚ) / d)
      ∧ (n : ℚ) / d < (2 : ℚ) ^ (53 : Nat) * (2 : ℚ) ^ e0 := by
  obtain ⟨hl1, hl2⟩ := ilog2_spec n d (by omega) hd
  have hr : Float64.round neg n d
      = (if 971 < (if Float64.roundHalfEven (n * 2 ^ (-(max (Float64.ilog2 n d - 52) (-1074))).toNat)
                (d * 2 ^ (max (Float64.ilog2 n d - 52) (-1074)).toNat) = 2 ^ 53
              then max (Float64.ilog2 n d - 52) (-1074) + 1
              else max (Float64.ilog2 n d - 52) (-1074))
         then (Float64.inf neg, true)
         else (Float64.fin neg
                (if Float64.roundHalfEven (n * 2 ^ (-(max (Float64.ilog2 n d - 52) (-1074))).toNat)
                    (d * 2 ^ (max (Float64.ilog2 n d - 52) (-1074)).toNat) = 2 ^ 53
                  then 2 ^ 52
                  else Float64.roundHalfEven (n * 2 ^ (-(max (Float64.ilog2 n d - 52) (-1074))).toNat)
                    (d * 2 ^ (max (Float64.ilog2 n d - 52) (-1074)).toNat))
                (if Float64.roundHalfEven (n * 2 ^ (-(max (Float64.ilog2 n d - 52) (-1074))).toNat)
                    (d * 2 ^ (max (Float64.ilog2 n d - 52) (-1074)).toNat) = 2 ^ 53
                  then max (Float64.ilog2 n d - 52) (-1074) + 1
                  else max (Float64.ilog2 n d - 52) (-1074)), false)) := by
    unfold Float64.round
    rw [if_neg hn]
  generalize hL : Float64.ilog2 n d = L at hr hl1 hl2
  have hnear := roundHalfEven_scaled n d hd (max (L - 52) (-1074))
  have hodd := roundHalfEven_scaled_odd n d hd (max (L - 52) (-1074))
  generalize he0 : max (L - 52) (-1074) = e0 at hr hnear hodd
  generalize hM : Float64.roundHalfEven (n * 2 ^ (-e0).toNat) (d * 2 ^ e0.toNat) = M
    at hr hnear hodd
  have hge : -1074 ≤ e0 := by rw [← he0]; exact le_max_right _ _
  have hge2 : L - 52 ≤ e0 := by rw [← he0]; exact le_max_left _ _
  have h2 : (2 : ℚ) ≠ 0 := by norm_num
  have hpos : (0 : ℚ) < (2 : ℚ) ^ (-e0) := by positivity
  have hxu : (n : ℚ) / d * (2 : ℚ) ^ (-e0) < (2 : ℚ) ^ (53 : Nat) := by
    calc (n : ℚ) / d * (2 : ℚ) ^ (-e0) < (2 : ℚ) ^ (L + 1) * (2 : ℚ) ^ (-e0) :=
          mul_lt_mul_of_pos_right hl2 hpos
      _ = (2 : ℚ) ^ (L + 1 + -e0) := (zpow_add₀ h2 _ _).symm
      _ ≤ (2 : ℚ) ^ ((53 : Nat) : Int) := zpow_le_zpow_right₀ (by norm_num) (by omega)
      _ = (2 : ℚ) ^ (53 : Nat) := zpow_natCast _ _
  have hxu2 : (n : ℚ) / d < (2 : ℚ) ^ (53 : Nat) * (2 : ℚ) ^ e0 := by
    calc (n : ℚ) / d < (2 : ℚ) ^ (L + 1) := hl2
      _ ≤ (2 : ℚ) ^ (((53 : Nat) : Int) + e0) := zpow_le_zpow_right₀ (by norm_num) (by omega)
      _ = (2 : ℚ) ^ (53 : Nat) * (2 : ℚ) ^ e0 := by rw [zpow_add₀ h2, zpow_natCast]
  have hxl : e0 ≠ -1074 → (2 : ℚ) ^ (52 : Nat) ≤ (n : ℚ) / d * (2 : ℚ) ^ (-e0) := by
    intro hne
    have he1 : e0 = L - 52 := by
      rcases max_choice (L - 52) (-1074) with hc | hc
      · rw [← he0, hc]
      · exact absurd (he0.symm.trans hc) hne
    calc (2 : ℚ) ^ (52 : Nat) = (2 : ℚ) ^ ((52 : Nat) : Int) := (zpow_natCast _ _).symm
      _ = (2 : ℚ) ^ (L + -e0) := by
          congr 1
          omega
      _ = (2 : ℚ) ^ L * (2 : ℚ) ^ (-e0) := zpow_add₀ h2 _ _
      _ ≤ (n : ℚ) / d * (2 : ℚ) ^ (-e0) := mul_le_mul_of_nonneg_right hl1 hpos.le
  have hxl2 : e0 ≠ -1074 → (2 : ℚ) ^ (52 : Nat) * (2 : ℚ) ^ e0 ≤ (n : ℚ) / d := by
    intro hne
    have he1 : e0 = L - 52 := by
      rcases max_choice (L - 52) (-1074) with hc | hc
      · rw [← he0, hc]
      · exact absurd (he0.symm.trans hc) hne
    calc (2 : ℚ) ^ (52 : Nat) * (2 : ℚ) ^ e0 = (2 : ℚ) ^ (((52 : Nat) : Int) + e0) := by
          rw [zpow_add₀ h2, zpow_natCast]
      _ = (2 : ℚ) ^ L := by
          congr 1
          omega
      _ ≤ (n : ℚ) / d := hl1
  refine ⟨e0, M, hr, hge, hnear, hodd, ?_, ?_, hxu2⟩
  · by_contra hc
    have h3 : 2 ^ 53 + 1 ≤ M := by omega
    have h4 : (2 : ℚ) ^ (53 : Nat) + 1 ≤ (M : ℚ) := by exact_mod_cast h3
    have h5 := (abs_le.mp hnear).2
    linarith
  · intro hne
    refine ⟨?_, hxl2 hne⟩
    have h6 := hxl hne
    by_contra hc
    have h3 : M + 1 ≤ 2 ^ 52 := by omega
    have h4 : (M : ℚ) + 1 ≤ (2 : ℚ) ^ (52 : Nat) := by exact_mod_cast h3
    have h5 := (abs_le.mp hnear).1
    linarith

theorem nearest_int (M k : Nat) (y : ℚ) (h : |(M : ℚ) - y| ≤ 1 / 2) (hk : k ≠ M) :
    1 / 2 ≤ |(k : ℚ) - y| := by
  obtain ⟨ha, hb⟩ := abs_le.mp h
  rcases Nat.lt_or_gt_of_ne hk with h1 | h1
  · have h2 : (k : ℚ) + 1 ≤ M := by exact_mod_cast h1
    have h3 := neg_le_abs ((k : ℚ) - y)
    linarith
  · have h2 : (M : ℚ) + 1 ≤ k := by exact_mod_cast h1
    have h3 := le_abs_self ((k : ℚ) - y)
    linarith

theorem abs_sub_scaled (a x : ℚ) (e0 : Int) :
    |a * (2 : ℚ) ^ e0 - x| = |a - x * (2 : ℚ) ^ (-e0)| * (2 : ℚ) ^ e0 := by
  have hpos : (0 : ℚ) < (2 : ℚ) ^ e0 := by positivity
  have e1 : a * (2 : ℚ) ^ e0 - x = (a - x * (2 : ℚ) ^ (-e0)) * (2 : ℚ) ^ e0 := by
    rw [sub_mul, mul_assoc, ← zpow_add₀ (by norm_num : (2 : ℚ) ≠ 0)]
    simp
  rw [e1, abs_mul, abs_of_pos hpos]

/-- The multiple `M * 2^e0` of the scale nearest to `x` is nearest to `x` among
all finite `float64` magnitudes, when the scale is the one of `x`. -/
theorem grid_nearest (M : Nat) (e0 : Int) (x : ℚ)
    (hnear : |(M : ℚ) - x * (2 : ℚ) ^ (-e0)| ≤ 1 / 2)
    (hlow : e0 ≠ -1074 → (2 : ℚ) ^ (52 : Nat) * (2 : ℚ) ^ e0 ≤ x)
    (q : ℚ) (hq : Float64.IsMagnitude q) :
    |(M : ℚ) * (2 : ℚ) ^ e0 - x| ≤ |q - x| ∧
    (q ≠ (M : ℚ) * (2 : ℚ) ^ e0 → |q - x| = |(M : ℚ) * (2 : ℚ) ^ e0 - x| →
      |(M : ℚ) - x * (2 : ℚ) ^ (-e0)| = 1 / 2) := by
  obtain ⟨m', e', hm', he'1, he'2, rfl⟩ := hq
  have hpos : (0 : ℚ) < (2 : ℚ) ^ e0 := by positivity
  have h2 : (2 : ℚ) ≠ 0 := by norm_num
  have hgrid : ∀ k : Nat, |(M : ℚ) * (2 : ℚ) ^ e0 - x| ≤ |(k : ℚ) * (2 : ℚ) ^ e0 - x| ∧
      (k ≠ M → |(k : ℚ) * (2 : ℚ) ^ e0 - x| = |(M : ℚ) * (2 : ℚ) ^ e0 - x| →
        |(M : ℚ) - x * (2 : ℚ) ^ (-e0)| = 1 / 2) := by
    intro k
    rw [abs_sub_scaled (M : ℚ), abs_sub_scaled (k : ℚ)]
    by_cases hk : k = M
    · subst hk
      exact ⟨le_refl _, fun h => absurd rfl h⟩
    · have h1 := nearest_int M k _ hnear hk
      constructor
      · exact mul_le_mul_of_nonneg_right (le_trans hnear h1) hpos.le
      · intro _ heq
        have h3 := mul_right_cancel₀ hpos.ne' heq
        apply le_antisymm hnear
        rw [← h3]
        exact h1
  rcases le_or_lt e0 e' with hle | hlt
  · have hk : (m' : ℚ) * (2 : ℚ) ^ e'
        = ((m' * 2 ^ (e' - e0).toNat : Nat) : ℚ) * (2 : ℚ) ^ e0 := by
      push_cast
      rw [mul_assoc, ← zpow_natCast, ← zpow_add₀ h2]
      congr 2
      omega
    rw [hk]
    obtain ⟨g1, g2⟩ := hgrid (m' * 2 ^ (e' - e0).toNat)
    refine ⟨g1, fun hne heq => g2 ?_ heq⟩
    intro hc
    apply hne
    rw [hc]
  · have hne : e0 ≠ -1074 := by omega
    have hx := hlow hne
    have hm'q : (m' : ℚ) < (2 : ℚ) ^ (53 : Nat) := by exact_mod_cast hm'
    have hq1 : (m' : ℚ) * (2 : ℚ) ^ e' < (2 : ℚ) ^ (52 : Nat) * (2 : ℚ) ^ e0 := by
      calc (m' : ℚ) * (2 : ℚ) ^ e' < (2 : ℚ) ^ (53 : Nat) * (2 : ℚ) ^ e' :=
            mul_lt_mul_of_pos_right hm'q (by positivity)
        _ ≤ (2 : ℚ) ^ (53 : Nat) * (2 : ℚ) ^ (e0 - 1) :=
            mul_le_mul_of_nonneg_left (zpow_le_zpow_right₀ (by norm_num) (by omega))
              (by positivity)
        _ = (2 : ℚ) ^ (52 : Nat) * (2 : ℚ) ^ e0 := by
            rw [zpow_sub₀ h2, zpow_one]
            ring
    obtain ⟨g1, _⟩ := hgrid (2 ^ 52)
    have hlt2 : |(M : ℚ) * (2 : ℚ) ^ e0 - x| < |(m' : ℚ) * (2 : ℚ) ^ e' - x| := by
      calc |(M : ℚ) * (2 : ℚ) ^ e0 - x| ≤ |((2 ^ 52 : Nat) : ℚ) * (2 : ℚ) ^ e0 - x| := g1
        _ = x - (2 : ℚ) ^ (52 : Nat) * (2 : ℚ) ^ e0 := by
            have hc : ((2 ^ 52 : Nat) : ℚ) = (2 : ℚ) ^ (52 : Nat) := by norm_num
            rw [hc, abs_sub_comm, abs_of_nonneg (by linarith)]
        _ < x - (m' : ℚ) * (2 : ℚ) ^ e' := by linarith
        _ ≤ |(m' : ℚ) * (2 : ℚ) ^ e' - x| := by
            rw [abs_sub_comm]
            exact le_abs_self _
    exact ⟨hlt2.le, fun _ heq => absurd heq (ne_of_gt hlt2)⟩

theorem overflowThreshold_eq :
    Float64.overflowThreshold = ((2 : ℚ) ^ (53 : Nat) - 1 / 2) * (2 : ℚ) ^ (971 : Int) := by
  have h1 : (2 : ℚ) ^ (971 : Int) = (2 : ℚ) ^ (971 : Nat) := by
    rw [← zpow_natCast]
    rfl
  rw [h1]
  unfold Float64.overflowThreshold
  have e1 : (2 : ℚ) ^ 1024 = (2 : ℚ) ^ (53 : Nat) * (2 : ℚ) ^ (971 : Nat) := by
    rw [← pow_add]
  have e2 : (2 : ℚ) ^ (971 : Nat) = 2 * (2 : ℚ) ^ 970 := by
    rw [pow_succ]
    ring
  rw [e1, e2]
  ring

/-- The conversion is IEEE 754 round-to-nearest-even, overflow included. -/
theorem round_spec (neg : Bool) (n d : Nat) (hd : 0 < d) :
    Float64.RoundsTo neg ((n : ℚ) / d) (Float64.round neg n d) := by
  have h2 : (2 : ℚ) ≠ 0 := by norm_num
  have hthr := overflowThreshold_eq
  by_cases hn : n = 0
  · subst hn
    have hr : Float64.round neg 0 d = (Float64.fin neg 0 (-1074), false) := by
      simp [Float64.round]
    rw [hr]
    constructor
    · intro h
      exfalso
      rw [hthr] at h
      have hp : (0 : ℚ) < ((2 : ℚ) ^ (53 : Nat) - 1 / 2) * (2 : ℚ) ^ (971 : Int) := by
        apply mul_pos
        · norm_num
        · positivity
      simp only [Nat.cast_zero, zero_div] at h
      linarith
    · intro _
      refine ⟨0, -1074, rfl, by norm_num, le_refl _, by norm_num, Or.inr rfl, ?_, ?_⟩
      · intro q _
        simp
      · intro q _ _ _
        rfl
  · obtain ⟨e0, M, hr, hge, hnear, hodd, hMle, hlow, hup⟩ := round_analysis neg n d hn hd
    generalize (n : ℚ) / d = x at hr hnear hodd hlow hup
    have hpos : (0 : ℚ) < (2 : ℚ) ^ e0 := by positivity
    have hxy : x = x * (2 : ℚ) ^ (-e0) * (2 : ℚ) ^ e0 := by
      rw [mul_assoc, ← zpow_add₀ h2]
      simp
    have hov : (971 < (if M = 2 ^ 53 then e0 + 1 else e0)) ↔ Float64.overflowThreshold ≤ x := by
      rw [hthr]
      constructor
      · intro h
        by_cases hM : M = 2 ^ 53
        · rw [if_pos hM] at h
          have hy : (2 : ℚ) ^ (53 : Nat) - 1 / 2 ≤ x * (2 : ℚ) ^ (-e0) := by
            have h5 := (abs_le.mp hnear).2
            have hMq : (M : ℚ) = (2 : ℚ) ^ (53 : Nat) := by exact_mod_cast hM
            linarith
          have hmono : (2 : ℚ) ^ (971 : Int) ≤ (2 : ℚ) ^ e0 :=
            zpow_le_zpow_right₀ (by norm_num) (by omega)
          rw [hxy]
          calc ((2 : ℚ) ^ (53 : Nat) - 1 / 2) * (2 : ℚ) ^ (971 : Int)
              ≤ ((2 : ℚ) ^ (53 : Nat) - 1 / 2) * (2 : ℚ) ^ e0 :=
                mul_le_mul_of_nonneg_left hmono (by norm_num)
            _ ≤ x * (2 : ℚ) ^ (-e0) * (2 : ℚ) ^ e0 :=
                mul_le_mul_of_nonneg_right hy hpos.le
        · rw [if_neg hM] at h
          have hx := (hlow (by omega)).2
          have hmono : (2 : ℚ) ^ (972 : Int) ≤ (2 : ℚ) ^ e0 :=
            zpow_le_zpow_right₀ (by norm_num) (by omega)
          have e3 : (2 : ℚ) ^ (972 : Int) = 2 * (2 : ℚ) ^ (971 : Int) := by
            rw [show (972 : Int) = 1 + 971 from rfl, zpow_add₀ h2, zpow_one]
          have hp971 : (0 : ℚ) < (2 : ℚ) ^ (971 : Int) := by positivity
          calc ((2 : ℚ) ^ (53 : Nat) - 1 / 2) * (2 : ℚ) ^ (971 : Int)
              ≤ (2 : ℚ) ^ (52 : Nat) * (2 * (2 : ℚ) ^ (971 : Int)) := by nlinarith
            _ ≤ (2 : ℚ) ^ (52 : Nat) * (2 : ℚ) ^ e0 := by
                rw [← e3]
                exact mul_le_mul_of_nonneg_left hmono (by positivity)
            _ ≤ x := hx
      · intro h
        have he971 : 971 ≤ e0 := by
          by_contra hc
          have hmono : (2 : ℚ) ^ e0 ≤ (2 : ℚ) ^ (970 : Int) :=
            zpow_le_zpow_right₀ (by norm_num) (by omega)
          have e3 : (2 : ℚ) ^ (971 : Int) = 2 * (2 : ℚ) ^ (970 : Int) := by
            rw [show (971 : Int) = 1 + 970 from rfl, zpow_add₀ h2, zpow_one]
          have hp970 : (0 : ℚ) < (2 : ℚ) ^ (970 : Int) := by positivity
          have h7 : (2 : ℚ) ^ (53 : Nat) * (2 : ℚ) ^ e0 ≤ (2 : ℚ) ^ (53 : Nat) * (2 : ℚ) ^ (970 : Int) :=
            mul_le_mul_of_nonneg_left hmono (by positivity)
          rw [e3] at h
          nlinarith
        by_cases hM : M = 2 ^ 53
        · rw [if_pos hM]
          omega
        · rw [if_neg hM]
          by_contra hc
          have he : e0 = 971 := by omega
          subst he
          have hy : (2 : ℚ) ^ (53 : Nat) - 1 / 2 ≤ x * (2 : ℚ) ^ (-(971 : Int)) := by
            have h8 := mul_le_mul_of_nonneg_right h (by positivity : (0 : ℚ) ≤ (2 : ℚ) ^ (-(971 : Int)))
            rw [mul_assoc, ← zpow_add₀ h2] at h8
            simpa using h8
          have h5 := (abs_le.mp hnear).1
          have hMge : (2 : ℚ) ^ (53 : Nat) - 1 ≤ (M : ℚ) := by linarith
          have hMge2 : 2 ^ 53 - 1 ≤ M := by
            have : ((2 ^ 53 - 1 : Nat) : ℚ) ≤ (M : ℚ) := by
              push_cast
              linarith
            exact_mod_cast this
          have hMeq : M = 2 ^ 53 - 1 := by omega
          have hoddM : M % 2 = 1 := by
            rw [hMeq]
            rfl
          have h9 := (abs_lt.mp (hodd hoddM)).1
          have hMq : (M : ℚ) = (2 : ℚ) ^ (53 : Nat) - 1 := by
            rw [hMeq]
            norm_num
          linarith
    have hval : (((if M = 2 ^ 53 then 2 ^ 52 else M : Nat)) : ℚ)
          * (2 : ℚ) ^ (if M = 2 ^ 53 then e0 + 1 else e0) = (M : ℚ) * (2 : ℚ) ^ e0 := by
      by_cases hM : M = 2 ^ 53
      · rw [if_pos hM, if_pos hM, hM, zpow_add₀ h2, zpow_one]
        push_cast
        ring
      · rw [if_neg hM, if_neg hM]
    rw [hr]
    constructor
    · intro h
      rw [if_pos (hov.mpr h)]
    · intro h
      have hno : ¬ 971 < (if M = 2 ^ 53 then e0 + 1 else e0) :=
        fun hc => absurd (hov.mp hc) (not_le.mpr h)
      rw [if_neg hno]
      refine ⟨_, _, rfl, ?_, ?_, not_lt.mp hno, ?_, ?_, ?_⟩
      · split_ifs <;> omega
      · split_ifs <;> omega
      · by_cases hM : M = 2 ^ 53
        · rw [if_pos hM]
          exact Or.inl (le_refl _)
        · rw [if_neg hM, if_neg hM]
          by_cases hne : e0 = -1074
          · exact Or.inr hne
          · exact Or.inl (hlow hne).1
      · intro q hq
        rw [hval]
        exact (grid_nearest M e0 x hnear (fun hne => (hlow hne).2) q hq).1
      · intro q hq hne heq
        rw [hval] at hne heq
        have htie := (grid_nearest M e0 x hnear (fun hne => (hlow hne).2) q hq).2 hne heq
        have hMeven : M % 2 = 0 := by
          by_contra hc
          have h10 := hodd (by omega)
          rw [htie] at h10
          exact lt_irrefl _ h10
        by_cases hM : M = 2 ^ 53
        · rw [if_pos hM]
          rfl
        · rw [if_neg hM]
          exact hMeven

/-- A magnitude that is a finite `float64` is below the overflow threshold. -/
theorem isMagnitude_lt_threshold {q : ℚ} (hq : Float64.IsMagnitude q) :
    q < Float64.overflowThreshold := by
  obtain ⟨m, e, hm, _, he, rfl⟩ := hq
  rw [overflowThreshold_eq]
  have hmq : (m : ℚ) + 1 ≤ (2 : ℚ) ^ (53 : Nat) := by exact_mod_cast hm
  have hmono : (2 : ℚ) ^ e ≤ (2 : ℚ) ^ (971 : Int) :=
    zpow_le_zpow_right₀ (by norm_num) he
  have hp : (0 : ℚ) < (2 : ℚ) ^ e := by positivity
  have hm0 : (0 : ℚ) ≤ (m : ℚ) := Nat.cast_nonneg _
  calc (m : ℚ) * (2 : ℚ) ^ e ≤ (m : ℚ) * (2 : ℚ) ^ (971 : Int) :=
        mul_le_mul_of_nonneg_left hmono hm0
    _ < ((2 : ℚ) ^ (53 : Nat) - 1 / 2) * (2 : ℚ) ^ (971 : Int) := by
        apply mul_lt_mul_of_pos_right _ (by positivity)
        linarith

/-- A correct rounding of a representable magnitude is that magnitude, with no
overflow. -/
theorem roundsTo_exact {neg : Bool} {x : ℚ} {r : Float64 × Bool}
    (h : Float64.RoundsTo neg x r) (hx : Float64.IsMagnitude x) :
    r.2 = false ∧ r.1.toRat = some ((if neg then -1 else 1) * x) := by
  obtain ⟨m, e, hr, _, _, _, _, hnear, _⟩ := h.2 (isMagnitude_lt_threshold hx)
  have h0 := hnear x hx
  rw [sub_self, abs_zero] at h0
  have h1 : (m : ℚ) * (2 : ℚ) ^ e = x := by
    have := abs_nonpos_iff.mp h0
    linarith
  subst hr
  refine ⟨rfl, ?_⟩
  simp only [Float64.toRat, Option.some.injEq]
  rw [mul_assoc, h1]

/-- Two `float64` magnitudes in IEEE form with the same value are the same. -/
theorem canonical_unique {m m' : Nat} {e e' : Int} (hm : m < 2 ^ 53)
    (he' : -1074 ≤ e) (hc' : 2 ^ 52 ≤ m' ∨ e' = -1074)
    (hle : e ≤ e') (h : (m : ℚ) * (2 : ℚ) ^ e = (m' : ℚ) * (2 : ℚ) ^ e') :
    m = m' ∧ e = e' := by
  have h2 : (2 : ℚ) ≠ 0 := by norm_num
  have hk : (m : ℚ) = ((m' * 2 ^ (e' - e).toNat : Nat) : ℚ) := by
    have hpos : (0 : ℚ) < (2 : ℚ) ^ e := by positivity
    have e1 : (m' : ℚ) * (2 : ℚ) ^ e' = ((m' * 2 ^ (e' - e).toNat : Nat) : ℚ) * (2 : ℚ) ^ e := by
      push_cast
      rw [mul_assoc, ← zpow_natCast, ← zpow_add₀ h2]
      congr 2
      omega
    rw [e1] at h
    exact mul_right_cancel₀ hpos.ne' h
  have hkn : m = m' * 2 ^ (e' - e).toNat := by exact_mod_cast hk
  rcases eq_or_lt_of_le hle with heq | hlt
  · subst heq
    simp at hkn
    exact ⟨hkn, rfl⟩
  · exfalso
    have hm' : 2 ^ 52 ≤ m' := by
      rcases hc' with h3 | h3
      · exact h3
      · omega
    have hp : 2 ≤ 2 ^ (e' - e).toNat := by
      have h1 : 1 ≤ (e' - e).toNat := by omega
      calc 2 = 2 ^ 1 := rfl
        _ ≤ 2 ^ (e' - e).toNat := Nat.pow_le_pow_right (by norm_num) h1
    have : 2 ^ 52 * 2 ≤ m' * 2 ^ (e' - e).toNat := Nat.mul_le_mul hm' hp
    omega

/-- No `float64` magnitude lies strictly between a magnitude in IEEE form and
the next multiple of its unit in the last place. -/
theorem no_magnitude_between {m : Nat} {e : Int} (hc : 2 ^ 52 ≤ m ∨ e = -1074)
    {q : ℚ} (hq : Float64.IsMagnitude q)
    (h1 : (m : ℚ) * (2 : ℚ) ^ e < q) (h2 : q < ((m : ℚ) + 1) * (2 : ℚ) ^ e) : False := by
  obtain ⟨k, j, hk, hj1, hj2, rfl⟩ := hq
  have h20 : (2 : ℚ) ≠ 0 := by norm_num
  have hpos : (0 : ℚ) < (2 : ℚ) ^ e := by positivity
  rcases le_or_lt e j with hle | hlt
  · have e1 : (k : ℚ) * (2 : ℚ) ^ j = ((k * 2 ^ (j - e).toNat : Nat) : ℚ) * (2 : ℚ) ^ e := by
      push_cast
      rw [mul_assoc, ← zpow_natCast, ← zpow_add₀ h20]
      congr 2
      omega
    rw [e1] at h1 h2
    have g1 := lt_of_mul_lt_mul_right h1 hpos.le
    have g2 := lt_of_mul_lt_mul_right h2 hpos.le
    have g1n : m < k * 2 ^ (j - e).toNat := by exact_mod_cast g1
    have g2n : k * 2 ^ (j - e).toNat < m + 1 := by exact_mod_cast g2
    omega
  · have hm : 2 ^ 52 ≤ m := by
      rcases hc with h3 | h3
      · exact h3
      · omega
    have hkq : (k : ℚ) < (2 : ℚ) ^ (53 : Nat) := by exact_mod_cast hk
    have hmq : (2 : ℚ) ^ (52 : Nat) ≤ (m : ℚ) := by exact_mod_cast hm
    have hq1 : (k : ℚ) * (2 : ℚ) ^ j < (2 : ℚ) ^ (52 : Nat) * (2 : ℚ) ^ e := by
      calc (k : ℚ) * (2 : ℚ) ^ j < (2 : ℚ) ^ (53 : Nat) * (2 : ℚ) ^ j :=
            mul_lt_mul_of_pos_right hkq (by positivity)
        _ ≤ (2 : ℚ) ^ (53 : Nat) * (2 : ℚ) ^ (e - 1) :=
            mul_le_mul_of_nonneg_left (zpow_le_zpow_right₀ (by norm_num) (by omega))
              (by positivity)
        _ = (2 : ℚ) ^ (52 : Nat) * (2 : ℚ) ^ e := by
            rw [zpow_sub₀ h20, zpow_one]
            ring
    have hq2 : (2 : ℚ) ^ (52 : Nat) * (2 : ℚ) ^ e ≤ (m : ℚ) * (2 : ℚ) ^ e :=
      mul_le_mul_of_nonneg_right hmq hpos.le
    linarith

/-- Of two different magnitudes that are both nearest to `x`, the lower one
has an odd significand or the upper one has. -/
theorem nearest_pair_parity {x : ℚ} {m m' : Nat} {e e' : Int}
    (hm : m < 2 ^ 53) (he1 : -1074 ≤ e) (he2 : e ≤ 971) (hc : 2 ^ 52 ≤ m ∨ e = -1074)
    (hm' : m' < 2 ^ 53) (he1' : -1074 ≤ e') (he2' : e' ≤ 971) (hc' : 2 ^ 52 ≤ m' ∨ e' = -1074)
    (hn : ∀ q, Float64.IsMagnitude q → |(m : ℚ) * (2 : ℚ) ^ e - x| ≤ |q - x|)
    (hn' : ∀ q, Float64.IsMagnitude q → |(m' : ℚ) * (2 : ℚ) ^ e' - x| ≤ |q - x|)
    (hlt : (m : ℚ) * (2 : ℚ) ^ e < (m' : ℚ) * (2 : ℚ) ^ e')
    (hev : m % 2 = 0) (hev' : m' % 2 = 0) : False := by
  have hq : Float64.IsMagnitude ((m : ℚ) * (2 : ℚ) ^ e) := ⟨m, e, hm, he1, he2, rfl⟩
  have hq' : Float64.IsMagnitude ((m' : ℚ) * (2 : ℚ) ^ e') := ⟨m', e', hm', he1', he2', rfl⟩
  have heq : |(m' : ℚ) * (2 : ℚ) ^ e' - x| = |(m : ℚ) * (2 : ℚ) ^ e - x| :=
    le_antisymm (hn' _ hq) (hn _ hq')
  generalize hf : (m : ℚ) * (2 : ℚ) ^ e = f at hn hlt heq hq
  generalize hg : (m' : ℚ) * (2 : ℚ) ^ e' = g at hn' hlt heq hq'
  have hx : x - f = g - x := by
    rcases abs_eq_abs.mp heq with h | h
    · linarith
    · linarith
  have hm1 : m + 1 < 2 ^ 53 := by omega
  have hq1 : Float64.IsMagnitude (((m + 1 : Nat) : ℚ) * (2 : ℚ) ^ e) :=
    ⟨m + 1, e, hm1, he1, he2, rfl⟩
  have hpos : (0 : ℚ) < (2 : ℚ) ^ e := by positivity
  have hsucc : ((m + 1 : Nat) : ℚ) * (2 : ℚ) ^ e = f + (2 : ℚ) ^ e := by
    rw [← hf]
    push_cast
    ring
  have h1 := hn _ hq1
  rw [hsucc] at h1 hq1
  have hge : g ≤ f + (2 : ℚ) ^ e := by
    have habs : |f - x| = x - f := by
      rw [abs_sub_comm]
      exact abs_of_pos (by linarith)
    rw [habs] at h1
    rcases abs_cases (f + (2 : ℚ) ^ e - x) with ⟨h3, _⟩ | ⟨h3, _⟩
    · rw [h3] at h1
      linarith
    · rw [h3] at h1
      linarith
  have hle : f + (2 : ℚ) ^ e ≤ g := by
    by_contra hcon
    apply no_magnitude_between hc hq'
    · rw [hf]
      exact hlt
    · have : ((m : ℚ) + 1) * (2 : ℚ) ^ e = f + (2 : ℚ) ^ e := by
        rw [← hf]
        ring
      rw [this]
      exact not_le.mp hcon
  have hval : ((m + 1 : Nat) : ℚ) * (2 : ℚ) ^ e = (m' : ℚ) * (2 : ℚ) ^ e' := by
    rw [hsucc, hg]
    exact le_antisymm hle hge
  have hc1 : 2 ^ 52 ≤ m + 1 ∨ e = -1074 := by
    rcases hc with h | h
    · exact Or.inl (by omega)
    · exact Or.inr h
  have hmm : m + 1 = m' := by
    rcases le_total e e' with h | h
    · exact (canonical_unique hm1 he1 hc' h hval).1
    · exact (canonical_unique hm' he1' hc1 h hval.symm).1.symm
  omega

/-- The rounding relation determines the result. -/
theorem roundsTo_unique {neg : Bool} {x : ℚ} {r s : Float64 × Bool}
    (hr : Float64.RoundsTo neg x r) (hs : Float64.RoundsTo neg x s) : r = s := by
  rcases le_or_lt Float64.overflowThreshold x with h | h
  · rw [hr.1 h, hs.1 h]
  · obtain ⟨m, e, rfl, hm, he1, he2, hc, hn, ht⟩ := hr.2 h
    obtain ⟨m', e', rfl, hm', he1', he2', hc', hn', ht'⟩ := hs.2 h
    have hq : Float64.IsMagnitude ((m : ℚ) * (2 : ℚ) ^ e) := ⟨m, e, hm, he1, he2, rfl⟩
    have hq' : Float64.IsMagnitude ((m' : ℚ) * (2 : ℚ) ^ e') := ⟨m', e', hm', he1', he2', rfl⟩
    have heq : |(m' : ℚ) * (2 : ℚ) ^ e' - x| = |(m : ℚ) * (2 : ℚ) ^ e - x| :=
      le_antisymm (hn' _ hq) (hn _ hq')
    rcases lt_trichotomy ((m : ℚ) * (2 : ℚ) ^ e) ((m' : ℚ) * (2 : ℚ) ^ e') with h1 | h1 | h1
    · exfalso
      exact nearest_pair_parity hm he1 he2 hc hm' he1' he2' hc' hn hn' h1
        (ht _ hq' (ne_of_gt h1) heq) (ht' _ hq (ne_of_lt h1) heq.symm)
    · have hme : m = m' ∧ e = e' := by
        rcases le_total e e' with h2 | h2
        · exact canonical_unique hm he1 hc' h2 h1
        · obtain ⟨a, b⟩ := canonical_unique hm' he1' hc h2 h1.symm
          exact ⟨a.symm, b.symm⟩
      rw [hme.1, hme.2]
    · exfalso
      exact nearest_pair_parity hm' he1' he2' hc' hm he1 he2 hc hn' hn h1
        (ht' _ hq (ne_of_gt h1) heq.symm) (ht _ hq' (ne_of_lt h1) heq)

/-! ### The scanner of `readFloat` -/

theorem isDigit_bounds {c : Char} (h : strconv.isDigit c = true) :
    48 ≤ c.toNat ∧ c.toNat ≤ 57 := by
  simpa [strconv.isDigit] using h

theorem isDigit_ne {c x : Char} (h : strconv.isDigit c = true) (hx : strconv.isDigit x = false) :
    c ≠ x := by
  rintro rfl
  rw [h] at hx
  exact Bool.noConfusion hx

theorem lower_digit {c : Char} (h : strconv.isDigit c = true) : strconv.lower c = c.toNat := by
  obtain ⟨h1, h2⟩ := isDigit_bounds h
  unfold strconv.lower
  generalize c.toNat = n at h1 h2
  interval_cases n <;> rfl

/-! ### Character classes -/

theorem lor32_big (n : Nat) (h : 128 ≤ n) : 128 ≤ n ||| 32 := by
  have h1 : (n ||| 32) / 2 / 2 / 2 / 2 / 2 / 2 = n / 2 / 2 / 2 / 2 / 2 / 2 := by
    simp [Nat.or_div_two]
  omega

theorem lor32_small (n : Nat) (h : n < 128) :
    n ||| 32 = if n / 32 % 2 = 1 then n else n + 32 := by
  interval_cases n <;> rfl

theorem char_eq_of_toNat (c : Char) (k : Nat) (h : c.toNat = k) : c = Char.ofNat k := by
  rw [← h, Char.ofNat_toNat]

/-- `lower c` is the code of `c` with the bit of lower case set. -/
theorem lower_cases (c : Char) :
    (128 ≤ c.toNat ∧ 128 ≤ strconv.lower c)
      ∨ (c.toNat < 128 ∧ strconv.lower c = if c.toNat / 32 % 2 = 1 then c.toNat else c.toNat + 32) := by
  unfold strconv.lower
  rcases Nat.lt_or_ge c.toNat 128 with h | h
  · exact Or.inr ⟨h, lor32_small _ h⟩
  · exact Or.inl ⟨h, lor32_big _ h⟩

theorem isDigit_iff (c : Char) : strconv.isDigit c = true ↔ c ∈ FloatText.decDigits := by
  constructor
  · intro h
    obtain ⟨h1, h2⟩ := isDigit_bounds h
    have h3 : c.toNat = 48 ∨ c.toNat = 49 ∨ c.toNat = 50 ∨ c.toNat = 51 ∨ c.toNat = 52
        ∨ c.toNat = 53 ∨ c.toNat = 54 ∨ c.toNat = 55 ∨ c.toNat = 56 ∨ c.toNat = 57 := by omega
    rcases h3 with h | h | h | h | h | h | h | h | h | h <;>
      (rw [char_eq_of_toNat c _ h]; decide)
  · intro h
    simp only [FloatText.decDigits, List.mem_cons, List.mem_singleton, List.not_mem_nil,
      or_false] at h
    rcases h with rfl | rfl | rfl | rfl | rfl | rfl | rfl | rfl | rfl | rfl <;> rfl

theorem isHexLetter_iff (c : Char) : strconv.isHexLetter c = true ↔ c ∈ FloatText.hexLetters := by
  constructor
  · intro h
    have hb : 97 ≤ strconv.lower c ∧ strconv.lower c ≤ 102 := by
      simpa [strconv.isHexLetter] using h
    have h3 : c.toNat = 97 ∨ c.toNat = 98 ∨ c.toNat = 99 ∨ c.toNat = 100 ∨ c.toNat = 101
        ∨ c.toNat = 102 ∨ c.toNat = 65 ∨ c.toNat = 66 ∨ c.toNat = 67 ∨ c.toNat = 68
        ∨ c.toNat = 69 ∨ c.toNat = 70 := by
      rcases lower_cases c with ⟨_, h2⟩ | ⟨h1, h2⟩
      · omega
      · rw [h2] at hb
        split_ifs at hb <;> omega
    rcases h3 with h | h | h | h | h | h | h | h | h | h | h | h <;>
      (rw [char_eq_of_toNat c _ h]; decide)
  · intro h
    simp only [FloatText.hexLetters, List.mem_cons, List.mem_singleton, List.not_mem_nil,
      or_false] at h
    rcases h with rfl | rfl | rfl | rfl | rfl | rfl | rfl | rfl | rfl | rfl | rfl | rfl <;> rfl

theorem isDig_eq (hex : Bool) (c : Char) :
    FloatText.isDig hex c = (strconv.isDigit c || (hex && strconv.isHexLetter c)) := by
  unfold FloatText.isDig
  have h1 : decide (c ∈ FloatText.decDigits) = strconv.isDigit c := by
    rw [Bool.eq_iff_iff, decide_eq_true_iff]
    exact (isDigit_iff c).symm
  have h2 : decide (c ∈ FloatText.hexLetters) = strconv.isHexLetter c := by
    rw [Bool.eq_iff_iff, decide_eq_true_iff]
    exact (isHexLetter_iff c).symm
  rw [h1, h2]

theorem lower_eq_iff (c : Char) (v : Nat) (hv1 : 96 ≤ v) (hv2 : v < 128) :
    strconv.lower c = v ↔ c = Char.ofNat v ∨ c = Char.ofNat (v - 32) := by
  constructor
  · intro h
    have h3 : c.toNat = v ∨ c.toNat = v - 32 := by
      rcases lower_cases c with ⟨_, h2⟩ | ⟨h1, h2⟩
      · omega
      · rw [h2] at h
        split_ifs at h <;> omega
    rcases h3 with h | h
    · exact Or.inl (char_eq_of_toNat c _ h)
    · exact Or.inr (char_eq_of_toNat c _ h)
  · intro h
    have hval : ∀ k : Nat, k < 128 → (Char.ofNat k).toNat = k := by
      intro k hk
      interval_cases k <;> rfl
    rcases h with h | h
    · have h4 : c.toNat = v := by rw [h]; exact hval v hv2
      rcases lower_cases c with ⟨h1, _⟩ | ⟨h1, h2⟩
      · omega
      · rw [h2]
        split_ifs <;> omega
    · have h4 : c.toNat = v - 32 := by rw [h]; exact hval _ (by omega)
      rcases lower_cases c with ⟨h1, _⟩ | ⟨h1, h2⟩
      · omega
      · rw [h2]
        split_ifs <;> omega

theorem lower_eq_e (c : Char) : strconv.lower c = 101 ↔ c = 'e' ∨ c = 'E' :=
  lower_eq_iff c 101 (by norm_num) (by norm_num)

theorem lower_eq_p (c : Char) : strconv.lower c = 112 ↔ c = 'p' ∨ c = 'P' :=
  lower_eq_iff c 112 (by norm_num) (by norm_num)

theorem lower_eq_x (c : Char) : strconv.lower c = 120 ↔ c = 'x' ∨ c = 'X' :=
  lower_eq_iff c 120 (by norm_num) (by norm_num)

theorem lower_eq_b (c : Char) : strconv.lower c = 98 ↔ c = 'b' ∨ c = 'B' :=
  lower_eq_iff c 98 (by norm_num) (by norm_num)

theorem lower_eq_o (c : Char) : strconv.lower c = 111 ↔ c = 'o' ∨ c = 'O' :=
  lower_eq_iff c 111 (by norm_num) (by norm_num)

theorem digVal_digit {c : Char} (h : strconv.isDigit c = true) :
    FloatText.digVal c = c.toNat - 48 := by
  unfold FloatText.digVal
  rw [if_pos ((isDigit_iff c).mp h)]
  rfl

theorem digVal_hexLetter {c : Char} (h : strconv.isHexLetter c = true) :
    FloatText.digVal c = strconv.lower c - 97 + 10 := by
  have h1 := (isHexLetter_iff c).mp h
  simp only [FloatText.hexLetters, List.mem_cons, List.mem_singleton, List.not_mem_nil,
    or_false] at h1
  rcases h1 with rfl | rfl | rfl | rfl | rfl | rfl | rfl | rfl | rfl | rfl | rfl | rfl <;> rfl

/-! ### The digit loop -/

theorem isDig_ne {hex : Bool} {c x : Char} (h : FloatText.isDig hex c = true)
    (hx : FloatText.isDig true x = false) : c ≠ x := by
  rintro rfl
  cases hex
  · have h1 : FloatText.isDig true c = true := by
      unfold FloatText.isDig at h ⊢
      simp only [Bool.false_and, Bool.or_false] at h
      simp [h]
    rw [h1] at hx
    exact Bool.noConfusion hx
  · rw [h] at hx
    exact Bool.noConfusion hx

theorem digitLoop_dig (hex : Bool) (st : strconv.Scan) (c : Char) (cs : List Char)
    (hc : FloatText.isDig hex c = true) :
    strconv.digitLoop hex st (c :: cs)
      = if c = '0' ∧ st.nd = 0 then
          strconv.digitLoop hex { st with sawdigits := true, dp := st.dp - 1 } cs
        else
          strconv.digitLoop hex
            { st with sawdigits := true, nd := st.nd + 1,
                      mantissa := st.mantissa * (if hex then 16 else 10) + FloatText.digVal c } cs := by
  have h1 : c ≠ '_' := isDig_ne hc (by decide)
  have h2 : c ≠ '.' := isDig_ne hc (by decide)
  rw [isDig_eq] at hc
  cases hd : strconv.isDigit c with
  | true =>
    simp only [strconv.digitLoop, if_neg h1, if_neg h2, hd, if_true, digVal_digit hd]
  | false =>
    rw [hd, Bool.false_or, Bool.and_eq_true] at hc
    obtain ⟨hh, hl⟩ := hc
    subst hh
    have h0 : c ≠ '0' := by
      rintro rfl
      simp [strconv.isDigit] at hd
    have h3 : ¬ (c = '0' ∧ st.nd = 0) := fun h => h0 h.1
    simp only [strconv.digitLoop, if_neg h1, if_neg h2, hd, Bool.false_eq_true, if_false, hl,
      and_self, if_true, if_neg h3, digVal_hexLetter hl]

theorem digitLoop_underscore (hex : Bool) (st : strconv.Scan) (cs : List Char) :
    strconv.digitLoop hex st ('_' :: cs)
      = strconv.digitLoop hex { st with underscores := true } cs := by
  simp [strconv.digitLoop]

/-- The digit loop stops at a character that is no digit, no underscore, and
no first point. -/
theorem digitLoop_halt (hex : Bool) (st : strconv.Scan) (c : Char) (cs : List Char)
    (hc : FloatText.isDig hex c = false) (hu : c ≠ '_') (hp : c = '.' → st.sawdot = true) :
    strconv.digitLoop hex st (c :: cs) = (st, c :: cs) := by
  rw [isDig_eq, Bool.or_eq_false_iff] at hc
  obtain ⟨hd, hl⟩ := hc
  have hl2 : ¬ (hex = true ∧ strconv.isHexLetter c = true) := by
    intro h
    rw [h.1, h.2] at hl
    exact Bool.noConfusion hl
  by_cases hdot : c = '.'
  · subst hdot
    simp [strconv.digitLoop, hp rfl]
  · simp only [strconv.digitLoop, if_neg hu, if_neg hdot, hd, Bool.false_eq_true, if_false,
      if_neg hl2]

/-- The digit loop over a run of digits and underscores. -/
theorem digitLoop_run (hex : Bool) : ∀ r : List Char,
    (∀ c ∈ r, FloatText.isDig hex c = true ∨ c = '_') →
    ∀ (st : strconv.Scan) (rest : List Char), (st.nd = 0 → st.mantissa = 0) →
    ∃ st1 : strconv.Scan,
      strconv.digitLoop hex st (r ++ rest) = strconv.digitLoop hex st1 rest
        ∧ st1.mantissa = (r.filter (FloatText.isDig hex)).foldl
            (fun a c => a * (if hex then 16 else 10) + FloatText.digVal c) st.mantissa
        ∧ st1.sawdot = st.sawdot
        ∧ st1.underscores = (st.underscores || decide ('_' ∈ r))
        ∧ st1.sawdigits = (st.sawdigits || r.any (FloatText.isDig hex))
        ∧ st1.dp - (st1.nd : Int) = st.dp - (st.nd : Int) - (FloatText.numDigits hex r : Int)
        ∧ (st1.nd = 0 → st1.mantissa = 0)
  | [], _, st, rest, hinv => ⟨st, rfl, rfl, rfl, by simp, by simp, by simp [FloatText.numDigits], hinv⟩
  | c :: r, hr, st, rest, hinv => by
    have hr1 : ∀ x ∈ r, FloatText.isDig hex x = true ∨ x = '_' :=
      fun x hx => hr x (List.mem_cons_of_mem _ hx)
    rcases hr c (List.mem_cons_self _ _) with hc | hc
    · have hcu : c ≠ '_' := isDig_ne hc (by decide)
      by_cases hz : c = '0' ∧ st.nd = 0
      · obtain ⟨st1, e1, e2, e3, e4, e5, e6, e7⟩ :=
          digitLoop_run hex r hr1 { st with sawdigits := true, dp := st.dp - 1 } rest hinv
        refine ⟨st1, ?_, ?_, e3, ?_, ?_, ?_, e7⟩
        · rw [← e1, List.cons_append, digitLoop_dig _ _ _ _ hc, if_pos hz]
        · rw [e2, List.filter_cons_of_pos hc, List.foldl_cons]
          have hv : FloatText.digVal c = 0 := by rw [hz.1]; rfl
          simp [hinv hz.2, hv]
        · rw [e4]
          simp [hcu.symm]
        · rw [e5]
          simp [hc]
        · rw [e6]
          simp only [FloatText.numDigits, List.filter_cons_of_pos hc, List.length_cons]
          push_cast
          ring
      · obtain ⟨st1, e1, e2, e3, e4, e5, e6, e7⟩ :=
          digitLoop_run hex r hr1
            { st with sawdigits := true, nd := st.nd + 1,
                      mantissa := st.mantissa * (if hex then 16 else 10) + FloatText.digVal c }
            rest (by simp)
        refine ⟨st1, ?_, ?_, e3, ?_, ?_, ?_, e7⟩
        · rw [← e1, List.cons_append, digitLoop_dig _ _ _ _ hc, if_neg hz]
        · rw [e2, List.filter_cons_of_pos hc, List.foldl_cons]
        · rw [e4]
          simp [hcu.symm]
        · rw [e5]
          simp [hc]
        · rw [e6]
          simp only [FloatText.numDigits, List.filter_cons_of_pos hc, List.length_cons]
          push_cast
          ring
    · subst hc
      have hnd : FloatText.isDig hex '_' = false := by cases hex <;> rfl
      obtain ⟨st1, e1, e2, e3, e4, e5, e6, e7⟩ :=
        digitLoop_run hex r hr1 { st with underscores := true } rest hinv
      refine ⟨st1, ?_, ?_, e3, ?_, ?_, ?_, e7⟩
      · rw [← e1, List.cons_append, digitLoop_underscore]
      · rw [e2, List.filter_cons_of_neg (by simp [hnd])]
      · rw [e4]
        simp
      · rw [e5]
        simp [hnd]
      · rw [e6]
        simp only [FloatText.numDigits, List.filter_cons_of_neg (by simp [hnd] : ¬ FloatText.isDig hex '_' = true)]

/-- The digit loop over a mantissa: a run, and optionally a point and a
second run, up to a character that ends the loop. -/
theorem digitLoop_mantissa (hex : Bool) (ip fp tail : List Char) (dot : Bool)
    (hip : ∀ c ∈ ip, FloatText.isDig hex c = true ∨ c = '_')
    (hfp : ∀ c ∈ fp, FloatText.isDig hex c = true ∨ c = '_')
    (hdot : dot = false → fp = [])
    (htail : ∀ c cs, tail = c :: cs →
      FloatText.isDig hex c = false ∧ c ≠ '_' ∧ (c = '.' → dot = true)) :
    ∃ st : strconv.Scan,
      strconv.digitLoop hex
          { mantissa := 0, nd := 0, dp := 0, sawdot := false, sawdigits := false,
            underscores := false } (ip ++ (if dot then '.' :: fp else []) ++ tail) = (st, tail)
        ∧ st.mantissa = FloatText.numVal hex (ip ++ fp)
        ∧ st.underscores = decide ('_' ∈ ip ++ fp)
        ∧ st.sawdigits = (ip ++ fp).any (FloatText.isDig hex)
        ∧ (if st.sawdot then st.dp else (st.nd : Int)) - (st.nd : Int)
            = -(FloatText.numDigits hex fp : Int) := by
  have hend : ∀ st : strconv.Scan, st.sawdot = dot → strconv.digitLoop hex st tail = (st, tail) := by
    intro st hst
    cases htl : tail with
    | nil => rfl
    | cons c cs =>
      obtain ⟨t1, t2, t3⟩ := htail c cs htl
      exact digitLoop_halt hex st c cs t1 t2 (fun h => by rw [hst]; exact t3 h)
  cases dot with
  | false =>
    obtain rfl := hdot rfl
    obtain ⟨st1, e1, e2, e3, e4, e5, e6, e7⟩ := digitLoop_run hex ip hip
      { mantissa := 0, nd := 0, dp := 0, sawdot := false, sawdigits := false,
        underscores := false } tail (fun _ => rfl)
    refine ⟨st1, ?_, ?_, ?_, ?_, ?_⟩
    · simp only [Bool.false_eq_true, if_false, List.append_nil]
      rw [e1, hend st1 e3]
    · rw [e2, List.append_nil]
      rfl
    · rw [e4, List.append_nil]
      simp
    · rw [e5, List.append_nil]
      simp
    · rw [e3]
      simp [FloatText.numDigits]
  | true =>
    obtain ⟨st1, e1, e2, e3, e4, e5, e6, e7⟩ := digitLoop_run hex ip hip
      { mantissa := 0, nd := 0, dp := 0, sawdot := false, sawdigits := false,
        underscores := false } ('.' :: (fp ++ tail)) (fun _ => rfl)
    obtain ⟨st3, g1, g2, g3, g4, g5, g6, g7⟩ := digitLoop_run hex fp hfp
      { st1 with sawdot := true, dp := st1.nd } tail e7
    have hstep : strconv.digitLoop hex st1 ('.' :: (fp ++ tail))
        = strconv.digitLoop hex { st1 with sawdot := true, dp := st1.nd } (fp ++ tail) := by
      have hs : st1.sawdot = false := e3
      simp [strconv.digitLoop, hs]
    refine ⟨st3, ?_, ?_, ?_, ?_, ?_⟩
    · simp only [if_true, List.append_assoc, List.cons_append]
      rw [e1, hstep, g1, hend st3 g3]
    · rw [g2]
      simp only [FloatText.numVal, List.filter_append, List.foldl_append]
      rw [← e2]
    · rw [g4]
      simp only [e4]
      simp [Bool.decide_or]
    · rw [g5]
      simp only [e5]
      simp
    · rw [g3]
      simp only [if_true]
      rw [g6]
      simp

/-! ### The exponent loop and the rule on underscores -/

theorem isDig_false_eq (c : Char) : FloatText.isDig false c = strconv.isDigit c := by
  rw [isDig_eq]
  simp

/-- The exponent loop over a run of digits and underscores reads it to the
end; the exponent is the number written when that is below the cap. -/
theorem expLoop_run : ∀ ds : List Char, (∀ c ∈ ds, FloatText.isDig false c = true ∨ c = '_') →
    ∀ (e : Nat) (us : Bool),
    ∃ e1 : Nat, strconv.expLoop e us ds = (e1, us || decide ('_' ∈ ds), [])
      ∧ ((ds.filter (FloatText.isDig false)).foldl (fun a c => a * 10 + FloatText.digVal c) e < 10000
          → e1 = (ds.filter (FloatText.isDig false)).foldl (fun a c => a * 10 + FloatText.digVal c) e)
  | [], _, e, us => ⟨e, by simp [strconv.expLoop], fun _ => rfl⟩
  | c :: ds, h, e, us => by
    have hds : ∀ x ∈ ds, FloatText.isDig false x = true ∨ x = '_' :=
      fun x hx => h x (List.mem_cons_of_mem _ hx)
    rcases h c (List.mem_cons_self _ _) with hc | hc
    · have hcu : c ≠ '_' := isDig_ne hc (by decide)
      have hd : strconv.isDigit c = true := by rw [← isDig_false_eq]; exact hc
      obtain ⟨e1, g1, g2⟩ := expLoop_run ds hds
        (if e < 10000 then e * 10 + (c.toNat - 48) else e) us
      refine ⟨e1, ?_, ?_⟩
      · simp only [strconv.expLoop, if_neg hcu, hd, if_true, g1]
        simp [hcu.symm]
      · intro hlt
        rw [List.filter_cons_of_pos hc, List.foldl_cons] at hlt ⊢
        have hmono : ∀ (l : List Char) (a : Nat),
            a ≤ l.foldl (fun a c => a * 10 + FloatText.digVal c) a := by
          intro l
          induction l with
          | nil => intro a; exact le_refl _
          | cons x l ih =>
            intro a
            have := ih (a * 10 + FloatText.digVal x)
            simp only [List.foldl_cons]
            omega
        have h1 := hmono (ds.filter (FloatText.isDig false)) (e * 10 + FloatText.digVal c)
        have he : e < 10000 := by omega
        rw [if_pos he, ← digVal_digit hd] at g2
        exact g2 hlt
    · subst hc
      obtain ⟨e1, g1, g2⟩ := expLoop_run ds hds e true
      refine ⟨e1, ?_, ?_⟩
      · simp only [strconv.expLoop, if_true, g1]
        simp
      · intro hlt
        rw [List.filter_cons_of_neg (by decide)] at hlt ⊢
        exact g2 hlt

/-- What the exponent loop reads to its end is a run of digits and
underscores. -/
theorem expLoop_consumed : ∀ (ds : List Char) (e : Nat) (us : Bool),
    (strconv.expLoop e us ds).2.2 = [] → ∀ c ∈ ds, FloatText.isDig false c = true ∨ c = '_'
  | [], _, _, _ => by simp
  | c :: ds, e, us, h => by
    by_cases hcu : c = '_'
    · subst hcu
      simp only [strconv.expLoop, if_true] at h
      intro x hx
      rcases List.mem_cons.mp hx with rfl | hx
      · exact Or.inr rfl
      · exact expLoop_consumed ds _ _ h x hx
    · cases hd : strconv.isDigit c with
      | true =>
        simp only [strconv.expLoop, if_neg hcu, hd, if_true] at h
        intro x hx
        rcases List.mem_cons.mp hx with rfl | hx
        · left
          rw [isDig_false_eq]
          exact hd
        · exact expLoop_consumed ds _ _ h x hx
      | false =>
        simp [strconv.expLoop, hcu, hd] at h

theorem isDig_underscore (hex : Bool) : FloatText.isDig hex '_' = false := by
  cases hex <;> rfl

theorem isDig_blank (hex : Bool) : FloatText.isDig hex ' ' = false := by
  cases hex <;> rfl

/-- The loop of `underscoreOK` checks that all neighbours agree with the rule
on underscores; `saw` stands for the character `a` before the text. -/
theorem underscoreLoop_iff (hex : Bool) : ∀ (t : List Char) (saw a : Char),
    (saw = '0' ↔ FloatText.isDig hex a = true) → (saw = '_' ↔ a = '_') →
    (strconv.underscoreLoop hex saw t = true
      ↔ List.Chain (FloatText.adjacentOK hex) a (t ++ [' ']))
  | [], saw, a, h0, hu => by
    simp only [strconv.underscoreLoop, List.nil_append, List.chain_cons, List.Chain.nil,
      and_true, FloatText.adjacentOK, isDig_blank, Bool.false_eq_true, imp_false]
    constructor
    · intro h
      refine ⟨fun ha => ?_, fun hb => absurd hb (by decide)⟩
      rw [hu.mpr ha] at h
      simp at h
    · intro h
      have : saw ≠ '_' := fun hs => h.1 (hu.mp hs)
      simpa using this
  | c :: t, saw, a, h0, hu => by
    rw [List.cons_append, List.chain_cons]
    have hcls : (strconv.isDigit c || (hex && strconv.isHexLetter c)) = FloatText.isDig hex c :=
      (isDig_eq hex c).symm
    cases hc : FloatText.isDig hex c with
    | true =>
      have hcu : c ≠ '_' := isDig_ne hc (by decide)
      have ih := underscoreLoop_iff hex t '0' c ⟨fun _ => hc, fun _ => rfl⟩
        ⟨fun h => absurd h (by decide), fun h => absurd h hcu⟩
      simp only [strconv.underscoreLoop, hcls, hc, if_true]
      rw [ih]
      simp [FloatText.adjacentOK, hc, hcu]
    | false =>
      by_cases hcu : c = '_'
      · subst hcu
        have ih := underscoreLoop_iff hex t '_' '_'
          ⟨fun h => absurd h (by decide),
            fun h => by rw [isDig_underscore] at h; exact Bool.noConfusion h⟩ Iff.rfl
        simp only [strconv.underscoreLoop, hcls, hc, Bool.false_eq_true, if_false, if_true]
        by_cases hs : saw = '0'
        · have ha := h0.mp hs
          have hau : a ≠ '_' := isDig_ne ha (by decide)
          simp only [hs, bne_self_eq_false, Bool.false_eq_true, if_false]
          rw [ih]
          simp [FloatText.adjacentOK, ha, hau]
        · have ha : FloatText.isDig hex a = false := by
            cases hh : FloatText.isDig hex a
            · rfl
            · exact absurd (h0.mpr hh) hs
          have hne : (saw != '0') = true := by simpa using hs
          simp only [hne, if_true]
          simp [FloatText.adjacentOK, ha]
      · have ih := underscoreLoop_iff hex t '!' c
          ⟨fun h => absurd h (by decide), fun h => by rw [hc] at h; exact Bool.noConfusion h⟩
          ⟨fun h => absurd h (by decide), fun h => absurd h hcu⟩
        simp only [strconv.underscoreLoop, hcls, hc, Bool.false_eq_true, if_false, if_neg hcu]
        by_cases hs : saw = '_'
        · have ha := hu.mp hs
          simp only [hs, if_true]
          simp [FloatText.adjacentOK, ha, hc]
        · have ha : a ≠ '_' := fun h => hs (hu.mpr h)
          simp only [if_neg hs]
          rw [ih]
          simp [FloatText.adjacentOK, ha, hcu]

/-- A text without underscores agrees with the rule on underscores. -/
theorem chain_no_underscore (hex : Bool) : ∀ (l : List Char) (a : Char),
    a ≠ '_' → (∀ c ∈ l, c ≠ '_') → List.Chain (FloatText.adjacentOK hex) a l
  | [], _, _, _ => List.Chain.nil
  | c :: l, a, ha, hl => by
    have hc : c ≠ '_' := hl c (List.mem_cons_self _ _)
    refine List.Chain.cons ⟨fun h => absurd h ha, fun h => absurd h hc⟩ ?_
    exact chain_no_underscore hex l c hc (fun x hx => hl x (List.mem_cons_of_mem _ hx))

/-- The rule on underscores in words: in the text `body`, put after `a` and
before a blank, all neighbours agree with the rule exactly when every
underscore stands right after a digit (`a` when the underscore begins the
text) and right before a digit. -/
theorem chain_iff_between_digits (hex : Bool) : ∀ (body : List Char) (a : Char),
    List.Chain (FloatText.adjacentOK hex) a (body ++ [' '])
      ↔ (a = '_' → FloatText.isDig hex (body.headD ' ') = true)
        ∧ ∀ pre post, body = pre ++ '_' :: post →
            FloatText.isDig hex (pre.getLastD a) = true
              ∧ FloatText.isDig hex (post.headD ' ') = true
  | [], a => by
    simp only [List.nil_append, List.chain_cons, List.Chain.nil, and_true,
      FloatText.adjacentOK, List.headD_nil, isDig_blank, Bool.false_eq_true, imp_false]
    constructor
    · rintro ⟨h, _⟩
      refine ⟨h, ?_⟩
      intro pre post hpp
      exact absurd hpp (by simp)
    · rintro ⟨h, _⟩
      exact ⟨h, fun hb => absurd hb (by decide)⟩
  | c :: t, a => by
    rw [List.cons_append, List.chain_cons, chain_iff_between_digits hex t c]
    simp only [FloatText.adjacentOK, List.headD_cons]
    constructor
    · rintro ⟨⟨h1, h2⟩, h3, h4⟩
      refine ⟨h1, ?_⟩
      intro pre post hpp
      cases pre with
      | nil =>
        simp only [List.nil_append, List.cons.injEq] at hpp
        obtain ⟨rfl, rfl⟩ := hpp
        exact ⟨h2 rfl, h3 rfl⟩
      | cons p pre1 =>
        simp only [List.cons_append, List.cons.injEq] at hpp
        obtain ⟨rfl, rfl⟩ := hpp
        have h5 := h4 pre1 post rfl
        rw [List.getLastD_cons]
        exact h5
    · rintro ⟨h1, h2⟩
      refine ⟨⟨h1, ?_⟩, ?_, ?_⟩
      · intro hc
        subst hc
        exact (h2 [] t rfl).1
      · intro hc
        subst hc
        exact (h2 [] t rfl).2
      · intro pre post hpp
        have h5 := h2 (c :: pre) post (by rw [hpp]; rfl)
        rw [List.getLastD_cons] at h5
        exact h5

/-! ### `underscoreOK` and the exponent of `readFloat` -/

theorem underscoreOK_decimal (sign body : List Char) (hsign : FloatText.IsSign sign)
    (hb : ∀ b bs, body = b :: bs → b ≠ '+' ∧ b ≠ '-')
    (hp : ∀ b c cs, body = b :: c :: cs →
      strconv.lower c ≠ 98 ∧ strconv.lower c ≠ 111 ∧ strconv.lower c ≠ 120) :
    strconv.underscoreOK (sign ++ body) = strconv.underscoreLoop false '^' body := by
  have hbody : strconv.underscoreOK body = strconv.underscoreLoop false '^' body := by
    cases body with
    | nil => rfl
    | cons b bs =>
      obtain ⟨b1, b2⟩ := hb b bs rfl
      cases bs with
      | nil => simp [strconv.underscoreOK, b1, b2]
      | cons c cs =>
        obtain ⟨p1, p2, p3⟩ := hp b c cs rfl
        simp [strconv.underscoreOK, b1, b2, p1, p2, p3]
  have hstrip : ∀ c : Char, (c = '-' ∨ c = '+') →
      strconv.underscoreOK (c :: body) = strconv.underscoreLoop false '^' body := by
    intro c hc
    rw [← hbody]
    cases body with
    | nil => simp [strconv.underscoreOK, hc]
    | cons b bs =>
      obtain ⟨b1, b2⟩ := hb b bs rfl
      simp [strconv.underscoreOK, hc, b1, b2]
  rcases hsign with rfl | rfl | rfl
  · exact hbody
  · exact hstrip '+' (Or.inr rfl)
  · exact hstrip '-' (Or.inl rfl)

theorem underscoreOK_hex (sign : List Char) (mark : Char) (body : List Char)
    (hsign : FloatText.IsSign sign) (hm : strconv.lower mark = 120) :
    strconv.underscoreOK (sign ++ '0' :: mark :: body)
      = strconv.underscoreLoop true '0' body := by
  rcases hsign with rfl | rfl | rfl <;> simp [strconv.underscoreOK, hm]

theorem readExponent_nil (s : List Char) (neg : Bool) (st : strconv.Scan) :
    strconv.readExponent s neg false st []
      = if (st.underscores && !strconv.underscoreOK s) = true then none
        else some ({ neg := neg, hex := false, mantissa := st.mantissa,
                     exp := if st.mantissa = 0 then 0
                            else (if st.sawdot then st.dp else (st.nd : Int)) - (st.nd : Int) },
                   []) := by
  simp [strconv.readExponent]

/-- The exponent part of `readFloat` on an exponent: its letter, a sign, and
a text that begins with a digit. -/
theorem readExponent_exp (s : List Char) (neg hex : Bool) (st : strconv.Scan)
    (ec : Char) (es ed : List Char)
    (hec : strconv.lower ec = if hex then 112 else 101) (hes : FloatText.IsSign es)
    (hd : ed.head?.map (FloatText.isDig false) = some true) :
    strconv.readExponent s neg hex st (ec :: (es ++ ed))
      = if ((strconv.expLoop 0 st.underscores ed).2.1
            && !strconv.underscoreOK
                (s.take (s.length - (strconv.expLoop 0 st.underscores ed).2.2.length))) = true
        then none
        else some ({ neg := neg, hex := hex, mantissa := st.mantissa,
                     exp := if st.mantissa = 0 then 0
                            else (if hex then (if st.sawdot then st.dp else (st.nd : Int)) * 4
                                  else (if st.sawdot then st.dp else (st.nd : Int)))
                              + ((strconv.expLoop 0 st.underscores ed).1 : Int)
                                  * (if es = ['-'] then -1 else 1)
                              - (if hex then (st.nd : Int) * 4 else (st.nd : Int)) },
                   (strconv.expLoop 0 st.underscores ed).2.2) := by
  cases ed with
  | nil => simp at hd
  | cons d t =>
    have hdd : strconv.isDigit d = true := by
      rw [← isDig_false_eq]
      simpa using hd
    have d1 : d ≠ '+' := isDigit_ne hdd (by decide)
    have d2 : d ≠ '-' := isDigit_ne hdd (by decide)
    rcases hes with rfl | rfl | rfl
    · simp only [strconv.readExponent, hec, if_true, List.nil_append, d1, d2, or_self, if_false,
        hdd, Bool.not_true, Bool.false_eq_true]
      simp
    · simp only [strconv.readExponent, hec, if_true, List.cons_append, List.nil_append, true_or,
        hdd, Bool.not_true, Bool.false_eq_true, if_false]
      try simp
    · simp only [strconv.readExponent, hec, if_true, List.cons_append, List.nil_append, or_true,
        hdd, Bool.not_true, Bool.false_eq_true, if_false]
      try simp

/-- When `readFloat` reads an exponent to the end of the text, what is left
after the digits is an exponent: its letter, a sign, a text that begins with a
digit. -/
theorem readExponent_some (s : List Char) (neg hex : Bool) (st : strconv.Scan)
    (c : Char) (cs : List Char) (lit : strconv.FloatLit)
    (h : strconv.readExponent s neg hex st (c :: cs) = some (lit, [])) :
    strconv.lower c = (if hex then 112 else 101)
      ∧ ∃ es ed, cs = es ++ ed ∧ FloatText.IsSign es
          ∧ ed.head?.map (FloatText.isDig false) = some true := by
  by_cases hc : strconv.lower c = (if hex then 112 else 101)
  · refine ⟨hc, ?_⟩
    cases cs with
    | nil => simp [strconv.readExponent, hc] at h
    | cons c1 cs1 =>
      by_cases hs : c1 = '+' ∨ c1 = '-'
      · cases cs1 with
        | nil => simp [strconv.readExponent, hc, hs] at h
        | cons d t =>
          cases hd : strconv.isDigit d with
          | false => simp [strconv.readExponent, hc, hs, hd] at h
          | true =>
            refine ⟨[c1], d :: t, rfl, ?_, ?_⟩
            · rcases hs with rfl | rfl
              · exact Or.inr (Or.inl rfl)
              · exact Or.inr (Or.inr rfl)
            · simp [isDig_false_eq, hd]
      · cases hd : strconv.isDigit c1 with
        | false => simp [strconv.readExponent, hc, hs, hd] at h
        | true =>
          refine ⟨[], c1 :: cs1, rfl, Or.inl rfl, ?_⟩
          simp [isDig_false_eq, hd]
  · exfalso
    cases hex with
    | true =>
      simp only [if_true] at hc
      simp [strconv.readExponent, hc] at h
    | false =>
      simp only [Bool.false_eq_true, if_false] at hc
      simp only [strconv.readExponent, hc, if_false, Bool.false_eq_true] at h
      split_ifs at h <;> simp at h
theorem foldCase_eq_lower (c x : Char) (hx : ¬ (65 ≤ x.toNat ∧ x.toNat ≤ 90))
    (hx2 : 97 ≤ x.toNat ∧ x.toNat ≤ 122) :
    strconv.foldCase c = x ↔ c = x ∨ c = Char.ofNat (x.toNat - 32) := by
  unfold strconv.foldCase
  by_cases hu : 65 ≤ c.toNat ∧ c.toNat ≤ 90
  · rw [if_pos hu]
    have hcx : c ≠ x := by
      rintro rfl
      exact hx hu
    have hc : Char.ofNat c.toNat = c := Char.ofNat_toNat c
    have hxx : Char.ofNat x.toNat = x := Char.ofNat_toNat x
    obtain ⟨h1, h2⟩ := hu
    obtain ⟨h3, h4⟩ := hx2
    constructor
    · intro h
      right
      rw [← h]
      rw [← hc]
      generalize c.toNat = k at h1 h2
      interval_cases k <;> rfl
    · rintro (h | h)
      · exact absurd h hcx
      · rw [h, ← hxx]
        generalize x.toNat = k at h3 h4
        interval_cases k <;> rfl
  · rw [if_neg hu]
    constructor
    · exact Or.inl
    · rintro (h | h)
      · exact h
      · exfalso
        apply hu
        rw [h]
        obtain ⟨h3, h4⟩ := hx2
        generalize x.toNat = k at h3 h4
        interval_cases k <;> decide

theorem foldCase_eq_n (c : Char) : strconv.foldCase c = 'n' ↔ c = 'n' ∨ c = 'N' :=
  foldCase_eq_lower c 'n' (by decide) (by decide)

theorem foldCase_eq_a (c : Char) : strconv.foldCase c = 'a' ↔ c = 'a' ∨ c = 'A' :=
  foldCase_eq_lower c 'a' (by decide) (by decide)

/-! ### `special`: the markers of infinity and not-a-number -/

theorem foldCase_iff (c p : Char) (hp : 97 ≤ p.toNat ∧ p.toNat ≤ 122) :
    strconv.foldCase c = p ↔ (c == p || c == Char.ofNat (p.toNat - 32)) = true := by
  rw [foldCase_eq_lower c p (by omega) hp]
  simp

theorem eqIgnoreCase_length : ∀ (w pre : List Char),
    FloatText.eqIgnoreCase w pre = true → w.length = pre.length
  | [], [], _ => rfl
  | [], _ :: _, h => by simp [FloatText.eqIgnoreCase] at h
  | _ :: _, [], h => by simp [FloatText.eqIgnoreCase] at h
  | c :: w, p :: pre, h => by
    simp only [FloatText.eqIgnoreCase, Bool.and_eq_true] at h
    simp [eqIgnoreCase_length w pre h.2]

theorem commonPrefixLen_le : ∀ (cs pre : List Char),
    strconv.commonPrefixLenIgnoreCase cs pre ≤ cs.length
  | [], _ => by simp [strconv.commonPrefixLenIgnoreCase]
  | _ :: _, [] => by simp [strconv.commonPrefixLenIgnoreCase]
  | c :: cs, p :: pre => by
    have := commonPrefixLen_le cs pre
    simp only [strconv.commonPrefixLenIgnoreCase, List.length_cons]
    split_ifs <;> omega

/-- A text that is a word in some letter case has the whole word as common
prefix with any text the word begins. -/
theorem commonPrefixLen_of_eq : ∀ (w pre q : List Char),
    (∀ p ∈ pre, 97 ≤ p.toNat ∧ p.toNat ≤ 122) → FloatText.eqIgnoreCase w pre = true →
    strconv.commonPrefixLenIgnoreCase w (pre ++ q) = pre.length
  | [], [], q, _, _ => by cases q <;> simp [strconv.commonPrefixLenIgnoreCase]
  | [], _ :: _, _, _, h => by simp [FloatText.eqIgnoreCase] at h
  | _ :: _, [], _, _, h => by simp [FloatText.eqIgnoreCase] at h
  | c :: w, p :: pre, q, hl, h => by
    simp only [FloatText.eqIgnoreCase, Bool.and_eq_true] at h
    have hf := (foldCase_iff c p (hl p (List.mem_cons_self _ _))).mpr h.1
    have ih := commonPrefixLen_of_eq w pre q (fun x hx => hl x (List.mem_cons_of_mem _ hx)) h.2
    simp [strconv.commonPrefixLenIgnoreCase, hf, ih]

/-- A text that is wholly a common prefix with a word is the beginning of
the word in some letter case. -/
theorem eq_of_commonPrefixLen : ∀ (cs pre : List Char),
    (∀ p ∈ pre, 97 ≤ p.toNat ∧ p.toNat ≤ 122) →
    strconv.commonPrefixLenIgnoreCase cs pre = cs.length →
    FloatText.eqIgnoreCase cs (pre.take cs.length) = true
  | [], pre, _, _ => by simp [FloatText.eqIgnoreCase]
  | _ :: _, [], _, h => by simp [strconv.commonPrefixLenIgnoreCase] at h
  | c :: cs, p :: pre, hl, h => by
    simp only [strconv.commonPrefixLenIgnoreCase, List.length_cons] at h
    split_ifs at h with hf
    · have ih := eq_of_commonPrefixLen cs pre (fun x hx => hl x (List.mem_cons_of_mem _ hx))
        (by omega)
      have h1 := (foldCase_iff c p (hl p (List.mem_cons_self _ _))).mp hf
      simp only [List.length_cons, List.take_succ_cons, FloatText.eqIgnoreCase, Bool.and_eq_true]
      exact ⟨h1, ih⟩

theorem infinity_letters : ∀ p ∈ ['i', 'n', 'f', 'i', 'n', 'i', 't', 'y'],
    97 ≤ p.toNat ∧ p.toNat ≤ 122 := by decide

theorem nan_letters : ∀ p ∈ ['n', 'a', 'n'], 97 ≤ p.toNat ∧ p.toNat ≤ 122 := by decide

theorem specialInf_iff (neg : Bool) (t : List Char) (f : Float64) :
    strconv.specialInf neg t = some (f, [])
      ↔ (FloatText.eqIgnoreCase t "inf".toList = true
          ∨ FloatText.eqIgnoreCase t "infinity".toList = true) ∧ f = Float64.inf neg := by
  have hinf : "infinity".toList = ['i', 'n', 'f', 'i', 'n', 'i', 't', 'y'] := rfl
  have hinf3 : "inf".toList = ['i', 'n', 'f'] := rfl
  rw [hinf, hinf3]
  have hle := commonPrefixLen_le t ['i', 'n', 'f', 'i', 'n', 'i', 't', 'y']
  constructor
  · intro h
    unfold strconv.specialInf at h
    rw [hinf] at h
    simp only at h
    generalize hn : strconv.commonPrefixLenIgnoreCase t ['i', 'n', 'f', 'i', 'n', 'i', 't', 'y']
      = n at h hle
    by_cases h1 : 3 < n ∧ n < 8
    · rw [if_pos h1] at h
      simp only [true_or, if_true, Option.some.injEq, Prod.mk.injEq, List.drop_eq_nil_iff] at h
      omega
    · rw [if_neg h1] at h
      split_ifs at h with h2
      simp only [Option.some.injEq, Prod.mk.injEq, List.drop_eq_nil_iff] at h
      obtain ⟨hf, hlen⟩ := h
      have hnl : n = t.length := by omega
      have he := eq_of_commonPrefixLen t _ infinity_letters (hn.trans hnl)
      refine ⟨?_, hf.symm⟩
      rcases h2 with h3 | h8
      · left
        rw [← hnl, h3] at he
        exact he
      · right
        rw [← hnl, h8] at he
        exact he
  · rintro ⟨h, rfl⟩
    unfold strconv.specialInf
    rw [hinf]
    simp only
    rcases h with h | h
    · have hlen := eqIgnoreCase_length _ _ h
      have hc := commonPrefixLen_of_eq t ['i', 'n', 'f'] ['i', 'n', 'i', 't', 'y']
        (fun p hp => infinity_letters p (by simp at hp ⊢; tauto)) h
      simp only [List.cons_append, List.nil_append, List.length_cons, List.length_nil] at hc hlen
      rw [hc]
      simp [hlen]
    · have hlen := eqIgnoreCase_length _ _ h
      have hc := commonPrefixLen_of_eq t ['i', 'n', 'f', 'i', 'n', 'i', 't', 'y'] []
        infinity_letters h
      simp only [List.append_nil, List.length_cons, List.length_nil] at hc hlen
      rw [hc]
      simp [hlen]

theorem eqIgnoreCase_head {c : Char} {t : List Char} {p : Char} {ps : List Char}
    (h : FloatText.eqIgnoreCase (c :: t) (p :: ps) = true) :
    c = p ∨ c = Char.ofNat (p.toNat - 32) := by
  simp only [FloatText.eqIgnoreCase, Bool.and_eq_true, Bool.or_eq_true, beq_iff_eq] at h
  exact h.1

/-- `special` reads a text to its end exactly when the text is a marker: it
gives NaN for `nan`, and the infinity of the sign for `inf` and `infinity`. -/
theorem special_iff (cs : List Char) (f : Float64) :
    strconv.special cs = some (f, [])
      ↔ (FloatText.isNaNMarker cs = true ∧ f = Float64.nan)
        ∨ (FloatText.isInfMarker cs = true
            ∧ f = Float64.inf (decide (cs.head? = some '-'))) := by
  have hnan : "nan".toList = ['n', 'a', 'n'] := rfl
  have hinf : "infinity".toList = ['i', 'n', 'f', 'i', 'n', 'i', 't', 'y'] := rfl
  have hinf3 : "inf".toList = ['i', 'n', 'f'] := rfl
  cases cs with
  | nil =>
    simp [strconv.special, FloatText.isNaNMarker, FloatText.isInfMarker, FloatText.unsigned,
      FloatText.eqIgnoreCase]
  | cons c t =>
    by_cases hs : c = '+' ∨ c = '-'
    · have hnn : FloatText.isNaNMarker (c :: t) = false := by
        unfold FloatText.isNaNMarker
        rw [hnan]
        cases hh : FloatText.eqIgnoreCase (c :: t) ['n', 'a', 'n']
        · rfl
        · exfalso
          rcases eqIgnoreCase_head hh with h | h <;> rcases hs with h2 | h2 <;>
            (rw [h2] at h; revert h; decide)
      have hu : FloatText.unsigned (c :: t) = t := by simp [FloatText.unsigned, hs]
      have hd : decide ((c :: t).head? = some '-') = decide (c = '-') := by simp
      simp only [strconv.special, if_pos hs, specialInf_iff, hnn, Bool.false_eq_true, false_and,
        false_or, FloatText.isInfMarker, hu, Bool.or_eq_true, hd]
    · have hu : FloatText.unsigned (c :: t) = c :: t := by simp [FloatText.unsigned, hs]
      have hneg : decide ((c :: t).head? = some '-') = false := by
        simp only [List.head?_cons, Option.some.injEq, decide_eq_false_iff_not]
        exact fun h => hs (Or.inr h)
      by_cases hi : c = 'i' ∨ c = 'I'
      · have hnn : FloatText.isNaNMarker (c :: t) = false := by
          unfold FloatText.isNaNMarker
          rw [hnan]
          cases hh : FloatText.eqIgnoreCase (c :: t) ['n', 'a', 'n']
          · rfl
          · exfalso
            rcases eqIgnoreCase_head hh with h | h <;> rcases hi with h2 | h2 <;>
              (rw [h2] at h; revert h; decide)
        simp only [strconv.special, if_neg hs, if_pos hi, specialInf_iff, hnn, Bool.false_eq_true,
          false_and, false_or, FloatText.isInfMarker, hu, Bool.or_eq_true, hneg]
      · have hni : FloatText.isInfMarker (c :: t) = false := by
          unfold FloatText.isInfMarker
          rw [hu, hinf, hinf3]
          have h1 : FloatText.eqIgnoreCase (c :: t) ['i', 'n', 'f'] = false := by
            cases hh : FloatText.eqIgnoreCase (c :: t) ['i', 'n', 'f']
            · rfl
            · exact absurd (eqIgnoreCase_head hh) hi
          have h2 : FloatText.eqIgnoreCase (c :: t) ['i', 'n', 'f', 'i', 'n', 'i', 't', 'y']
              = false := by
            cases hh : FloatText.eqIgnoreCase (c :: t) ['i', 'n', 'f', 'i', 'n', 'i', 't', 'y']
            · rfl
            · exact absurd (eqIgnoreCase_head hh) hi
          rw [h1, h2]
          rfl
        simp only [hni, Bool.false_eq_true, false_and, or_false]
        by_cases hn : c = 'n' ∨ c = 'N'
        · simp only [strconv.special, if_neg hs, if_neg hi, if_pos hn, hnan]
          have hle := commonPrefixLen_le (c :: t) ['n', 'a', 'n']
          constructor
          · intro h
            split_ifs at h with h3
            simp only [Option.some.injEq, Prod.mk.injEq, List.drop_eq_nil_iff] at h
            obtain ⟨hf, hlen⟩ := h
            have hnl : (c :: t).length = 3 := by omega
            have he := eq_of_commonPrefixLen (c :: t) _ nan_letters (h3.trans hnl.symm)
            rw [hnl] at he
            exact ⟨he, hf.symm⟩
          · rintro ⟨h, rfl⟩
            unfold FloatText.isNaNMarker at h
            rw [hnan] at h
            have hlen := eqIgnoreCase_length _ _ h
            have hc := commonPrefixLen_of_eq (c :: t) ['n', 'a', 'n'] [] nan_letters h
            simp only [List.append_nil, List.length_cons, List.length_nil] at hc hlen
            rw [if_pos hc]
            simp only [Option.some.injEq, Prod.mk.injEq, true_and, List.drop_eq_nil_iff,
              List.length_cons]
            omega
        · have hnn : FloatText.isNaNMarker (c :: t) = false := by
            unfold FloatText.isNaNMarker
            rw [hnan]
            cases hh : FloatText.eqIgnoreCase (c :: t) ['n', 'a', 'n']
            · rfl
            · exact absurd (eqIgnoreCase_head hh) hn
          simp [strconv.special, hs, hi, hn, hnn]
theorem decChar_facts {c : Char} (h : strconv.isDigit c = true ∨ c = '.') :
    c ≠ '+' ∧ c ≠ '-' ∧ c ≠ 'i' ∧ c ≠ 'I' ∧ c ≠ 'n' ∧ c ≠ 'N' ∧ strconv.lower c ≠ 120
      ∧ ¬ (65 ≤ c.toNat ∧ c.toNat ≤ 90) := by
  rcases h with h | rfl
  · obtain ⟨b1, b2⟩ := isDigit_bounds h
    refine ⟨isDigit_ne h (by decide), isDigit_ne h (by decide), isDigit_ne h (by decide),
      isDigit_ne h (by decide), isDigit_ne h (by decide), isDigit_ne h (by decide), ?_, ?_⟩
    · rw [lower_digit h]
      omega
    · omega
  · decide

theorem special_decimal (sign : List Char) (b : Char) (bs : List Char)
    (hsign : sign = [] ∨ sign = ['+'] ∨ sign = ['-'])
    (hb : strconv.isDigit b = true ∨ b = '.') :
    strconv.special (sign ++ b :: bs) = none := by
  obtain ⟨f1, f2, f3, f4, f5, f6, _, f8⟩ := decChar_facts hb
  have hinf : "infinity".toList = ['i', 'n', 'f', 'i', 'n', 'i', 't', 'y'] := rfl
  have hcp : strconv.commonPrefixLenIgnoreCase (b :: bs)
      ['i', 'n', 'f', 'i', 'n', 'i', 't', 'y'] = 0 := by
    simp only [strconv.commonPrefixLenIgnoreCase, strconv.foldCase, if_neg f8, if_neg f3]
  have hsp : ∀ neg, strconv.specialInf neg (b :: bs) = none := by
    intro neg
    unfold strconv.specialInf
    rw [hinf]
    simp [hcp]
  rcases hsign with rfl | rfl | rfl
  · simp [strconv.special, f1, f2, f3, f4, f5, f6]
  · simp only [List.cons_append, List.nil_append, strconv.special, true_or, if_true, hsp]
  · simp only [List.cons_append, List.nil_append, strconv.special, or_true, if_true, hsp]
theorem hexMark_of_lower : ∀ body : List Char,
    (∀ c ∈ body, strconv.lower c ≠ 120) → strconv.hexMark body = false
  | [], _ => rfl
  | [_], _ => rfl
  | [_, _], _ => rfl
  | _ :: c1 :: _ :: _, hall => by
    have h := hall c1 (by simp)
    simp [strconv.hexMark, h]

/-! ### `readFloat` on a literal -/

theorem readFloat_signed (sign : List Char) (b : Char) (bs : List Char)
    (hsign : FloatText.IsSign sign) (hb1 : b ≠ '+') (hb2 : b ≠ '-') :
    strconv.readFloat (sign ++ b :: bs)
      = if (!(strconv.digitLoop (strconv.hexMark (b :: bs))
                { mantissa := 0, nd := 0, dp := 0, sawdot := false, sawdigits := false,
                  underscores := false }
                (if strconv.hexMark (b :: bs) then (b :: bs).drop 2 else b :: bs)).1.sawdigits) = true
        then none
        else strconv.readExponent (sign ++ b :: bs) (decide (sign = ['-']))
          (strconv.hexMark (b :: bs))
          (strconv.digitLoop (strconv.hexMark (b :: bs))
                { mantissa := 0, nd := 0, dp := 0, sawdot := false, sawdigits := false,
                  underscores := false }
                (if strconv.hexMark (b :: bs) then (b :: bs).drop 2 else b :: bs)).1
          (strconv.digitLoop (strconv.hexMark (b :: bs))
                { mantissa := 0, nd := 0, dp := 0, sawdot := false, sawdigits := false,
                  underscores := false }
                (if strconv.hexMark (b :: bs) then (b :: bs).drop 2 else b :: bs)).2 := by
  rcases hsign with rfl | rfl | rfl
  · simp only [List.nil_append, strconv.readFloat, hb1, hb2, or_self, if_false, decide_False]
    try rfl
  · simp only [List.cons_append, List.nil_append, strconv.readFloat, true_or, if_true]
    try rfl
  · simp only [List.cons_append, List.nil_append, strconv.readFloat, or_true, if_true]
    try rfl

/-- The characters of the text of a literal after its prefix. -/
theorem literal_body_chars (l : FloatText.Literal)
    (hchars : ∀ c ∈ l.ip ++ l.fp, FloatText.isDig l.hex c = true ∨ c = '_')
    (hexp : l.ExpOK) :
    ∀ c ∈ l.body, FloatText.isDig l.hex c = true
      ∨ c ∈ ['_', '.', 'e', 'E', 'p', 'P', '+', '-'] := by
  obtain ⟨sign, hex, mark, ip, dot, fp, exp⟩ := l
  simp only at hchars
  intro c hc
  simp only [FloatText.Literal.body, List.mem_append] at hc
  rcases hc with (hc | hc) | hc
  · rcases hchars c (List.mem_append_left _ hc) with h | h
    · exact Or.inl h
    · right
      rw [h]
      decide
  · cases dot with
    | false => simp at hc
    | true =>
      simp only [if_true, List.mem_cons] at hc
      rcases hc with rfl | hc
      · right
        decide
      · rcases hchars c (List.mem_append_right _ hc) with h | h
        · exact Or.inl h
        · right
          rw [h]
          decide
  · cases exp with
    | none => simp [FloatText.Literal.expText] at hc
    | some p =>
      obtain ⟨ec, es, ed⟩ := p
      simp only [FloatText.Literal.ExpOK] at hexp
      obtain ⟨hec, hes, _, hed⟩ := hexp
      simp only [FloatText.Literal.expText, List.mem_cons, List.mem_append] at hc
      rcases hc with rfl | hc | hc
      · right
        cases hex with
        | true =>
          simp only [if_true] at hec
          rcases hec with rfl | rfl <;> decide
        | false =>
          simp only [Bool.false_eq_true, if_false] at hec
          rcases hec with rfl | rfl <;> decide
      · right
        rcases hes with h | h | h <;> rw [h] at hc <;> simp at hc <;> rw [hc] <;> decide
      · rcases hed c hc with h | h
        · left
          unfold FloatText.isDig at h ⊢
          simp only [Bool.false_and, Bool.or_false] at h
          simp [h]
        · right
          rw [h]
          decide

theorem lower_literal_char {c : Char}
    (h : FloatText.isDig false c = true ∨ c ∈ ['_', '.', 'e', 'E', 'p', 'P', '+', '-']) :
    strconv.lower c ≠ 98 ∧ strconv.lower c ≠ 111 ∧ strconv.lower c ≠ 120 := by
  rcases h with h | h
  · rw [isDig_false_eq] at h
    obtain ⟨b1, b2⟩ := isDigit_bounds h
    rw [lower_digit h]
    omega
  · simp only [List.mem_cons, List.mem_singleton, List.not_mem_nil, or_false] at h
    rcases h with rfl | rfl | rfl | rfl | rfl | rfl | rfl | rfl <;> decide

/-- The text of a literal with a digit begins, after the prefix, with a
digit, an underscore or the point. -/
theorem literal_body_head (l : FloatText.Literal)
    (hchars : ∀ c ∈ l.ip ++ l.fp, FloatText.isDig l.hex c = true ∨ c = '_')
    (hdig : ∃ c ∈ l.ip ++ l.fp, FloatText.isDig l.hex c = true)
    (hdot : l.dot = false → l.fp = []) :
    ∃ b bs, l.body = b :: bs ∧ (FloatText.isDig l.hex b = true ∨ b = '_' ∨ b = '.') := by
  obtain ⟨sign, hex, mark, ip, dot, fp, exp⟩ := l
  simp only at hchars hdig hdot
  cases ip with
  | nil =>
    cases dot with
    | false =>
      exfalso
      obtain ⟨c, hc, _⟩ := hdig
      rw [hdot rfl] at hc
      simp at hc
    | true => exact ⟨'.', _, rfl, Or.inr (Or.inr rfl)⟩
  | cons a ip1 =>
    refine ⟨a, _, rfl, ?_⟩
    rcases hchars a (by simp) with h | h
    · exact Or.inl h
    · exact Or.inr (Or.inl h)

/-- The text of a well-formed decimal literal begins, after the sign, with a
digit or the point. -/
theorem literal_decimal_head (l : FloatText.Literal) (hw : l.WellFormed) (hh : l.hex = false) :
    ∃ b bs, l.body = b :: bs ∧ (strconv.isDigit b = true ∨ b = '.') := by
  obtain ⟨b, bs, hbody, hb⟩ := literal_body_head l hw.2.2.1 hw.2.2.2.1 hw.2.2.2.2.1
  refine ⟨b, bs, hbody, ?_⟩
  have hchain := hw.2.2.2.2.2.2
  rw [hh, hbody] at hchain
  rw [hh] at hb
  rcases hb with h | h | h
  · left
    rw [← isDig_false_eq]
    exact h
  · exfalso
    subst h
    simp only [List.cons_append, Bool.false_eq_true, if_false, List.chain_cons] at hchain
    have h1 := hchain.1.2 rfl
    revert h1
    decide
  · exact Or.inr h

/-- `readFloat` reads a well-formed literal to its end, and hands over its
sign, base and mantissa, and (the exponent digits being below the cap) its
scale. -/
theorem readFloat_literal (l : FloatText.Literal) (hw : l.WellFormed) :
    strconv.special l.render = none ∧
    ∃ x : Int, strconv.readFloat l.render
        = some ({ neg := l.neg, hex := l.hex, mantissa := l.mantissa,
                  exp := if l.mantissa = 0 then 0 else x }, [])
      ∧ (l.expDigits < 10000 → x = l.scale) := by
  have hbc := literal_body_chars l hw.2.2.1 hw.2.2.2.2.2.1
  have hbh := literal_decimal_head l hw
  obtain ⟨sign, hex, mark, ip, dot, fp, exp⟩ := l
  have hw' := hw
  obtain ⟨hsign, hmark, hchars, hdig, hdot, hexp, hchain⟩ := hw'
  simp only at hsign hmark hchars hdig hdot hchain hbc hbh
  have hip : ∀ c ∈ ip, FloatText.isDig hex c = true ∨ c = '_' :=
    fun c hc => hchars c (List.mem_append_left _ hc)
  have hfp : ∀ c ∈ fp, FloatText.isDig hex c = true ∨ c = '_' :=
    fun c hc => hchars c (List.mem_append_right _ hc)
  have htail : ∀ c cs,
      FloatText.Literal.expText ⟨sign, hex, mark, ip, dot, fp, exp⟩ = c :: cs →
      FloatText.isDig hex c = false ∧ c ≠ '_' ∧ (c = '.' → dot = true) := by
    intro c cs hcs
    cases exp with
    | none => simp [FloatText.Literal.expText] at hcs
    | some p =>
      obtain ⟨ec, es, ed⟩ := p
      simp only [FloatText.Literal.ExpOK] at hexp
      simp only [FloatText.Literal.expText, List.cons.injEq] at hcs
      obtain ⟨rfl, _⟩ := hcs
      cases hex with
      | true =>
        simp only [if_true] at hexp
        rcases hexp.1 with rfl | rfl <;> exact ⟨by decide, by decide, fun h => absurd h (by decide)⟩
      | false =>
        simp only [Bool.false_eq_true, if_false] at hexp
        rcases hexp.1 with rfl | rfl <;> exact ⟨by decide, by decide, fun h => absurd h (by decide)⟩
  obtain ⟨st, hloop, hm, hus, hsd, hdp⟩ := digitLoop_mantissa hex ip fp _ dot hip hfp hdot htail
  have hsd1 : st.sawdigits = true := by
    rw [hsd, List.any_eq_true]
    exact hdig
  have hkey : strconv.special (FloatText.Literal.render ⟨sign, hex, mark, ip, dot, fp, exp⟩) = none
      ∧ strconv.readFloat (FloatText.Literal.render ⟨sign, hex, mark, ip, dot, fp, exp⟩)
          = strconv.readExponent (FloatText.Literal.render ⟨sign, hex, mark, ip, dot, fp, exp⟩)
              (decide (sign = ['-'])) hex st
              (FloatText.Literal.expText ⟨sign, hex, mark, ip, dot, fp, exp⟩)
      ∧ strconv.underscoreOK (FloatText.Literal.render ⟨sign, hex, mark, ip, dot, fp, exp⟩)
          = true := by
    cases hex with
    | false =>
      obtain ⟨b, bs, hbody, hb⟩ := hbh rfl
      obtain ⟨f1, f2, _⟩ := decChar_facts hb
      have hrender : FloatText.Literal.render ⟨sign, false, mark, ip, dot, fp, exp⟩
          = sign ++ b :: bs := by
        simp [FloatText.Literal.render, hbody]
      have hlow : ∀ c ∈ b :: bs, strconv.lower c ≠ 98 ∧ strconv.lower c ≠ 111
          ∧ strconv.lower c ≠ 120 := by
        intro c hc
        rw [← hbody] at hc
        exact lower_literal_char (hbc c hc)
      have hhex : strconv.hexMark (b :: bs) = false :=
        hexMark_of_lower _ (fun c hc => (hlow c hc).2.2)
      have hloop2 : strconv.digitLoop false
          { mantissa := 0, nd := 0, dp := 0, sawdot := false, sawdigits := false,
            underscores := false } (b :: bs)
          = (st, FloatText.Literal.expText ⟨sign, false, mark, ip, dot, fp, exp⟩) := by
        rw [← hbody]
        exact hloop
      refine ⟨?_, ?_, ?_⟩
      · rw [hrender]
        exact special_decimal sign b bs hsign hb
      · rw [hrender, readFloat_signed sign b bs hsign f1 f2, hhex]
        simp only [Bool.false_eq_true, if_false, hloop2, hsd1, Bool.not_true]
      · rw [hrender, ← hbody]
        rw [underscoreOK_decimal sign _ hsign]
        · simp only [Bool.false_eq_true, if_false] at hchain
          exact (underscoreLoop_iff false _ '^' ' '
            ⟨fun h => absurd h (by decide), fun h => absurd h (by decide)⟩
            ⟨fun h => absurd h (by decide), fun h => absurd h (by decide)⟩).mpr hchain
        · intro b' bs' hb'
          rw [hbody] at hb'
          obtain ⟨rfl, _⟩ := List.cons.inj hb'
          exact ⟨f1, f2⟩
        · intro b' c cs hb'
          apply hlow
          rw [← hbody, hb']
          simp
    | true =>
      have hlm : strconv.lower mark = 120 := (lower_eq_x mark).mpr (hmark rfl)
      have hrender : FloatText.Literal.render ⟨sign, true, mark, ip, dot, fp, exp⟩
          = sign ++ '0' :: mark :: FloatText.Literal.body ⟨sign, true, mark, ip, dot, fp, exp⟩ := by
        simp [FloatText.Literal.render]
      have hne : ∃ c2 rest, FloatText.Literal.body ⟨sign, true, mark, ip, dot, fp, exp⟩
          = c2 :: rest := by
        obtain ⟨c, hc, _⟩ := hdig
        cases hb : FloatText.Literal.body ⟨sign, true, mark, ip, dot, fp, exp⟩ with
        | cons c2 rest => exact ⟨c2, rest, rfl⟩
        | nil =>
          exfalso
          simp only [FloatText.Literal.body, List.append_eq_nil] at hb
          obtain ⟨⟨h1, h2⟩, _⟩ := hb
          subst h1
          cases dot with
          | true => simp at h2
          | false =>
            rw [hdot rfl] at hc
            simp at hc
      obtain ⟨c2, rest, hbody⟩ := hne
      have hhex : strconv.hexMark ('0' :: mark :: FloatText.Literal.body
          ⟨sign, true, mark, ip, dot, fp, exp⟩) = true := by
        rw [hbody]
        simp [strconv.hexMark, hlm]
      refine ⟨?_, ?_, ?_⟩
      · rw [hrender]
        exact special_decimal sign '0' _ hsign (Or.inl rfl)
      · rw [hrender, readFloat_signed sign '0' _ hsign (by decide) (by decide), hhex]
        simp only [if_true, List.drop_succ_cons, List.drop_zero]
        have hloop2 : strconv.digitLoop true
            { mantissa := 0, nd := 0, dp := 0, sawdot := false, sawdigits := false,
              underscores := false } (FloatText.Literal.body ⟨sign, true, mark, ip, dot, fp, exp⟩)
            = (st, FloatText.Literal.expText ⟨sign, true, mark, ip, dot, fp, exp⟩) := hloop
        simp only [hloop2, hsd1, Bool.not_true, Bool.false_eq_true, if_false]
      · rw [hrender, underscoreOK_hex sign mark _ hsign hlm]
        simp only [if_true] at hchain
        exact (underscoreLoop_iff true _ '0' '0' ⟨fun _ => rfl, fun _ => rfl⟩ Iff.rfl).mpr hchain
  obtain ⟨hspecial, hread, huok⟩ := hkey
  refine ⟨hspecial, ?_⟩
  generalize hs : FloatText.Literal.render ⟨sign, hex, mark, ip, dot, fp, exp⟩ = s at hread huok ⊢
  have hneg : FloatText.Literal.neg ⟨sign, hex, mark, ip, dot, fp, exp⟩ = decide (sign = ['-']) := rfl
  have hmant : FloatText.Literal.mantissa ⟨sign, hex, mark, ip, dot, fp, exp⟩ = st.mantissa :=
    hm.symm
  rw [hneg, hmant, hread]
  cases exp with
  | none =>
    have hh : hex = false := hexp
    subst hh
    refine ⟨(if st.sawdot then st.dp else (st.nd : Int)) - (st.nd : Int), ?_, ?_⟩
    · simp only [FloatText.Literal.expText]
      rw [readExponent_nil, huok]
      simp
    · intro _
      rw [hdp]
      simp [FloatText.Literal.scale, FloatText.Literal.expNeg, FloatText.Literal.expDigits]
  | some p =>
    obtain ⟨ec, es, ed⟩ := p
    simp only [FloatText.Literal.ExpOK] at hexp
    obtain ⟨hec, hes, hd, hed⟩ := hexp
    have hlec : strconv.lower ec = if hex then 112 else 101 := by
      cases hex with
      | true =>
        simp only [if_true] at hec ⊢
        exact (lower_eq_p ec).mpr hec
      | false =>
        simp only [Bool.false_eq_true, if_false] at hec ⊢
        exact (lower_eq_e ec).mpr hec
    obtain ⟨e1, g1, g2⟩ := expLoop_run ed hed 0 st.underscores
    refine ⟨(if hex then (if st.sawdot then st.dp else (st.nd : Int)) * 4
              else (if st.sawdot then st.dp else (st.nd : Int)))
            + (e1 : Int) * (if es = ['-'] then -1 else 1)
            - (if hex then (st.nd : Int) * 4 else (st.nd : Int)), ?_, ?_⟩
    · simp only [FloatText.Literal.expText]
      rw [readExponent_exp s _ hex st ec es ed hlec hes hd, g1]
      simp only [List.length_nil, Nat.sub_zero, List.take_length, huok, Bool.not_true,
        Bool.and_false, Bool.false_eq_true, if_false]
    · intro hE
      have he1 : e1 = FloatText.numVal false ed := by
        apply g2
        simpa [FloatText.Literal.expDigits, FloatText.numVal] using hE
      simp only [FloatText.Literal.scale, FloatText.Literal.expNeg, FloatText.Literal.expDigits,
        decide_eq_true_eq]
      rw [he1]
      clear g1 g2 hread hE
      cases hex <;> cases hsdot : st.sawdot <;> by_cases hesn : es = ['-'] <;>
        simp only [hsdot, hesn, if_true, Bool.false_eq_true, if_false] at hdp ⊢ <;> omega

/-! ### What `readFloat` reads to the end is a literal -/

theorem run_split (hex : Bool) : ∀ t : List Char,
    ∃ r rest, t = r ++ rest ∧ (∀ c ∈ r, FloatText.isDig hex c = true ∨ c = '_')
      ∧ (∀ c cs, rest = c :: cs → FloatText.isDig hex c = false ∧ c ≠ '_')
  | [] => ⟨[], [], rfl, by simp, by simp⟩
  | c :: t => by
    by_cases h : FloatText.isDig hex c = true ∨ c = '_'
    · obtain ⟨r, rest, h1, h2, h3⟩ := run_split hex t
      refine ⟨c :: r, rest, by rw [h1]; rfl, ?_, h3⟩
      intro x hx
      rcases List.mem_cons.mp hx with rfl | hx
      · exact h
      · exact h2 x hx
    · refine ⟨[], c :: t, rfl, by simp, ?_⟩
      intro x xs hx
      obtain ⟨rfl, _⟩ := List.cons.inj hx
      push_neg at h
      refine ⟨?_, h.2⟩
      cases hh : FloatText.isDig hex c
      · rfl
      · exact absurd hh h.1

/-- Every text begins with a mantissa (possibly empty) that the digit loop
reads, followed by a character that stops the loop. -/
theorem mantissa_split (hex : Bool) (t : List Char) :
    ∃ (ip : List Char) (dot : Bool) (fp tail : List Char),
      t = ip ++ (if dot then '.' :: fp else []) ++ tail
        ∧ (∀ c ∈ ip, FloatText.isDig hex c = true ∨ c = '_')
        ∧ (∀ c ∈ fp, FloatText.isDig hex c = true ∨ c = '_')
        ∧ (dot = false → fp = [])
        ∧ (∀ c cs, tail = c :: cs →
            FloatText.isDig hex c = false ∧ c ≠ '_' ∧ (c = '.' → dot = true)) := by
  obtain ⟨ip, r1, h1, hip, hr1⟩ := run_split hex t
  cases r1 with
  | nil =>
    exact ⟨ip, false, [], [], by simp [h1], hip, by simp, fun _ => rfl, by simp⟩
  | cons c cs =>
    by_cases hc : c = '.'
    · subst hc
      obtain ⟨fp, r2, h2, hfp, hr2⟩ := run_split hex cs
      refine ⟨ip, true, fp, r2, by simp [h1, h2], hip, hfp, by simp, ?_⟩
      intro x xs hx
      obtain ⟨g1, g2⟩ := hr2 x xs hx
      exact ⟨g1, g2, fun _ => rfl⟩
    · refine ⟨ip, false, [], c :: cs, by simp [h1], hip, by simp, fun _ => rfl, ?_⟩
      intro x xs hx
      obtain ⟨g1, g2⟩ := hr1 x xs hx
      obtain ⟨hxc, _⟩ := List.cons.inj hx
      exact ⟨g1, g2, fun h => absurd (hxc.trans h) hc⟩

theorem hexMark_true {s1 : List Char} (h : strconv.hexMark s1 = true) :
    ∃ c1 c2 r, s1 = '0' :: c1 :: c2 :: r ∧ strconv.lower c1 = 120 := by
  match s1, h with
  | c0 :: c1 :: c2 :: r, h =>
    simp only [strconv.hexMark, Bool.and_eq_true, decide_eq_true_eq] at h
    exact ⟨c1, c2, r, by rw [h.1], h.2⟩

/-- When the exponent part of `readFloat` succeeds at the end of the text,
what the digit loop left is an exponent or nothing, and the underscores read
were checked. -/
theorem readExponent_accepts (s : List Char) (neg hex : Bool) (st : strconv.Scan)
    (tail : List Char) (lit : strconv.FloatLit)
    (h : strconv.readExponent s neg hex st tail = some (lit, [])) :
    ∃ exp : Option (Char × List Char × List Char),
      (∀ sign mark ip dot fp, (FloatText.Literal.mk sign hex mark ip dot fp exp).expText = tail)
        ∧ (∀ sign mark ip dot fp, (FloatText.Literal.mk sign hex mark ip dot fp exp).ExpOK)
        ∧ (strconv.underscoreOK s = true ∨ (st.underscores = false ∧ ∀ c ∈ tail, c ≠ '_')) := by
  cases tail with
  | nil =>
    cases hex with
    | true => simp [strconv.readExponent] at h
    | false =>
      rw [readExponent_nil] at h
      by_cases hc : (st.underscores && !strconv.underscoreOK s) = true
      · rw [if_pos hc] at h
        exact absurd h (by simp)
      refine ⟨none, fun _ _ _ _ _ => rfl, fun _ _ _ _ _ => rfl, ?_⟩
      cases hu : strconv.underscoreOK s
      · right
        rw [hu] at hc
        refine ⟨?_, by simp⟩
        cases hus : st.underscores
        · rfl
        · rw [hus] at hc
          simp at hc
      · exact Or.inl rfl
  | cons c cs =>
    obtain ⟨hlc, es, ed, rfl, hes, hd⟩ := readExponent_some s neg hex st c cs lit h
    rw [readExponent_exp s neg hex st c es ed hlc hes hd] at h
    by_cases hc : ((strconv.expLoop 0 st.underscores ed).2.1
        && !strconv.underscoreOK
            (s.take (s.length - (strconv.expLoop 0 st.underscores ed).2.2.length))) = true
    · rw [if_pos hc] at h
      exact absurd h (by simp)
    rw [if_neg hc] at h
    simp only [Option.some.injEq, Prod.mk.injEq] at h
    have hed := expLoop_consumed ed 0 st.underscores h.2
    obtain ⟨e1, g1, _⟩ := expLoop_run ed hed 0 st.underscores
    rw [g1] at hc
    simp only [List.length_nil, Nat.sub_zero, List.take_length] at hc
    have hcc : c ≠ '_' := by
      rintro rfl
      cases hex <;> simp [strconv.lower] at hlc
    refine ⟨some (c, es, ed), fun _ _ _ _ _ => rfl, fun _ _ _ _ _ => ?_, ?_⟩
    · refine ⟨?_, hes, hd, hed⟩
      cases hex with
      | true =>
        simp only [if_true] at hlc ⊢
        exact (lower_eq_p c).mp hlc
      | false =>
        simp only [Bool.false_eq_true, if_false] at hlc ⊢
        exact (lower_eq_e c).mp hlc
    · cases hu : strconv.underscoreOK s
      · right
        rw [hu] at hc
        simp only [Bool.not_false, Bool.and_true, Bool.or_eq_true, decide_eq_true_eq, not_or,
          Bool.not_eq_true] at hc
        refine ⟨hc.1, ?_⟩
        intro x hx
        simp only [List.mem_cons, List.mem_append] at hx
        rcases hx with rfl | hx | hx
        · exact hcc
        · rcases hes with h1 | h1 | h1 <;> rw [h1] at hx <;> simp at hx <;> rw [hx] <;> decide
        · rintro rfl
          exact hc.2 hx
      · exact Or.inl rfl

theorem readFloat_unfold (c : Char) (cs : List Char) :
    ∃ sign s1, FloatText.IsSign sign ∧ c :: cs = sign ++ s1
      ∧ strconv.readFloat (c :: cs)
        = if (!(strconv.digitLoop (strconv.hexMark s1)
                { mantissa := 0, nd := 0, dp := 0, sawdot := false, sawdigits := false,
                  underscores := false }
                (if strconv.hexMark s1 then s1.drop 2 else s1)).1.sawdigits) = true
          then none
          else strconv.readExponent (c :: cs) (decide (c = '-')) (strconv.hexMark s1)
            (strconv.digitLoop (strconv.hexMark s1)
                { mantissa := 0, nd := 0, dp := 0, sawdot := false, sawdigits := false,
                  underscores := false }
                (if strconv.hexMark s1 then s1.drop 2 else s1)).1
            (strconv.digitLoop (strconv.hexMark s1)
                { mantissa := 0, nd := 0, dp := 0, sawdot := false, sawdigits := false,
                  underscores := false }
                (if strconv.hexMark s1 then s1.drop 2 else s1)).2 := by
  by_cases hs : c = '+' ∨ c = '-'
  · refine ⟨[c], cs, ?_, rfl, ?_⟩
    · rcases hs with rfl | rfl
      · exact Or.inr (Or.inl rfl)
      · exact Or.inr (Or.inr rfl)
    · simp only [strconv.readFloat, if_pos hs]
      try rfl
  · refine ⟨[], c :: cs, Or.inl rfl, rfl, ?_⟩
    simp only [strconv.readFloat, if_neg hs]
    try rfl

/-- A text that `readFloat` reads to its end is a well-formed literal. -/
theorem readFloat_accepts (cs : List Char) (lit : strconv.FloatLit)
    (h : strconv.readFloat cs = some (lit, [])) : FloatText.IsLiteral cs := by
  cases cs with
  | nil => simp [strconv.readFloat] at h
  | cons c0 cs0 =>
    obtain ⟨sign, s1, hsign, hs, hrf⟩ := readFloat_unfold c0 cs0
    rw [hrf] at h
    clear hrf
    generalize c0 :: cs0 = s at hs h
    generalize decide (c0 = '-') = neg at h
    cases hhex : strconv.hexMark s1 with
    | false =>
      rw [hhex] at h
      simp only [Bool.false_eq_true, if_false] at h
      obtain ⟨ip, dot, fp, tail, hsplit, hip, hfp, hdot, htail⟩ := mantissa_split false s1
      obtain ⟨st, hloop, hm, hus, hsd, hdp⟩ :=
        digitLoop_mantissa false ip fp tail dot hip hfp hdot htail
      rw [hsplit, hloop] at h
      simp only at h
      cases hsd1 : st.sawdigits with
      | false => simp [hsd1] at h
      | true =>
        simp only [hsd1, Bool.not_true, Bool.false_eq_true, if_false] at h
        obtain ⟨exp, hexpText, hExpOK, hflag⟩ := readExponent_accepts s neg false st tail lit h
        have hchars : ∀ c ∈ ip ++ fp, FloatText.isDig false c = true ∨ c = '_' := by
          intro c hc
          rcases List.mem_append.mp hc with hc | hc
          · exact hip c hc
          · exact hfp c hc
        have hdig : ∃ c ∈ ip ++ fp, FloatText.isDig false c = true := by
          rw [hsd, List.any_eq_true] at hsd1
          exact hsd1
        have hbody : FloatText.Literal.body ⟨sign, false, 'x', ip, dot, fp, exp⟩ = s1 := by
          rw [hsplit]
          simp only [FloatText.Literal.body, hexpText]
        refine ⟨⟨sign, false, 'x', ip, dot, fp, exp⟩,
          ⟨hsign, fun hh => Bool.noConfusion hh, hchars, hdig, hdot, hExpOK _ _ _ _ _, ?_⟩, ?_⟩
        · rw [hbody]
          simp only [Bool.false_eq_true, if_false]
          rcases hflag with hok | ⟨hu1, hu2⟩
          · obtain ⟨b, bs, hb, hbc⟩ := literal_body_head ⟨sign, false, 'x', ip, dot, fp, exp⟩
              hchars hdig hdot
            have hall := literal_body_chars ⟨sign, false, 'x', ip, dot, fp, exp⟩ hchars
              (hExpOK _ _ _ _ _)
            rw [hbody] at hb hall
            rw [hs, underscoreOK_decimal sign s1 hsign] at hok
            · exact (underscoreLoop_iff false _ '^' ' '
                ⟨fun h => absurd h (by decide), fun h => absurd h (by decide)⟩
                ⟨fun h => absurd h (by decide), fun h => absurd h (by decide)⟩).mp hok
            · intro b' bs' hb'
              rw [hb] at hb'
              obtain ⟨rfl, _⟩ := List.cons.inj hb'
              rcases hbc with h1 | h1 | h1
              · exact ⟨isDig_ne h1 (by decide), isDig_ne h1 (by decide)⟩
              · rw [h1]
                decide
              · rw [h1]
                decide
            · intro b' c cs hb'
              apply lower_literal_char
              apply hall
              rw [hb']
              simp
          · apply chain_no_underscore false _ ' ' (by decide)
            intro c hc
            rw [hsplit] at hc
            simp only [List.mem_append, List.mem_singleton] at hc
            rw [hu1] at hus
            have hnu : '_' ∉ ip ++ fp := by
              intro hin
              simp [hin] at hus
            rcases hc with ((hc | hc) | hc) | hc
            · rintro rfl
              exact hnu (List.mem_append_left _ hc)
            · cases dot with
              | false => simp at hc
              | true =>
                simp only [if_true, List.mem_cons] at hc
                rcases hc with rfl | hc
                · decide
                · rintro rfl
                  exact hnu (List.mem_append_right _ hc)
            · exact hu2 c hc
            · rw [hc]
              decide
        · rw [hs]
          simp only [FloatText.Literal.render, Bool.false_eq_true, if_false, List.nil_append, hbody]
    | true =>
      rw [hhex] at h
      simp only [if_true] at h
      obtain ⟨c1, c2, r, hs1, hlow⟩ := hexMark_true hhex
      obtain ⟨ip, dot, fp, tail, hsplit, hip, hfp, hdot, htail⟩ := mantissa_split true (c2 :: r)
      obtain ⟨st, hloop, hm, hus, hsd, hdp⟩ :=
        digitLoop_mantissa true ip fp tail dot hip hfp hdot htail
      have hdrop : s1.drop 2 = c2 :: r := by rw [hs1]; rfl
      rw [hdrop, hsplit, hloop] at h
      simp only at h
      cases hsd1 : st.sawdigits with
      | false => simp [hsd1] at h
      | true =>
        simp only [hsd1, Bool.not_true, Bool.false_eq_true, if_false] at h
        obtain ⟨exp, hexpText, hExpOK, hflag⟩ := readExponent_accepts s neg true st tail lit h
        have hchars : ∀ c ∈ ip ++ fp, FloatText.isDig true c = true ∨ c = '_' := by
          intro c hc
          rcases List.mem_append.mp hc with hc | hc
          · exact hip c hc
          · exact hfp c hc
        have hdig : ∃ c ∈ ip ++ fp, FloatText.isDig true c = true := by
          rw [hsd, List.any_eq_true] at hsd1
          exact hsd1
        have hbody : FloatText.Literal.body ⟨sign, true, c1, ip, dot, fp, exp⟩ = c2 :: r := by
          rw [hsplit]
          simp only [FloatText.Literal.body, hexpText]
        refine ⟨⟨sign, true, c1, ip, dot, fp, exp⟩,
          ⟨hsign, fun _ => (lower_eq_x c1).mp hlow, hchars, hdig, hdot, hExpOK _ _ _ _ _, ?_⟩, ?_⟩
        · rw [hbody]
          simp only [if_true]
          rcases hflag with hok | ⟨hu1, hu2⟩
          · rw [hs, hs1, underscoreOK_hex sign c1 _ hsign hlow] at hok
            exact (underscoreLoop_iff true _ '0' '0' ⟨fun _ => rfl, fun _ => rfl⟩ Iff.rfl).mp hok
          · apply chain_no_underscore true _ '0' (by decide)
            intro c hc
            rw [hsplit] at hc
            simp only [List.mem_append, List.mem_singleton] at hc
            rw [hu1] at hus
            have hnu : '_' ∉ ip ++ fp := by
              intro hin
              simp [hin] at hus
            rcases hc with ((hc | hc) | hc) | hc
            · rintro rfl
              exact hnu (List.mem_append_left _ hc)
            · cases dot with
              | false => simp at hc
              | true =>
                simp only [if_true, List.mem_cons] at hc
                rcases hc with rfl | hc
                · decide
                · rintro rfl
                  exact hnu (List.mem_append_right _ hc)
            · exact hu2 c hc
            · rw [hc]
              decide
        · rw [hs, hs1]
          simp only [FloatText.Literal.render, if_true, hbody, List.cons_append, List.nil_append]

/-! ### `ParseFloat` against the grammar -/

theorem string_mk_toList (s : String) : String.mk s.toList = s := rfl

theorem getFloat_string (s : String) : getFloat (.string s) = .ret (strconv.ParseFloat s) := rfl

/-- The conversion of what `readFloat` hands over is the IEEE rounding of
`mantissa * base ^ exp`. -/
theorem toFloat_spec (l : strconv.FloatLit) :
    Float64.RoundsTo l.neg ((l.mantissa : ℚ) * (if l.hex then (2 : ℚ) else 10) ^ l.exp)
      l.toFloat := by
  obtain ⟨neg, hex, m, x⟩ := l
  have key : ∀ b : Nat, 0 < b →
      Float64.RoundsTo neg ((m : ℚ) * (b : ℚ) ^ x)
        (if 0 ≤ x then Float64.round neg (m * b ^ x.toNat) 1
         else Float64.round neg m (b ^ (-x).toNat)) := by
    intro b hb
    have hbq : (b : ℚ) ≠ 0 := by exact_mod_cast hb.ne'
    by_cases hx : 0 ≤ x
    · rw [if_pos hx]
      have h := round_spec neg (m * b ^ x.toNat) 1 (by norm_num)
      have hq : ((m * b ^ x.toNat : Nat) : ℚ) / ((1 : Nat) : ℚ) = (m : ℚ) * (b : ℚ) ^ x := by
        push_cast
        rw [div_one]
        congr 1
        rw [← zpow_natCast, Int.toNat_of_nonneg hx]
      rw [hq] at h
      exact h
    · rw [if_neg hx]
      have h := round_spec neg m (b ^ (-x).toNat) (by positivity)
      have hq : (m : ℚ) / ((b ^ (-x).toNat : Nat) : ℚ) = (m : ℚ) * (b : ℚ) ^ x := by
        push_cast
        rw [div_eq_mul_inv, ← zpow_natCast, ← zpow_neg, Int.toNat_of_nonneg (by omega), neg_neg]
      rw [hq] at h
      exact h
  cases hex with
  | true =>
    have h := key 2 (by norm_num)
    simpa [strconv.FloatLit.toFloat] using h
  | false =>
    have h := key 10 (by norm_num)
    simpa [strconv.FloatLit.toFloat] using h

/-- `ParseFloat` on a well-formed literal: never the syntax error; the value
is the IEEE rounding of the number written (the exponent digits being below
the cap of the scanner), with the range error exactly on overflow. -/
theorem ParseFloat_literal (l : FloatText.Literal) (hw : l.WellFormed) :
    ∃ r : Float64 × Bool,
      strconv.ParseFloat (String.mk l.render)
        = (r.1, if r.2 then some (.rangeError "ParseFloat" (String.mk l.render)) else none)
      ∧ (l.expDigits < 10000 → Float64.RoundsTo l.neg l.value r) := by
  obtain ⟨hsp, x, hrf, hx⟩ := readFloat_literal l hw
  refine ⟨strconv.FloatLit.toFloat
    ⟨l.neg, l.hex, l.mantissa, if l.mantissa = 0 then 0 else x⟩, ?_, ?_⟩
  · unfold strconv.ParseFloat
    simp only [String.toList]
    rw [hsp, hrf]
    simp
  · intro hE
    have h := toFloat_spec ⟨l.neg, l.hex, l.mantissa, if l.mantissa = 0 then 0 else x⟩
    simp only at h
    unfold FloatText.Literal.value
    by_cases hm : l.mantissa = 0
    · rw [hm] at h ⊢
      simp only [Nat.cast_zero, zero_mul] at h ⊢
      exact h
    · rw [if_neg hm, hx hE] at h
      rw [if_neg hm, hx hE]
      exact h

/-- `ParseFloat` on the markers. -/
theorem ParseFloat_markers (s : String) :
    (FloatText.isNaNMarker s.toList = true → strconv.ParseFloat s = (Float64.nan, none))
      ∧ (FloatText.isInfMarker s.toList = true →
          strconv.ParseFloat s = (Float64.inf (decide (s.toList.head? = some '-')), none)) := by
  constructor
  · intro h
    have hsp := (special_iff s.toList Float64.nan).mpr (Or.inl ⟨h, rfl⟩)
    simp only [strconv.ParseFloat, hsp, if_true]
  · intro h
    have hsp := (special_iff s.toList _).mpr (Or.inr ⟨h, rfl⟩)
    simp only [strconv.ParseFloat, hsp, if_true]

/-- `ParseFloat` rejects, with the value zero and the syntax error, every
text that is neither a marker nor a literal. -/
theorem ParseFloat_rejects (s : String) (h1 : FloatText.isNaNMarker s.toList = false)
    (h2 : FloatText.isInfMarker s.toList = false) (h3 : ¬ FloatText.IsLiteral s.toList) :
    strconv.ParseFloat s = (Float64.zero, some (.syntaxError "ParseFloat" s)) := by
  cases hsp : strconv.special s.toList with
  | some p =>
    obtain ⟨f, rest⟩ := p
    cases rest with
    | nil =>
      exfalso
      rcases (special_iff s.toList f).mp hsp with ⟨h, _⟩ | ⟨h, _⟩
      · rw [h1] at h
        exact Bool.noConfusion h
      · rw [h2] at h
        exact Bool.noConfusion h
    | cons a t => simp only [strconv.ParseFloat, hsp, reduceCtorEq, if_false]
  | none =>
    cases hrf : strconv.readFloat s.toList with
    | none => simp only [strconv.ParseFloat, hsp, hrf]
    | some p =>
      obtain ⟨lit, rest⟩ := p
      cases rest with
      | nil => exact absurd (readFloat_accepts _ lit hrf) h3
      | cons a t => simp only [strconv.ParseFloat, hsp, hrf, reduceCtorEq, if_false]

/-- The result of a rounding is never NaN. -/
theorem roundsTo_ne_nan {neg : Bool} {x : ℚ} {r : Float64 × Bool}
    (h : Float64.RoundsTo neg x r) : r.1 ≠ Float64.nan := by
  rcases le_or_lt Float64.overflowThreshold x with hx | hx
  · rw [h.1 hx]
    simp
  · obtain ⟨m, e, hr, _⟩ := h.2 hx
    rw [hr]
    simp

/-- `ParseFloat` answers NaN with a nil error exactly on the marker `nan`, in
any letter case. -/
theorem ParseFloat_nan_iff (s : String) :
    strconv.ParseFloat s = (Float64.nan, none) ↔ FloatText.isNaNMarker s.toList = true := by
  constructor
  · intro h
    cases hsp : strconv.special s.toList with
    | some p =>
      obtain ⟨f, rest⟩ := p
      cases rest with
      | nil =>
        simp only [strconv.ParseFloat, hsp, if_true, Prod.mk.injEq, and_true] at h
        subst h
        rcases (special_iff s.toList Float64.nan).mp hsp with ⟨h, _⟩ | ⟨_, h⟩
        · exact h
        · exact absurd h (by simp)
      | cons a t =>
        simp only [strconv.ParseFloat, hsp, reduceCtorEq, if_false] at h
        simp [Float64.zero] at h
    | none =>
      cases hrf : strconv.readFloat s.toList with
      | none =>
        simp only [strconv.ParseFloat, hsp, hrf] at h
        simp [Float64.zero] at h
      | some p =>
        obtain ⟨lit, rest⟩ := p
        cases rest with
        | nil =>
          simp only [strconv.ParseFloat, hsp, hrf, if_true, Prod.mk.injEq] at h
          exact absurd h.1 (roundsTo_ne_nan (toFloat_spec lit))
        | cons a t =>
          simp only [strconv.ParseFloat, hsp, hrf, reduceCtorEq, if_false] at h
          simp [Float64.zero] at h
  · exact (ParseFloat_markers s).1

/-- The syntax error is returned exactly for the texts outside the grammar. -/
theorem ParseFloat_syntaxError_iff (s : String) :
    (strconv.ParseFloat s).2 = some (.syntaxError "ParseFloat" s)
      ↔ (FloatText.isNaNMarker s.toList = false ∧ FloatText.isInfMarker s.toList = false
          ∧ ¬ FloatText.IsLiteral s.toList) := by
  constructor
  · intro h
    refine ⟨?_, ?_, ?_⟩
    · cases hn : FloatText.isNaNMarker s.toList
      · rfl
      · rw [(ParseFloat_markers s).1 hn] at h
        simp at h
    · cases hn : FloatText.isInfMarker s.toList
      · rfl
      · rw [(ParseFloat_markers s).2 hn] at h
        simp at h
    · rintro ⟨l, hw, hl⟩
      obtain ⟨r, hr, _⟩ := ParseFloat_literal l hw
      rw [← hl, string_mk_toList] at hr
      rw [hr] at h
      simp only at h
      by_cases h4 : r.2 = true
      · rw [if_pos h4] at h
        simp at h
      · rw [if_neg h4] at h
        simp at h
  · rintro ⟨h1, h2, h3⟩
    rw [ParseFloat_rejects s h1 h2 h3]

/-- The model of `ParseFloat` on reference values of binary64: `0.1`, the
largest finite number, the least subnormal number, an underflow to zero, a
hexadecimal literal, underscores, and a misplaced underscore. -/
theorem ParseFloat_reference_values :
    strconv.ParseFloat "0.1" = (Float64.fin false 7205759403792794 (-56), none)
      ∧ strconv.ParseFloat "1.7976931348623157e308" = (Float64.fin false (2 ^ 53 - 1) 971, none)
      ∧ strconv.ParseFloat "5e-324" = (Float64.fin false 1 (-1074), none)
      ∧ strconv.ParseFloat "1e-400" = (Float64.fin false 0 (-1074), none)
      ∧ strconv.ParseFloat "-0x1p-2" = (Float64.fin true (2 ^ 52) (-54), none)
      ∧ strconv.ParseFloat "1_000.5" = (Float64.fin false (2001 * 2 ^ 42) (-43), none)
      ∧ strconv.ParseFloat "1__0" = (Float64.zero, some (.syntaxError "ParseFloat" "1__0")) := by
  refine ⟨?_, ?_, ?_, ?_, ?_, ?_, ?_⟩ <;> decide

/-! ### The coercion of numbers -/

theorem two_pow_64_lt_threshold : (2 : ℚ) ^ 64 < Float64.overflowThreshold := by
  rw [overflowThreshold_eq]
  have h1 : (2 : ℚ) ^ (64 : Int) ≤ (2 : ℚ) ^ (971 : Int) :=
    zpow_le_zpow_right₀ (by norm_num) (by norm_num)
  have h2 : (2 : ℚ) ^ (64 : Int) = (2 : ℚ) ^ 64 := by norm_num
  have hp : (0 : ℚ) < (2 : ℚ) ^ (971 : Int) := by positivity
  rw [h2] at h1
  nlinarith

/-- An integer of at most 64 bits is converted to the nearest `float64`, ties
going to the even significand. -/
theorem ofInt_nearest (i : Int) (h : |i| < 2 ^ 64) :
    ∃ m e, Float64.ofInt i = Float64.fin (decide (i < 0)) m e
      ∧ Float64.RoundsTo (decide (i < 0)) (i.natAbs : ℚ) (Float64.fin (decide (i < 0)) m e, false) := by
  have hs := round_spec (decide (i < 0)) i.natAbs 1 (by norm_num)
  have hq : ((i.natAbs : Nat) : ℚ) / ((1 : Nat) : ℚ) = (i.natAbs : ℚ) := by simp
  rw [hq] at hs
  have hlt : (i.natAbs : ℚ) < Float64.overflowThreshold := by
    have h1 : (i.natAbs : Int) < 2 ^ 64 := by rw [Int.natCast_natAbs]; exact h
    have h2 : i.natAbs < 2 ^ 64 := by exact_mod_cast h1
    have h3 : (i.natAbs : ℚ) < (2 : ℚ) ^ 64 := by exact_mod_cast h2
    exact lt_trans h3 two_pow_64_lt_threshold
  obtain ⟨m, e, hr, _⟩ := hs.2 hlt
  refine ⟨m, e, ?_, ?_⟩
  · unfold Float64.ofInt
    rw [hr]
  · rw [← hr]
    exact hs

/-- C2 (counterexample): the 64-bit integer `2^53 + 1 = 9007199254740993` is
coerced, with a nil error, to the float `2^53 = 9007199254740992`, which is
not equal to the input; and the decimal string `"3.14"` is coerced, with a nil
error, to the float `7070651414971679 * 2^-51`, which is not equal to the
number `314 / 100` the string writes. -/
theorem getFloat_int64_inexact :
    (∃ f, getFloat (.int64 9007199254740993) = .ret (f, none)
        ∧ f.toRat = some 9007199254740992
        ∧ f.toRat ≠ some ((9007199254740993 : Int) : ℚ))
      ∧ (∃ f, getFloat (.string "3.14") = .ret (f, none)
        ∧ f.toRat = some ((7070651414971679 : ℚ) / 2 ^ 51)
        ∧ f.toRat ≠ some ((314 : ℚ) / 100)) := by
  have h : Float64.ofInt 9007199254740993 = Float64.fin false (2 ^ 52) 1 := by decide
  have h2 : getFloat (.string "3.14")
      = .ret (Float64.fin false 7070651414971679 (-51), none) := by decide
  refine ⟨⟨Float64.fin false (2 ^ 52) 1, ?_, ?_, ?_⟩,
    ⟨Float64.fin false 7070651414971679 (-51), h2, ?_, ?_⟩⟩
  · show GoResult.ret (Float64.ofInt 9007199254740993, none) = _
    rw [h]
  · norm_num [Float64.toRat]
  · norm_num [Float64.toRat]
  · simp only [Float64.toRat, Option.some.injEq]
    rw [show (-51 : Int) = -((51 : Nat) : Int) from rfl, zpow_neg, zpow_natCast]
    norm_num
  · simp only [Float64.toRat, Option.some.injEq]
    rw [show (-51 : Int) = -((51 : Nat) : Int) from rfl, zpow_neg, zpow_natCast]
    norm_num

/-- C2 (amended): `getFloat` returns a nil error and the floating value equal
to the input for every signed or unsigned integer, of any width, of magnitude
at most `2^53` (so for every 8-, 16- and 32-bit integer), and for every 32- or
64-bit float, which it returns unchanged.  A 64-bit (or platform-sized)
integer of larger magnitude gets a nil error and the `float64` nearest to it,
ties going to the even significand.  A floating-point literal `l` (sign, digits with an optional
point, optional exponent with digits of value below 10000; underscores between
digits and hexadecimal literals included) gets the IEEE rounding of the number
`l.value` it writes: the error is nil exactly when `l.value` is below
`2^1024 - 2^970`, and then the value is a finite `float64` in IEEE form such
that no `float64` is nearer to `l.value`, with an even significand when
another one is as near; otherwise the result is the infinity of the sign with
the range error.  These properties determine the result.  A literal whose number is a `float64` gets exactly that
number.  So `"3.14"` gives `7070651414971679 * 2^-51`, `"0.5"` gives `0.5`,
`"1e50"` gives a finite number, `"1.7976931348623159e308"` the range error,
and the 64-bit `42` gives `42`. -/
theorem getFloat_numeric_inputs :
    (∀ i : Int, |i| ≤ 2 ^ 53 →
        ∀ v ∈ [GoValue.int64 i, GoValue.int32 i, GoValue.int i, GoValue.int16 i, GoValue.int8 i],
          ∃ f, getFloat v = .ret (f, none) ∧ f.toRat = some (i : ℚ))
      ∧ (∀ n : Nat, n ≤ 2 ^ 53 →
        ∀ v ∈ [GoValue.uint64 n, GoValue.uint32 n, GoValue.uint n, GoValue.uint16 n,
            GoValue.uint8 n, GoValue.uintptr n],
          ∃ f, getFloat v = .ret (f, none) ∧ f.toRat = some (n : ℚ))
      ∧ (∀ f : Float64, getFloat (.float64 f) = .ret (f, none)
          ∧ getFloat (.float32 f) = .ret (f, none))
      ∧ (∀ i : Int, |i| < 2 ^ 64 →
          ∃ m e, Float64.RoundsTo (decide (i < 0)) (i.natAbs : ℚ)
                (Float64.fin (decide (i < 0)) m e, false)
            ∧ (∀ v ∈ [GoValue.int64 i, GoValue.int i],
                getFloat v = .ret (Float64.fin (decide (i < 0)) m e, none))
            ∧ (0 ≤ i → ∀ v ∈ [GoValue.uint64 i.toNat, GoValue.uint i.toNat,
                  GoValue.uintptr i.toNat],
                getFloat v = .ret (Float64.fin false m e, none)))
      ∧ (∀ l : FloatText.Literal, l.WellFormed → l.expDigits < 10000 →
          ∃ r : Float64 × Bool, Float64.RoundsTo l.neg l.value r
            ∧ getFloat (.string (String.mk l.render))
                = .ret (r.1, if r.2 then some (.rangeError "ParseFloat" (String.mk l.render))
                             else none)
            ∧ (r.2 = false ↔ l.value < Float64.overflowThreshold)
            ∧ (Float64.IsMagnitude l.value →
                r.2 = false ∧ r.1.toRat = some ((if l.neg then -1 else 1) * l.value)))
      ∧ (∀ (neg : Bool) (x : ℚ) (r s : Float64 × Bool),
          Float64.RoundsTo neg x r → Float64.RoundsTo neg x s → r = s)
      ∧ getFloat (.string "3.14") = .ret (Float64.fin false 7070651414971679 (-51), none)
      ∧ getFloat (.string "0.5") = .ret (Float64.fin false (2 ^ 52) (-53), none)
      ∧ getFloat (.string "1e50") = .ret (Float64.fin false 4814824860968090 114, none)
      ∧ getFloat (.string "1.7976931348623158e308") = .ret (Float64.fin false (2 ^ 53 - 1) 971, none)
      ∧ getFloat (.string "1.7976931348623159e308")
          = .ret (Float64.inf false, some (.rangeError "ParseFloat" "1.7976931348623159e308"))
      ∧ (∃ f, getFloat (.int64 42) = .ret (f, none) ∧ f.toRat = some 42) := by
  refine ⟨?_, ?_, ?_, ?_, ?_, fun _ _ _ _ hr hs => roundsTo_unique hr hs,
    by decide, by decide, by decide, by decide, by decide, ?_⟩
  · intro i hi v hv
    simp only [List.mem_cons, List.mem_singleton, List.not_mem_nil, or_false] at hv
    rcases hv with rfl | rfl | rfl | rfl | rfl <;> exact ⟨_, rfl, ofInt_exact i hi⟩
  · intro n hn v hv
    have hi : |(n : Int)| ≤ 2 ^ 53 := by
      rw [abs_of_nonneg (Int.natCast_nonneg n)]
      exact_mod_cast hn
    have hq := ofInt_exact (n : Int) hi
    simp only [Int.cast_natCast] at hq
    simp only [List.mem_cons, List.mem_singleton, List.not_mem_nil, or_false] at hv
    rcases hv with rfl | rfl | rfl | rfl | rfl | rfl <;> exact ⟨_, rfl, hq⟩
  · intro f
    exact ⟨rfl, rfl⟩
  · intro i hi
    obtain ⟨m, e, h1, h2⟩ := ofInt_nearest i hi
    refine ⟨m, e, h2, ?_, ?_⟩
    · intro v hv
      simp only [List.mem_cons, List.mem_singleton, List.not_mem_nil, or_false] at hv
      rcases hv with rfl | rfl <;>
        (show GoResult.ret (Float64.ofInt i, none) = _; rw [h1])
    · intro h0 v hv
      have hd : decide (i < 0) = false := by simpa using h0
      simp only [List.mem_cons, List.mem_singleton, List.not_mem_nil, or_false] at hv
      rcases hv with rfl | rfl | rfl <;>
        (show GoResult.ret (Float64.ofInt ((i.toNat : Nat) : Int), none) = _
         rw [Int.toNat_of_nonneg h0, h1, hd])
  · intro l hw hE
    obtain ⟨r, hr, hv⟩ := ParseFloat_literal l hw
    have hrt := hv hE
    refine ⟨r, hrt, ?_, ?_, ?_⟩
    · rw [getFloat_string, hr]
    · constructor
      · intro h2
        by_contra hc
        have h3 := hrt.1 (not_lt.mp hc)
        rw [h3] at h2
        exact Bool.noConfusion h2
      · intro hlt
        obtain ⟨m, e, h3, _⟩ := hrt.2 hlt
        rw [h3]
    · intro hm
      exact roundsTo_exact hrt hm
  · exact ⟨_, rfl, ofInt_exact 42 (by norm_num)⟩

/-- The number written by `-2.50` is the `float64` magnitude `5 * 2^-1`. -/
theorem value_2_50_isMagnitude :
    Float64.IsMagnitude
      (FloatText.Literal.value ⟨['-'], false, 'x', ['2'], true, ['5', '0'], none⟩) := by
  refine ⟨5, -1, by norm_num, by norm_num, by norm_num, ?_⟩
  have hm : FloatText.Literal.mantissa ⟨['-'], false, 'x', ['2'], true, ['5', '0'], none⟩
      = 250 := by decide
  have hs : FloatText.Literal.scale ⟨['-'], false, 'x', ['2'], true, ['5', '0'], none⟩
      = -2 := by decide
  unfold FloatText.Literal.value
  rw [hm, hs]
  norm_num

/-- C2 (amended) at concrete inputs: the 32-bit `-7`, the unsigned 16-bit
`65535`, the 64-bit `2^63 - 1`, and the string `"-2.50"`, whose number is a
`float64`. -/
theorem getFloat_numeric_inputs_witness :
    (∃ f, getFloat (.int32 (-7)) = .ret (f, none) ∧ f.toRat = some ((-7 : Int) : ℚ))
      ∧ (∃ f, getFloat (.uint16 65535) = .ret (f, none) ∧ f.toRat = some ((65535 : Nat) : ℚ))
      ∧ (∃ m e, Float64.RoundsTo (decide ((9223372036854775807 : Int) < 0))
                ((9223372036854775807 : Int).natAbs : ℚ)
                (Float64.fin (decide ((9223372036854775807 : Int) < 0)) m e, false)
            ∧ getFloat (.int64 9223372036854775807)
                = .ret (Float64.fin (decide ((9223372036854775807 : Int) < 0)) m e, none))
      ∧ (∃ r : Float64 × Bool,
          getFloat (.string (String.mk
                (FloatText.Literal.render ⟨['-'], false, 'x', ['2'], true, ['5', '0'], none⟩)))
              = .ret (r.1, if r.2 then some (.rangeError "ParseFloat" (String.mk
                  (FloatText.Literal.render ⟨['-'], false, 'x', ['2'], true, ['5', '0'], none⟩)))
                else none)
            ∧ r.2 = false
            ∧ r.1.toRat = some
                ((if FloatText.Literal.neg ⟨['-'], false, 'x', ['2'], true, ['5', '0'], none⟩
                  then -1 else 1)
                  * FloatText.Literal.value ⟨['-'], false, 'x', ['2'], true, ['5', '0'], none⟩)) :=
  ⟨getFloat_numeric_inputs.1 (-7) (by norm_num) _ (by simp),
    getFloat_numeric_inputs.2.1 65535 (by norm_num) _ (by simp),
    (let ⟨m, e, h1, h2, _⟩ := getFloat_numeric_inputs.2.2.2.1 9223372036854775807 (by norm_num)
     ⟨m, e, h1, h2 _ (by simp)⟩),
    (let ⟨r, _, h2, _, h4⟩ := getFloat_numeric_inputs.2.2.2.2.1
        ⟨['-'], false, 'x', ['2'], true, ['5', '0'], none⟩ (by decide) (by decide)
     ⟨r, h2, (h4 value_2_50_isMagnitude).1, (h4 value_2_50_isMagnitude).2⟩)⟩

/-! ### Strings: errors and the markers -/

/-- A literal is read by `readFloat`, and is no marker for `special`. -/
theorem not_isLiteral_of_special {cs : List Char} {p : Float64 × List Char}
    (h : strconv.special cs = some p) : ¬ FloatText.IsLiteral cs := by
  rintro ⟨l, hw, rfl⟩
  rw [(readFloat_literal l hw).1] at h
  exact Option.noConfusion h

theorem not_isLiteral_of_readFloat {cs : List Char} (h : strconv.readFloat cs = none) :
    ¬ FloatText.IsLiteral cs := by
  rintro ⟨l, hw, rfl⟩
  obtain ⟨_, x, hx, _⟩ := readFloat_literal l hw
  rw [hx] at h
  exact Option.noConfusion h

/-- C3 (counterexample): `"1e400"` is a numeric string (by the pattern of the
specification, and a floating-point literal of the grammar) and not a NaN
marker, yet `getFloat` returns a non-nil error for it (the range error, with
`+Inf`); and `"Inf"` is neither a numeric string nor a NaN marker, yet
`getFloat` returns `+Inf` for it with a nil error. -/
theorem getFloat_error_not_exactly_non_numeric :
    specNumericString "1e400" = true ∧ FloatText.IsLiteral "1e400".toList
      ∧ FloatText.isNaNMarker "1e400".toList = false
      ∧ getFloat (.string "1e400")
          = .ret (Float64.inf false, some (.rangeError "ParseFloat" "1e400"))
      ∧ specNumericString "Inf" = false ∧ ¬ FloatText.IsLiteral "Inf".toList
      ∧ FloatText.isNaNMarker "Inf".toList = false
      ∧ getFloat (.string "Inf") = .ret (Float64.inf false, none) := by
  refine ⟨by decide,
    ⟨⟨[], false, 'x', ['1'], false, [], some ('e', [], ['4', '0', '0'])⟩, by decide, rfl⟩,
    by decide, by decide, by decide, ?_, by decide, by decide⟩
  exact @not_isLiteral_of_special "Inf".toList (Float64.inf false, []) (by decide)

/-- C3 (amended): for every string `s`, `getFloat(s)` returns (it does not
panic), and it returns zero with the syntax error exactly when `s` is outside
the grammar: neither the marker `nan`, nor a marker `inf`/`infinity` with an
optional sign (in any letter case), nor a floating-point literal (sign, digits
of the base with an optional point, exponent; decimal or hexadecimal;
underscores only between digits).  The marker `nan` gets NaN with a nil error,
and nothing else does; a marker of infinity gets the infinity of its sign with
a nil error.  A literal whose exponent digits are below 10000 gets the range
error, with the infinity of its sign, when the number it writes is at least
`2^1024 - 2^970`, and a finite value with a nil error otherwise.  So the error
is non-nil, for such a literal, exactly when the number written is at least
`2^1024 - 2^970`, and, for a string that is not a literal, exactly when the
string is not a marker.  `"not-a-number"` and the empty string get the syntax
error, `"NaN"` gets NaN with a nil error. -/
theorem getFloat_string_errors :
    (∀ s : String, ∃ f e, getFloat (.string s) = .ret (f, e))
      ∧ (∀ s : String,
          (∃ f, getFloat (.string s) = .ret (f, some (.syntaxError "ParseFloat" s)))
            ↔ (FloatText.isNaNMarker s.toList = false ∧ FloatText.isInfMarker s.toList = false
                ∧ ¬ FloatText.IsLiteral s.toList))
      ∧ (∀ s : String, FloatText.isNaNMarker s.toList = false →
          FloatText.isInfMarker s.toList = false → ¬ FloatText.IsLiteral s.toList →
          getFloat (.string s) = .ret (Float64.zero, some (.syntaxError "ParseFloat" s)))
      ∧ (∀ s : String,
          getFloat (.string s) = .ret (Float64.nan, none) ↔ FloatText.isNaNMarker s.toList = true)
      ∧ (∀ s : String, FloatText.isInfMarker s.toList = true →
          getFloat (.string s)
            = .ret (Float64.inf (decide (s.toList.head? = some '-')), none))
      ∧ (∀ l : FloatText.Literal, l.WellFormed → l.expDigits < 10000 →
          (l.value < Float64.overflowThreshold →
              ∃ m e, getFloat (.string (String.mk l.render))
                = .ret (Float64.fin l.neg m e, none))
            ∧ (Float64.overflowThreshold ≤ l.value →
              getFloat (.string (String.mk l.render))
                = .ret (Float64.inf l.neg,
                    some (.rangeError "ParseFloat" (String.mk l.render)))))
      ∧ (∀ l : FloatText.Literal, l.WellFormed → l.expDigits < 10000 →
          ((∃ f e, getFloat (.string (String.mk l.render)) = .ret (f, some e))
            ↔ Float64.overflowThreshold ≤ l.value))
      ∧ (∀ s : String, ¬ FloatText.IsLiteral s.toList →
          ((∃ f e, getFloat (.string s) = .ret (f, some e))
            ↔ (FloatText.isNaNMarker s.toList = false ∧ FloatText.isInfMarker s.toList = false)))
      ∧ getFloat (.string "not-a-number")
          = .ret (Float64.zero, some (.syntaxError "ParseFloat" "not-a-number"))
      ∧ getFloat (.string "") = .ret (Float64.zero, some (.syntaxError "ParseFloat" ""))
      ∧ getFloat (.string "NaN") = .ret (Float64.nan, none) := by
  have hlit : ∀ l : FloatText.Literal, l.WellFormed → l.expDigits < 10000 →
      (l.value < Float64.overflowThreshold →
          ∃ m e, getFloat (.string (String.mk l.render))
            = .ret (Float64.fin l.neg m e, none))
        ∧ (Float64.overflowThreshold ≤ l.value →
          getFloat (.string (String.mk l.render))
            = .ret (Float64.inf l.neg,
                some (.rangeError "ParseFloat" (String.mk l.render)))) := by
    intro l hw hE
    obtain ⟨r, hr, hv⟩ := ParseFloat_literal l hw
    have hrt := hv hE
    constructor
    · intro hlt
      obtain ⟨m, e, h3, _⟩ := hrt.2 hlt
      refine ⟨m, e, ?_⟩
      rw [getFloat_string, hr, h3]
      simp
    · intro hge
      rw [getFloat_string, hr, hrt.1 hge]
      simp
  refine ⟨fun s => ⟨_, _, rfl⟩, ?_, ?_, ?_, ?_, hlit, ?_, ?_, by decide, by decide, by decide⟩
  · intro s
    rw [← ParseFloat_syntaxError_iff]
    constructor
    · rintro ⟨f, hf⟩
      rw [getFloat_string, GoResult.ret.injEq] at hf
      rw [hf]
    · intro h
      refine ⟨(strconv.ParseFloat s).1, ?_⟩
      rw [getFloat_string, ← h]
  · intro s h1 h2 h3
    rw [getFloat_string, ParseFloat_rejects s h1 h2 h3]
  · intro s
    rw [getFloat_string, GoResult.ret.injEq]
    exact ParseFloat_nan_iff s
  · intro s h
    rw [getFloat_string, (ParseFloat_markers s).2 h]
  · intro l hw hE
    obtain ⟨h1, h2⟩ := hlit l hw hE
    constructor
    · rintro ⟨f, e, hfe⟩
      by_contra hc
      obtain ⟨m, e2, h3⟩ := h1 (not_le.mp hc)
      rw [h3] at hfe
      simp at hfe
    · intro hge
      exact ⟨_, _, h2 hge⟩
  · intro s hL
    constructor
    · rintro ⟨f, e, hfe⟩
      rw [getFloat_string, GoResult.ret.injEq] at hfe
      constructor
      · cases hh : FloatText.isNaNMarker s.toList
        · rfl
        · rw [(ParseFloat_markers s).1 hh] at hfe
          simp at hfe
      · cases hh : FloatText.isInfMarker s.toList
        · rfl
        · rw [(ParseFloat_markers s).2 hh] at hfe
          simp at hfe
    · rintro ⟨h1, h2⟩
      exact ⟨_, _, by rw [getFloat_string, ParseFloat_rejects s h1 h2 hL]⟩

/-- The number written by `1e400` is beyond the `float64` range. -/
theorem value_1e400_overflows :
    Float64.overflowThreshold
      ≤ FloatText.Literal.value
          ⟨[], false, 'x', ['1'], false, [], some ('e', [], ['4', '0', '0'])⟩ := by
  have hm : FloatText.Literal.mantissa
      ⟨[], false, 'x', ['1'], false, [], some ('e', [], ['4', '0', '0'])⟩ = 1 := by decide
  have hs : FloatText.Literal.scale
      ⟨[], false, 'x', ['1'], false, [], some ('e', [], ['4', '0', '0'])⟩ = 400 := by decide
  unfold FloatText.Literal.value Float64.overflowThreshold
  rw [hm, hs]
  norm_num

/-- The number written by `+12.5` is within the `float64` range. -/
theorem value_12_5_in_range :
    FloatText.Literal.value ⟨['+'], false, 'x', ['1', '2'], true, ['5'], none⟩
      < Float64.overflowThreshold := by
  have hm : FloatText.Literal.mantissa ⟨['+'], false, 'x', ['1', '2'], true, ['5'], none⟩
      = 125 := by decide
  have hs : FloatText.Literal.scale ⟨['+'], false, 'x', ['1', '2'], true, ['5'], none⟩
      = -1 := by decide
  unfold FloatText.Literal.value Float64.overflowThreshold
  rw [hm, hs]
  norm_num

/-- C3 (amended) at concrete inputs: `"not-a-number"` is outside the grammar
and gets the syntax error; the marker `nAn` gets NaN; the marker `-Infinity`
gets the negative infinity; the literal `1e400` gets the range error and the
literal `+12.5` a finite value with a nil error. -/
theorem getFloat_string_errors_witness :
    getFloat (.string "not-a-number")
        = .ret (Float64.zero, some (.syntaxError "ParseFloat" "not-a-number"))
      ∧ getFloat (.string "nAn") = .ret (Float64.nan, none)
      ∧ getFloat (.string "-Infinity")
          = .ret (Float64.inf (decide ("-Infinity".toList.head? = some '-')), none)
      ∧ getFloat (.string (String.mk (FloatText.Literal.render
            ⟨[], false, 'x', ['1'], false, [], some ('e', [], ['4', '0', '0'])⟩)))
          = .ret (Float64.inf (FloatText.Literal.neg
                ⟨[], false, 'x', ['1'], false, [], some ('e', [], ['4', '0', '0'])⟩),
              some (.rangeError "ParseFloat" (String.mk (FloatText.Literal.render
                ⟨[], false, 'x', ['1'], false, [], some ('e', [], ['4', '0', '0'])⟩))))
      ∧ (∃ m e, getFloat (.string (String.mk (FloatText.Literal.render
            ⟨['+'], false, 'x', ['1', '2'], true, ['5'], none⟩)))
          = .ret (Float64.fin (FloatText.Literal.neg
                ⟨['+'], false, 'x', ['1', '2'], true, ['5'], none⟩) m e, none)) :=
  ⟨getFloat_string_errors.2.2.1 "not-a-number" (by decide) (by decide)
      (not_isLiteral_of_readFloat (by decide)),
    (getFloat_string_errors.2.2.2.1 "nAn").mpr (by decide),
    getFloat_string_errors.2.2.2.2.1 "-Infinity" (by decide),
    (getFloat_string_errors.2.2.2.2.2.1
      ⟨[], false, 'x', ['1'], false, [], some ('e', [], ['4', '0', '0'])⟩ (by decide)
      (by decide)).2 value_1e400_overflows,
    (getFloat_string_errors.2.2.2.2.2.1
      ⟨['+'], false, 'x', ['1', '2'], true, ['5'], none⟩ (by decide) (by decide)).1
      value_12_5_in_range⟩

end RabbitmqExporter
